import Mathlib

/-! # send-post-request: Gateway (client/client.go) and Product Service (server/main.go)

A shallow embedding of the two Go programs of the repository.

* Text (Go `string` / `[]byte` holding UTF-8) is a Lean `String`, a sequence of
  Unicode scalar values.
* A gin handler is a function from the `Context` it is given to the `Context`
  it leaves behind; the Gateway handlers also return the log of what they did
  to the outside world (requests sent, reads from and closes of the downstream
  response body).
* The network is a parameter `Downstream` of the Gateway handlers: the result
  of sending a request is either a Go error or a response whose body is a
  script of `Read` results.
* Library calls (`net/http`, `net/url`, `io/ioutil`, `encoding/json`,
  `encoding/xml`, `strconv`, gin) are modelled by definitions that carry the
  name of the function they stand for.
-/

namespace SendPostRequest

/-! ## Go errors -/

/-- Go `error` values, told apart by where they are made. -/
inductive GoError where
  /-- Go `errors.New(msg)` -/
  | errorsNew (msg : String)
  /-- an error from the HTTP client (`*url.Error`): the request could not be sent -/
  | transport (msg : String)
  /-- an error of `http.NewRequest` (bad method or URL) -/
  | newRequest (msg : String)
  /-- an error returned by `Read` on a response body, other than `io.EOF` -/
  | read (msg : String)
  /-- a decoding error of a binding (syntax, type or range) -/
  | decode (msg : String)
  /-- Go `validator.ValidationErrors`: the struct fields whose `required` tag failed -/
  | validation (fields : List String)
deriving DecidableEq, Repr

deriving instance DecidableEq for Except

/-! ## gin: response writer and context -/

/-- The `gin.ResponseWriter` of one inbound request: `status` is the code that is
(or will be) sent, `written` says whether the header has gone out. -/
structure ResponseWriter where
  status : Nat
  written : Bool
  contentType : Option String
  body : String
deriving DecidableEq, Repr

/-- The inbound `*http.Request` as far as the handlers could look at it. -/
structure InboundRequest where
  method : String
  path : String
  /-- the query of the URL (`URL.RawQuery`), `""` when there is none -/
  query : String
  /-- value of the `Content-Type` header, `""` when absent -/
  contentType : String
  /-- the other headers -/
  header : List (String × String)
  body : String
deriving DecidableEq, Repr

/-- The `*gin.Context` of one inbound request. -/
structure Context where
  request : InboundRequest
  writer : ResponseWriter
  errors : List GoError
  aborted : Bool
deriving DecidableEq, Repr

/-- gin `defaultStatus`: a fresh writer carries `http.StatusOK` and nothing written. -/
def ResponseWriter.reset : ResponseWriter :=
  { status := 200, written := false, contentType := none, body := "" }

/-- The context gin hands to the handler chain of a new inbound request. -/
def Context.fresh (req : InboundRequest) : Context :=
  { request := req, writer := ResponseWriter.reset, errors := [], aborted := false }

/-- gin `(*responseWriter).WriteHeader`: remember the code unless the header is
already out. -/
def ResponseWriter.WriteHeader (w : ResponseWriter) (code : Nat) : ResponseWriter :=
  if 0 < code ∧ w.status ≠ code then
    if w.written then w else { w with status := code }
  else w

/-- gin `(*responseWriter).WriteHeaderNow`. -/
def ResponseWriter.WriteHeaderNow (w : ResponseWriter) : ResponseWriter :=
  if w.written then w else { w with written := true }

/-- gin `(*responseWriter).WriteString`: send the header if needed, then the bytes. -/
def ResponseWriter.WriteString (w : ResponseWriter) (s : String) : ResponseWriter :=
  let w1 := w.WriteHeaderNow
  { w1 with body := w1.body ++ s }

/-- gin `(*Context).Status`. -/
def Context.Status (c : Context) (code : Nat) : Context :=
  { c with writer := c.writer.WriteHeader code }

/-- gin `(*Context).Abort`. -/
def Context.Abort (c : Context) : Context :=
  { c with aborted := true }

/-- gin `(*Context).AbortWithStatus`: `c.Status(code); c.Writer.WriteHeaderNow(); c.Abort()`. -/
def Context.AbortWithStatus (c : Context) (code : Nat) : Context :=
  let c1 := c.Status code
  let c2 := { c1 with writer := c1.writer.WriteHeaderNow }
  c2.Abort

/-- gin `(*Context).Error`: push the error on `c.Errors`. -/
def Context.Error (c : Context) (err : GoError) : Context :=
  { c with errors := c.errors ++ [err] }

/-- gin `(*Context).AbortWithError`: `c.AbortWithStatus(code); return c.Error(err)`. -/
def Context.AbortWithError (c : Context) (code : Nat) (err : GoError) : Context :=
  (c.AbortWithStatus code).Error err

/-! ## net/http client side: requests, responses, response bodies -/

/-- The outbound `*http.Request` a Gateway handler builds. -/
structure OutRequest where
  method : String
  url : String
  /-- value of the `Content-Type` header -/
  contentType : String
  body : String
deriving DecidableEq, Repr

/-- What one call of `Read` on a response body gives besides the bytes. -/
inductive ReadEnd where
  /-- The call returned `err == nil` -/
  | more
  /-- The call returned `err == io.EOF` -/
  | eof
  /-- any other error -/
  | fail (msg : String)
deriving DecidableEq, Repr

/-- One call of `Read`: the bytes it delivers and the error it returns. -/
structure ReadStep where
  data : String
  outcome : ReadEnd
deriving DecidableEq, Repr

/-- A response body (`io.ReadCloser`) is the script of its coming `Read` results;
once the script is used up, `Read` returns `0, io.EOF`. -/
abbrev BodyScript := List ReadStep

/-- The `*http.Response` the client hands back. -/
structure DownResponse where
  statusCode : Nat
  body : BodyScript
deriving DecidableEq, Repr

/-- The outcome of sending a request, for every request: the behaviour of the
network and of whatever listens at the other end. -/
abbrev Downstream := OutRequest → Except GoError DownResponse

/-- What a handler does to the outside world, in order. -/
inductive Event where
  /-- the request was handed to the HTTP client (one round trip) -/
  | send (req : OutRequest)
  /-- one call of `Body.Read` and what it returned -/
  | read (step : ReadStep)
  /-- one call of `Body.Close`, with the part of the body not yet read -/
  | close (unread : BodyScript)
deriving DecidableEq, Repr

/-- A handler run: the context it leaves and the log of its outside effects. -/
structure Run where
  ctx : Context
  log : List Event
deriving DecidableEq, Repr

/-- Result of `ioutil.ReadAll`: the bytes gathered, the error (none for `io.EOF`),
the `Read` calls made and what is left of the body. -/
structure ReadAllResult where
  all : String
  err : Option GoError
  reads : List Event
  rest : BodyScript
deriving DecidableEq, Repr

/-- Go `ioutil.ReadAll(r)`: call `Read` until it returns an error; `io.EOF` is not
reported as an error. `acc` holds the bytes gathered so far. -/
def readAllFrom : BodyScript → String → ReadAllResult
  | [], acc =>
      { all := acc, err := none, reads := [Event.read ⟨"", ReadEnd.eof⟩], rest := [] }
  | step :: rest, acc =>
      match step.outcome with
      | ReadEnd.more =>
          let r := readAllFrom rest (acc ++ step.data)
          { r with reads := Event.read step :: r.reads }
      | ReadEnd.eof =>
          { all := acc ++ step.data, err := none, reads := [Event.read step], rest := rest }
      | ReadEnd.fail msg =>
          { all := acc ++ step.data, err := some (GoError.read msg),
            reads := [Event.read step], rest := rest }

/-- Go `ioutil.ReadAll(response.Body)`. -/
def ReadAll (body : BodyScript) : ReadAllResult :=
  readAllFrom body ""

/-! ## net/url: form encoding -/

/-- Upper-case hexadecimal digit, `"0123456789ABCDEF"[n]`. -/
def upperhex (n : Nat) : Char :=
  if n < 10 then Char.ofNat (48 + n) else Char.ofNat (55 + n)

/-- The UTF-8 bytes of one character. -/
def utf8EncodeChar (c : Char) : List Nat :=
  let n := c.toNat
  if n < 0x80 then [n]
  else if n < 0x800 then [0xC0 + n / 64, 0x80 + n % 64]
  else if n < 0x10000 then [0xE0 + n / 4096, 0x80 + (n / 64) % 64, 0x80 + n % 64]
  else [0xF0 + n / 262144, 0x80 + (n / 4096) % 64, 0x80 + (n / 64) % 64, 0x80 + n % 64]

/-- The UTF-8 bytes of a text. -/
def utf8Encode (cs : List Char) : List Nat :=
  cs.flatMap utf8EncodeChar

/-- net/url `shouldEscape(c, encodeQueryComponent)` on one byte: only letters,
digits and `-_.~` stay as they are. -/
def shouldEscape (b : Nat) : Bool :=
  !((97 ≤ b && b ≤ 122) || (65 ≤ b && b ≤ 90) || (48 ≤ b && b ≤ 57)
    || b == 45 || b == 95 || b == 46 || b == 126)

/-- net/url `escape(s, encodeQueryComponent)` on one byte. -/
def escapeByte (b : Nat) : List Char :=
  if b = 32 then ['+']
  else if shouldEscape b then ['%', upperhex (b / 16), upperhex (b % 16)]
  else [Char.ofNat b]

/-- Go `url.QueryEscape`. -/
def QueryEscape (s : String) : String :=
  String.mk ((utf8Encode s.data).flatMap escapeByte)

/-- Byte-wise (here: code point-wise) order of Go strings, `a < b`. -/
def stringLess : List Char → List Char → Bool
  | [], [] => false
  | [], _ :: _ => true
  | _ :: _, [] => false
  | a :: as, b :: bs =>
      if a.toNat < b.toNat then true
      else if b.toNat < a.toNat then false
      else stringLess as bs

/-- Go `url.Values`: a map from key to the list of its values, kept as an
association list with one entry per key. -/
abbrev Values := List (String × List String)

/-- Insert an entry into a list of entries sorted by key. -/
def insertByKey (e : String × List String) : Values → Values
  | [] => [e]
  | x :: xs => if stringLess x.1.data e.1.data then x :: insertByKey e xs else e :: x :: xs

/-- The entries in the order of `sort.Strings(keys)`. -/
def sortByKey (v : Values) : Values :=
  v.foldr insertByKey []

/-- The `key=value` pieces of `Values.Encode`, in order. -/
def encodePieces (v : Values) : List String :=
  (sortByKey v).flatMap fun kv => kv.2.map fun x => QueryEscape kv.1 ++ "=" ++ QueryEscape x

/-- Go `url.Values.Encode`: the pieces of the sorted keys joined by `&`. -/
def Values.Encode (v : Values) : String :=
  "&".intercalate (encodePieces v)

/-! ## net/http client side: building and sending requests -/

/-- net/http `validMethod`: a non-empty token. -/
def validMethod (m : String) : Bool :=
  !m.data.isEmpty && m.data.all fun c =>
    c.isAlphanum || "!#$%&*+-.^_|~".data.contains c || c == Char.ofNat 39 || c == Char.ofNat 96

/-- The part of `url.Parse` that can reject a raw URL without looking further than
single bytes: an ASCII control character anywhere in it. -/
def stringContainsCTLByte (s : String) : Bool :=
  s.data.any fun c => c.toNat < 32 || c.toNat == 127

/-- Go `http.NewRequest(method, url, body)`: it fails on an invalid method and on a
URL that does not parse; of the checks of `url.Parse` the model has the one for
control characters. The new request carries no content type yet. -/
def NewRequest (method url body : String) : Except GoError OutRequest :=
  if !validMethod method then Except.error (GoError.newRequest "net/http: invalid method")
  else if stringContainsCTLByte url then
    Except.error (GoError.newRequest "net/url: invalid control character in URL")
  else Except.ok { method := method, url := url, contentType := "", body := body }

/-- Go `request.Header.Set("Content-Type", ct)`. -/
def OutRequest.setContentType (r : OutRequest) (ct : String) : OutRequest :=
  { r with contentType := ct }

/-- Go `(*http.Client).Do(request)`: one round trip through the network. The attempt
is logged whether or not it succeeds. -/
def clientDo (net : Downstream) (request : OutRequest) :
    Except GoError DownResponse × List Event :=
  (net request, [Event.send request])

/-- Go `http.Post(url, contentType, body)`: `NewRequest("POST", url, body)`, set the
`Content-Type` header, `DefaultClient.Do(req)`. -/
def httpPost (net : Downstream) (url contentType body : String) :
    Except GoError DownResponse × List Event :=
  match NewRequest "POST" url body with
  | Except.error err => (Except.error err, [])
  | Except.ok req => clientDo net (req.setContentType contentType)

/-- Go `http.PostForm(url, data)`:
`Post(url, "application/x-www-form-urlencoded", strings.NewReader(data.Encode()))`. -/
def httpPostForm (net : Downstream) (url : String) (data : Values) :
    Except GoError DownResponse × List Event :=
  httpPost net url "application/x-www-form-urlencoded" (Values.Encode data)

/-! ## client/client.go: the Gateway -/

/-- The constant `AddProductAPI` (client.go 15). -/
def AddProductAPI : String := "http://localhost:7586/product"

/-- Handler `AddProductForUrlencodedHandler` (client.go 26-41). The deferred
`response.Body.Close()` runs when the function returns, so it is the last entry
of the log on both paths that come after the `defer`. -/
def AddProductForUrlencodedHandler (net : Downstream) (ctx : Context) : Run :=
  match httpPost net AddProductAPI "application/x-www-form-urlencoded"
      "name=iPhoneX&number=100" with
  | (Except.error err, sent) =>
      { ctx := ctx.AbortWithError 400 err, log := sent }
  | (Except.ok response, sent) =>
      let r := ReadAll response.body
      match r.err with
      | some _ =>
          { ctx := ctx.AbortWithError 500 (GoError.errorsNew "request api has error"),
            log := sent ++ r.reads ++ [Event.close r.rest] }
      | none =>
          { ctx := { ctx with writer := ctx.writer.WriteString r.all },
            log := sent ++ r.reads ++ [Event.close r.rest] }

/-- Handler `AddProductForPostFormHandler` (client.go 43-58). -/
def AddProductForPostFormHandler (net : Downstream) (ctx : Context) : Run :=
  match httpPostForm net AddProductAPI [("name", ["iMac"]), ("number", ["1000"])] with
  | (Except.error err, sent) =>
      { ctx := ctx.AbortWithError 400 err, log := sent }
  | (Except.ok response, sent) =>
      let r := ReadAll response.body
      match r.err with
      | some _ =>
          { ctx := ctx.AbortWithError 500 (GoError.errorsNew "request api has error"),
            log := sent ++ r.reads ++ [Event.close r.rest] }
      | none =>
          { ctx := { ctx with writer := ctx.writer.WriteString r.all },
            log := sent ++ r.reads ++ [Event.close r.rest] }

/-- Handler `AddProductForJSONHandler` (client.go 60-83). -/
def AddProductForJSONHandler (net : Downstream) (ctx : Context) : Run :=
  match NewRequest "POST" AddProductAPI
      "\x7b\"name\": \"MacPro\", \"number\": 10000\x7d" with
  | Except.error err =>
      { ctx := ctx.AbortWithError 400 err, log := [] }
  | Except.ok request0 =>
      let request := request0.setContentType "application/json"
      match clientDo net request with
      | (Except.error _, sent) =>
          { ctx := ctx.AbortWithError 500 (GoError.errorsNew "request api has error"),
            log := sent }
      | (Except.ok response, sent) =>
          let r := ReadAll response.body
          match r.err with
          | some _ =>
              { ctx := ctx.AbortWithError 500 (GoError.errorsNew "request api has error"),
                log := sent ++ r.reads ++ [Event.close r.rest] }
          | none =>
              { ctx := { ctx with writer := ctx.writer.WriteString r.all },
                log := sent ++ r.reads ++ [Event.close r.rest] }

/-- Handler `AddProductForXMLHandler` (client.go 85-108). -/
def AddProductForXMLHandler (net : Downstream) (ctx : Context) : Run :=
  match NewRequest "POST" AddProductAPI
      "<Product><name>MacAir</name><number>100000</number></Product>" with
  | Except.error err =>
      { ctx := ctx.AbortWithError 400 err, log := [] }
  | Except.ok request0 =>
      let request := request0.setContentType "application/xml"
      match clientDo net request with
      | (Except.error _, sent) =>
          { ctx := ctx.AbortWithError 500 (GoError.errorsNew "request api has error"),
            log := sent }
      | (Except.ok response, sent) =>
          let r := ReadAll response.body
          match r.err with
          | some _ =>
              { ctx := ctx.AbortWithError 500 (GoError.errorsNew "request api has error"),
                log := sent ++ r.reads ++ [Event.close r.rest] }
          | none =>
              { ctx := { ctx with writer := ctx.writer.WriteString r.all },
                log := sent ++ r.reads ++ [Event.close r.rest] }

/-- The four routes of the Gateway (`main`, client.go 19-22). -/
inductive Endpoint where
  | urlencoded
  | postForm
  | json
  | xml
deriving DecidableEq, Repr

/-- The route table of `main`: the path of each endpoint. -/
def Endpoint.path : Endpoint → String
  | Endpoint.urlencoded => "/add-product-for-urlencoded"
  | Endpoint.postForm => "/add-product-for-post-form"
  | Endpoint.json => "/add-product-for-json"
  | Endpoint.xml => "/add-product-for-xml"

/-- The route table of `main`: the handler registered for each endpoint. -/
def Endpoint.handler : Endpoint → Downstream → Context → Run
  | Endpoint.urlencoded => AddProductForUrlencodedHandler
  | Endpoint.postForm => AddProductForPostFormHandler
  | Endpoint.json => AddProductForJSONHandler
  | Endpoint.xml => AddProductForXMLHandler

/-- The requests a run handed to the HTTP client, in order. -/
def sends : List Event → List OutRequest
  | [] => []
  | Event.send r :: es => r :: sends es
  | _ :: es => sends es

/-- How many times `Body.Close` was called in a run. -/
def closeCount : List Event → Nat
  | [] => 0
  | Event.close _ :: es => closeCount es + 1
  | _ :: es => closeCount es

/-- Whether every `Close` of the log comes after a `Read` that returned `io.EOF`,
that is, after the body was read to its end. `seenEOF` says whether such a
`Read` has already happened. -/
def closesAfterDrain : List Event → Bool → Bool
  | [], _ => true
  | Event.read step :: es, seenEOF =>
      closesAfterDrain es (seenEOF || step.outcome == ReadEnd.eof)
  | Event.close _ :: es, seenEOF => seenEOF && closesAfterDrain es seenEOF
  | Event.send _ :: es, seenEOF => closesAfterDrain es seenEOF

/-! ## server/main.go: the record -/

/-- The struct `Product` (main.go 10-13). `Number` is a Go `int`, taken to be
64 bits wide: every decoder below only stores values of that range. -/
structure Product where
  Name : String
  Number : Int
deriving DecidableEq, Repr

/-- The zero value `var pro Product`. -/
def Product.zero : Product := { Name := "", Number := 0 }

/-! ## strconv -/

/-- Value of a decimal digit. -/
def digitValue (c : Char) : Option Nat :=
  if 48 ≤ c.toNat ∧ c.toNat ≤ 57 then some (c.toNat - 48) else none

/-- The number written by a string of decimal digits, `none` when a character is
not a digit. `acc` is the value of the digits already read. -/
def parseDigits : List Char → Nat → Option Nat
  | [], acc => some acc
  | c :: cs, acc =>
      match digitValue c with
      | some d => parseDigits cs (acc * 10 + d)
      | none => none

/-- The sign and the digits of `ParseInt`: an optional leading `+` or `-`. -/
def splitSign : List Char → Bool × List Char
  | [] => (false, [])
  | c :: cs => if c = '+' then (false, cs) else if c = '-' then (true, cs) else (false, c :: cs)

/-- Go `strconv.ParseInt(s, 10, 64)`: `none` for a syntax error and for a value
outside `[-2^63, 2^63 - 1]`. -/
def ParseInt (s : String) : Option Int :=
  let sd := splitSign s.data
  if sd.2.isEmpty then none
  else
    match parseDigits sd.2 0 with
    | none => none
    | some un =>
        if sd.1 then (if 2 ^ 63 < un then none else some (-(un : Int)))
        else (if 2 ^ 63 ≤ un then none else some (un : Int))

/-- The decimal digits of `n`, most significant first, put in front of `acc`;
`fuel` bounds the number of digits. -/
def formatDigits : Nat → Nat → List Char → List Char
  | 0, _, acc => acc
  | fuel + 1, n, acc =>
      if n < 10 then Char.ofNat (48 + n) :: acc
      else formatDigits fuel (n / 10) (Char.ofNat (48 + n % 10) :: acc)

/-- Go `strconv.FormatInt(i, 10)`. -/
def FormatInt (i : Int) : String :=
  if i < 0 then String.mk ('-' :: formatDigits (i.natAbs + 1) i.natAbs [])
  else String.mk (formatDigits (i.natAbs + 1) i.natAbs [])

/-! ## unicode/utf8 -/

/-- Go `utf8.RuneError`, U+FFFD. -/
def runeError : Char := Char.ofNat 0xFFFD

/-- Continuation byte `10xxxxxx`. -/
def isCont (b : Nat) : Bool := 0x80 ≤ b && b ≤ 0xBF

/-- Go `utf8.DecodeRune`: the first character of a byte string and its width; an
invalid or short encoding gives `(RuneError, 1)`. -/
def DecodeRune : List Nat → Char × Nat
  | [] => (runeError, 0)
  | b0 :: t =>
      if b0 < 0x80 then (Char.ofNat b0, 1)
      else if 0xC2 ≤ b0 && b0 ≤ 0xDF then
        match t with
        | b1 :: _ =>
            if isCont b1 then (Char.ofNat ((b0 - 0xC0) * 64 + (b1 - 0x80)), 2) else (runeError, 1)
        | _ => (runeError, 1)
      else if 0xE0 ≤ b0 && b0 ≤ 0xEF then
        match t with
        | b1 :: b2 :: _ =>
            let lo := if b0 = 0xE0 then 0xA0 else 0x80
            let hi := if b0 = 0xED then 0x9F else 0xBF
            if lo ≤ b1 && b1 ≤ hi && isCont b2 then
              (Char.ofNat ((b0 - 0xE0) * 4096 + (b1 - 0x80) * 64 + (b2 - 0x80)), 3)
            else (runeError, 1)
        | _ => (runeError, 1)
      else if 0xF0 ≤ b0 && b0 ≤ 0xF4 then
        match t with
        | b1 :: b2 :: b3 :: _ =>
            let lo := if b0 = 0xF0 then 0x90 else 0x80
            let hi := if b0 = 0xF4 then 0x8F else 0xBF
            if lo ≤ b1 && b1 ≤ hi && isCont b2 && isCont b3 then
              (Char.ofNat ((b0 - 0xF0) * 262144 + (b1 - 0x80) * 4096 + (b2 - 0x80) * 64
                + (b3 - 0x80)), 4)
            else (runeError, 1)
        | _ => (runeError, 1)
      else (runeError, 1)

/-- The text a byte string stands for, every byte that is not part of a valid
encoding read as U+FFFD (what `range` over a Go string and `json.Marshal` see). -/
def utf8DecodeAux : Nat → List Nat → List Char
  | 0, _ => []
  | _, [] => []
  | fuel + 1, b :: bs =>
      let r := DecodeRune (b :: bs)
      r.1 :: utf8DecodeAux fuel ((b :: bs).drop r.2)

/-- The text of a byte string. -/
def utf8Decode (bs : List Nat) : List Char :=
  utf8DecodeAux bs.length bs

/-! ## net/url: parsing a query -/

/-- net/url `ishex`. -/
def ishex (c : Char) : Bool :=
  (48 ≤ c.toNat && c.toNat ≤ 57) || (97 ≤ c.toNat && c.toNat ≤ 102)
    || (65 ≤ c.toNat && c.toNat ≤ 70)

/-- net/url `unhex`. -/
def unhex (c : Char) : Nat :=
  if 48 ≤ c.toNat ∧ c.toNat ≤ 57 then c.toNat - 48
  else if 97 ≤ c.toNat ∧ c.toNat ≤ 102 then c.toNat - 97 + 10
  else if 65 ≤ c.toNat ∧ c.toNat ≤ 70 then c.toNat - 65 + 10
  else 0

/-- net/url `unescape(s, encodeQueryComponent)` as bytes: `%XX` is one byte, `+` a
space; `none` (an `EscapeError`) when `%` is not followed by two hex digits. -/
def unescapeBytes : List Char → Option (List Nat)
  | [] => some []
  | c :: rest =>
      if c = '%' then
        match rest with
        | a :: b :: rest2 =>
            if ishex a && ishex b then
              (unescapeBytes rest2).map fun bs => (unhex a * 16 + unhex b) :: bs
            else none
        | _ => none
      else if c = '+' then (unescapeBytes rest).map fun bs => 32 :: bs
      else (unescapeBytes rest).map fun bs => utf8EncodeChar c ++ bs

/-- Go `url.QueryUnescape`. -/
def QueryUnescape (s : List Char) : Option String :=
  (unescapeBytes s).map fun bs => String.mk (utf8Decode bs)

/-- Go `strings.Split(s, sep)` for a one-character separator; `cur` is the piece
being read, reversed. -/
def splitOn (sep : Char) : List Char → List Char → List (List Char)
  | [], cur => [cur.reverse]
  | c :: cs, cur => if c = sep then cur.reverse :: splitOn sep cs [] else splitOn sep cs (c :: cur)

/-- Go `strings.Cut(s, sep)`: the text before and after the first `sep`; all of `s`
and nothing when `sep` does not occur. -/
def cut (sep : Char) : List Char → List Char × List Char
  | [] => ([], [])
  | c :: cs => if c = sep then ([], cs) else let r := cut sep cs; (c :: r.1, r.2)

/-- The lookup `v[key]` with the comma-ok: the values stored under a key. -/
def Values.lookup (v : Values) (key : String) : Option (List String) :=
  match v.find? fun kv => kv.1 == key with
  | some kv => some kv.2
  | none => none

/-- The update `m[key] = append(m[key], value)`. -/
def Values.add : Values → String → String → Values
  | [], key, value => [(key, [value])]
  | kv :: rest, key, value =>
      if kv.1 = key then (kv.1, kv.2 ++ [value]) :: rest else kv :: Values.add rest key value

/-- One round of the loop of net/url `parseQuery` on the piece between two `&`. -/
def parseQueryPiece (m : Values) (piece : List Char) : Except GoError Values :=
  if piece.contains ';' then Except.error (GoError.decode "invalid semicolon separator in query")
  else if piece.isEmpty then Except.ok m
  else
    let kv := cut '=' piece
    match QueryUnescape kv.1, QueryUnescape kv.2 with
    | some key, some value => Except.ok (m.add key value)
    | _, _ => Except.error (GoError.decode "invalid URL escape")

/-- The loop of net/url `parseQuery`. Go goes on after a bad piece and returns
the first error at the end; the values gathered are then of no use to the
caller here (gin returns the error of `ParseForm` at once), so the model stops
at the first error. -/
def parseQueryPieces : List (List Char) → Values → Except GoError Values
  | [], m => Except.ok m
  | p :: ps, m =>
      match parseQueryPiece m p with
      | Except.ok m1 => parseQueryPieces ps m1
      | Except.error e => Except.error e

/-- Go `url.ParseQuery(query)`. -/
def ParseQuery (query : String) : Except GoError Values :=
  parseQueryPieces (splitOn '&' query.data []) []

/-! ## encoding/json: reading a value -/

/-- A JSON value seen from outside: scalars with their content, arrays and
objects only by kind (a Go `string` or `int` field takes neither). -/
inductive JVal where
  | null
  | bool (b : Bool)
  /-- a number, as the literal written in the text -/
  | number (lit : String)
  | string (s : String)
  | array
  | object
deriving DecidableEq, Repr

/-- The first JSON value of a stream, as `Decode` into a struct needs it: an
object with its members in order, or another value. -/
inductive JTop where
  | object (members : List (String × JVal))
  | other (v : JVal)
deriving DecidableEq, Repr

/-- encoding/json `isSpace`. -/
def isJSONSpace (c : Char) : Bool :=
  c == ' ' || c == Char.ofNat 9 || c == Char.ofNat 13 || c == Char.ofNat 10

/-- Drop leading JSON white space. -/
def skipSpace : List Char → List Char
  | [] => []
  | c :: cs => if isJSONSpace c then skipSpace cs else c :: cs

/-- The character of a one-letter escape `\c` of a JSON string. -/
def simpleEscape (c : Char) : Option Char :=
  if c = Char.ofNat 34 then some (Char.ofNat 34)
  else if c = Char.ofNat 92 then some (Char.ofNat 92)
  else if c = '/' then some '/'
  else if c = 'b' then some (Char.ofNat 8)
  else if c = 'f' then some (Char.ofNat 12)
  else if c = 'n' then some (Char.ofNat 10)
  else if c = 'r' then some (Char.ofNat 13)
  else if c = 't' then some (Char.ofNat 9)
  else none

/-- The characters a pending high surrogate turns into when no low surrogate
follows it: one U+FFFD. -/
def flushPending : Option Nat → List Char
  | none => []
  | some _ => [runeError]

/-- encoding/json `unquote` behind the opening quote: the text of the string and
what follows the closing quote. `acc` is the text so far, reversed; `pending` a
`\uXXXX` high surrogate waiting for its low half. `none` for a string that does
not end, a control character and a bad escape. -/
def scanString : List Char → List Char → Option Nat → Option (String × List Char)
  | [], _, _ => none
  | c :: rest, acc, pending =>
      if c = Char.ofNat 34 then
        some (String.mk (flushPending pending ++ acc).reverse, rest)
      else if c = Char.ofNat 92 then
        match rest with
        | [] => none
        | e :: rest1 =>
            if e = 'u' then
              match rest1 with
              | h1 :: h2 :: h3 :: h4 :: rest2 =>
                  if ishex h1 && ishex h2 && ishex h3 && ishex h4 then
                    let n := unhex h1 * 4096 + unhex h2 * 256 + unhex h3 * 16 + unhex h4
                    match pending with
                    | some hi =>
                        if 0xDC00 ≤ n ∧ n ≤ 0xDFFF then
                          scanString rest2
                            (Char.ofNat (0x10000 + (hi - 0xD800) * 1024 + (n - 0xDC00)) :: acc) none
                        else if 0xD800 ≤ n ∧ n ≤ 0xDBFF then
                          scanString rest2 (runeError :: acc) (some n)
                        else scanString rest2 (Char.ofNat n :: runeError :: acc) none
                    | none =>
                        if 0xD800 ≤ n ∧ n ≤ 0xDBFF then scanString rest2 acc (some n)
                        else if 0xDC00 ≤ n ∧ n ≤ 0xDFFF then scanString rest2 (runeError :: acc) none
                        else scanString rest2 (Char.ofNat n :: acc) none
                  else none
              | _ => none
            else
              match simpleEscape e with
              | some ch => scanString rest1 (ch :: (flushPending pending ++ acc)) none
              | none => none
      else if c.toNat < 0x20 then none
      else scanString rest (c :: (flushPending pending ++ acc)) none

/-- Split off the leading decimal digits. -/
def spanDigits : List Char → List Char × List Char
  | [] => ([], [])
  | c :: cs =>
      if (digitValue c).isSome then let r := spanDigits cs; (c :: r.1, r.2) else ([], c :: cs)

/-- The integer part of a JSON number: `0` or a digit `1-9` followed by digits. -/
def scanIntPart : List Char → Option (List Char × List Char)
  | [] => none
  | c :: cs =>
      if c = '0' then some (['0'], cs)
      else if (digitValue c).isSome then let r := spanDigits cs; some (c :: r.1, r.2)
      else none

/-- The optional fraction `.digits` of a JSON number. -/
def scanFraction : List Char → Option (List Char × List Char)
  | [] => some ([], [])
  | c :: cs =>
      if c = '.' then
        let r := spanDigits cs
        if r.1.isEmpty then none else some (c :: r.1, r.2)
      else some ([], c :: cs)

/-- The optional exponent `e[+-]digits` of a JSON number. -/
def scanExponent : List Char → Option (List Char × List Char)
  | [] => some ([], [])
  | c :: cs =>
      if c = 'e' ∨ c = 'E' then
        match cs with
        | [] => none
        | sg :: cs1 =>
            if sg = '+' ∨ sg = '-' then
              let r := spanDigits cs1
              if r.1.isEmpty then none else some (c :: sg :: r.1, r.2)
            else
              let r := spanDigits (sg :: cs1)
              if r.1.isEmpty then none else some (c :: r.1, r.2)
      else some ([], c :: cs)

/-- A JSON number literal at the head of the text and what follows it. -/
def scanNumber (cs : List Char) : Option (String × List Char) :=
  let sd : List Char × List Char :=
    match cs with
    | [] => ([], [])
    | c :: rest => if c = '-' then (['-'], rest) else ([], c :: rest)
  match scanIntPart sd.2 with
  | none => none
  | some (ip, r1) =>
      match scanFraction r1 with
      | none => none
      | some (fp, r2) =>
          match scanExponent r2 with
          | none => none
          | some (ep, r3) => some (String.mk (sd.1 ++ ip ++ fp ++ ep), r3)

/-- Drop the given word from the head of the text. -/
def dropWord : List Char → List Char → Option (List Char)
  | [], cs => some cs
  | _ :: _, [] => none
  | w :: ws, c :: cs => if w = c then dropWord ws cs else none

/-- What the scanner is in the middle of, for `scanJSON`. -/
inductive ScanMode where
  /-- a value is due -/
  | value
  /-- behind `[`: a value or `]` -/
  | firstElem
  /-- behind an array element: `,` or `]` -/
  | nextElem
  /-- behind `{`: a key or `}` -/
  | firstMember
  /-- behind `,` in an object: a key -/
  | key
  /-- behind an object member: `,` or `}` -/
  | nextMember
deriving DecidableEq, Repr

/-- The syntax check of the encoding/json scanner over one value (or the rest of
an array or object): the kind of the value read and the text behind it. Every
call uses up fuel and, but for the step from `[` to its first element, text;
twice the length of the text is fuel enough. The bound of the scanner on the
nesting of arrays and objects (10000) is left out. -/
def scanJSON : Nat → ScanMode → List Char → Option (JVal × List Char)
  | 0, _, _ => none
  | fuel + 1, ScanMode.value, cs =>
      match skipSpace cs with
      | [] => none
      | c :: rest =>
          if c = Char.ofNat 123 then
            (scanJSON fuel ScanMode.firstMember rest).map fun r => (JVal.object, r.2)
          else if c = '[' then
            (scanJSON fuel ScanMode.firstElem rest).map fun r => (JVal.array, r.2)
          else if c = Char.ofNat 34 then
            (scanString rest [] none).map fun r => (JVal.string r.1, r.2)
          else if c = 't' then (dropWord "rue".data rest).map fun r => (JVal.bool true, r)
          else if c = 'f' then (dropWord "alse".data rest).map fun r => (JVal.bool false, r)
          else if c = 'n' then (dropWord "ull".data rest).map fun r => (JVal.null, r)
          else (scanNumber (c :: rest)).map fun r => (JVal.number r.1, r.2)
  | fuel + 1, ScanMode.firstElem, cs =>
      match skipSpace cs with
      | [] => none
      | c :: rest =>
          if c = ']' then some (JVal.array, rest)
          else
            match scanJSON fuel ScanMode.value (c :: rest) with
            | none => none
            | some r => scanJSON fuel ScanMode.nextElem r.2
  | fuel + 1, ScanMode.nextElem, cs =>
      match skipSpace cs with
      | [] => none
      | c :: rest =>
          if c = ']' then some (JVal.array, rest)
          else if c = ',' then
            match scanJSON fuel ScanMode.value rest with
            | none => none
            | some r => scanJSON fuel ScanMode.nextElem r.2
          else none
  | fuel + 1, ScanMode.firstMember, cs =>
      match skipSpace cs with
      | [] => none
      | c :: rest =>
          if c = Char.ofNat 125 then some (JVal.object, rest)
          else scanJSON fuel ScanMode.key (c :: rest)
  | fuel + 1, ScanMode.key, cs =>
      match skipSpace cs with
      | [] => none
      | c :: rest =>
          if c = Char.ofNat 34 then
            match scanString rest [] none with
            | none => none
            | some k =>
                match skipSpace k.2 with
                | [] => none
                | d :: rest1 =>
                    if d = ':' then
                      match scanJSON fuel ScanMode.value rest1 with
                      | none => none
                      | some r => scanJSON fuel ScanMode.nextMember r.2
                    else none
          else none
  | fuel + 1, ScanMode.nextMember, cs =>
      match skipSpace cs with
      | [] => none
      | c :: rest =>
          if c = Char.ofNat 125 then some (JVal.object, rest)
          else if c = ',' then scanJSON fuel ScanMode.key rest
          else none

/-- The members of an object behind its `\x7b`, in order, each value by
`scanJSON`. `first` says that no member has been read yet. -/
def scanMembers : Nat → Bool → List Char → Option (List (String × JVal))
  | 0, _, _ => none
  | fuel + 1, first, cs =>
      match skipSpace cs with
      | [] => none
      | c :: rest =>
          if c = Char.ofNat 125 then some []
          else
            let afterComma : Option (List Char) :=
              if first then some (c :: rest) else if c = ',' then some (skipSpace rest) else none
            match afterComma with
            | some (q :: rest0) =>
                if q = Char.ofNat 34 then
                  match scanString rest0 [] none with
                  | none => none
                  | some k =>
                      match skipSpace k.2 with
                      | [] => none
                      | d :: rest1 =>
                          if d = ':' then
                            match scanJSON (fuel + 1) ScanMode.value rest1 with
                            | none => none
                            | some r =>
                                (scanMembers fuel false r.2).map fun ms => (k.1, r.1) :: ms
                          else none
                else none
            | _ => none

/-- Go `json.NewDecoder(body).Decode`: read the first value of the stream; what comes
after it is not looked at. `none` for an empty stream and a syntax error. -/
def decodeJSONValue (body : String) : Option JTop :=
  let fuel := 2 * body.data.length + 2
  match skipSpace body.data with
  | [] => none
  | c :: rest =>
      if c = Char.ofNat 123 then (scanMembers fuel true rest).map JTop.object
      else (scanJSON fuel ScanMode.value (c :: rest)).map fun r => JTop.other r.1

/-! ## encoding/xml: reading the root element

Element and attribute names are read as far as they are ASCII; a name with a
character outside ASCII is treated as a syntax error, so that the model never
accepts a name the Unicode tables of encoding/xml reject. -/

/-- A token of the XML text, as far as decoding into a flat struct needs it. -/
inductive XToken where
  /-- A start tag `<name ...>` (or `<name .../>`, then `selfClosing`), with the raw name -/
  | start (name : String) (selfClosing : Bool)
  /-- An end tag `</name>` -/
  | stop (name : String)
  /-- character data or a CDATA section, entities resolved -/
  | text (s : String)
  /-- a comment, a processing instruction or a directive -/
  | other
deriving DecidableEq, Repr

/-- The root element as `Decode` into a flat struct sees it: its name and, for
each child element in order, the local name and the character data directly
inside it. -/
structure XRoot where
  name : String
  children : List (String × String)
deriving DecidableEq, Repr

/-- encoding/xml `isInCharacterRange`. -/
def isInCharacterRange (n : Nat) : Bool :=
  n == 0x09 || n == 0x0A || n == 0x0D || (0x20 ≤ n && n ≤ 0xD7FF)
    || (0xE000 ≤ n && n ≤ 0xFFFD) || (0x10000 ≤ n && n ≤ 0x10FFFF)

/-- encoding/xml `isNameByte`. -/
def isNameByte (c : Char) : Bool :=
  (65 ≤ c.toNat && c.toNat ≤ 90) || (97 ≤ c.toNat && c.toNat ≤ 122)
    || (48 ≤ c.toNat && c.toNat ≤ 57) || c == '_' || c == ':' || c == '.' || c == '-'

/-- A character that may start a name (ASCII part of the table `first`). -/
def isNameStart (c : Char) : Bool :=
  (65 ≤ c.toNat && c.toNat ≤ 90) || (97 ≤ c.toNat && c.toNat ≤ 122) || c == '_' || c == ':'

/-- The longest run of name bytes and of characters outside ASCII. -/
def spanName : List Char → List Char × List Char
  | [] => ([], [])
  | c :: cs =>
      if isNameByte c || 0x80 ≤ c.toNat then let r := spanName cs; (c :: r.1, r.2)
      else ([], c :: cs)

/-- encoding/xml `(*Decoder).name`: a name at the head of the text. -/
def scanName (cs : List Char) : Option (List Char × List Char) :=
  let r := spanName cs
  match r.1 with
  | [] => none
  | c :: _ => if isNameStart c && r.1.all isNameByte then some r else none

/-- The local part of a raw name as encoding/xml `nsname` splits it; `none` when
the name has more than one colon. -/
def localName (raw : List Char) : Option String :=
  if raw.count ':' > 1 then none
  else
    let r := cut ':' raw
    if raw.contains ':' && !r.1.isEmpty && !r.2.isEmpty then some (String.mk r.2)
    else some (String.mk raw)

/-- encoding/xml `(*Decoder).space`. -/
def skipXMLSpace : List Char → List Char
  | [] => []
  | c :: cs =>
      if c == ' ' || c == Char.ofNat 13 || c == Char.ofNat 10 || c == Char.ofNat 9 then
        skipXMLSpace cs
      else c :: cs

/-- The value of a string of hexadecimal digits. -/
def parseHex : List Char → Nat → Option Nat
  | [], acc => some acc
  | c :: cs, acc => if ishex c then parseHex cs (acc * 16 + unhex c) else none

/-- The character an entity `&body;` stands for: the five named entities and
numeric references up to `unicode.MaxRune` (a surrogate becomes U+FFFD, as
`string(rune(n))` does). `none` is the error of strict mode. -/
def resolveEntity (body : List Char) : Option Char :=
  match body with
  | '#' :: 'x' :: ds =>
      if ds.isEmpty then none
      else
        match parseHex ds 0 with
        | some n =>
            if n ≤ 0x10FFFF then
              some (if 0xD800 ≤ n ∧ n ≤ 0xDFFF then runeError else Char.ofNat n)
            else none
        | none => none
  | '#' :: ds =>
      if ds.isEmpty then none
      else
        match parseDigits ds 0 with
        | some n =>
            if n ≤ 0x10FFFF then
              some (if 0xD800 ≤ n ∧ n ≤ 0xDFFF then runeError else Char.ofNat n)
            else none
        | none => none
  | _ =>
      if body = "lt".data then some '<'
      else if body = "gt".data then some '>'
      else if body = "amp".data then some '&'
      else if body = "apos".data then some (Char.ofNat 39)
      else if body = "quot".data then some (Char.ofNat 34)
      else none

/-- encoding/xml `(*Decoder).text(quote, false)`: character data up to the next
`<` (`quote = none`) or an attribute value up to its closing quote. `acc` is the
text so far, reversed; `prevCR` says that the last raw character was a carriage
return; `ent` holds the body of an entity being read, reversed; `brackets`
counts the `]` just before. `none` is a syntax error. -/
def scanText (quote : Option Char) :
    List Char → List Char → Bool → Option (List Char) → Nat → Option (String × List Char)
  | [], acc, _, ent, _ =>
      if quote.isSome || ent.isSome then none else some (String.mk acc.reverse, [])
  | c :: rest, acc, prevCR, ent, brackets =>
      match ent with
      | some body =>
          if c = ';' then
            match resolveEntity body.reverse with
            | some ch =>
                if isInCharacterRange ch.toNat then scanText quote rest (ch :: acc) false none 0
                else none
            | none => none
          else if isNameByte c || c = '#' then
            scanText quote rest acc false (some (c :: body)) 0
          else none
      | none =>
          if c = '>' ∧ 2 ≤ brackets then none
          else if c = '<' then
            (if quote.isSome then none else some (String.mk acc.reverse, c :: rest))
          else if quote = some c then some (String.mk acc.reverse, rest)
          else if c = '&' then scanText quote rest acc false (some []) 0
          else if c = Char.ofNat 13 then
            scanText quote rest (Char.ofNat 10 :: acc) true none 0
          else if c = Char.ofNat 10 ∧ prevCR then scanText quote rest acc false none 0
          else if isInCharacterRange c.toNat then
            scanText quote rest (c :: acc) false none (if c = ']' then brackets + 1 else 0)
          else none

/-- encoding/xml `(*Decoder).text(-1, true)`: the content of a CDATA section up to
its `]]>`. -/
def scanCDATA : List Char → List Char → Bool → Nat → Option (String × List Char)
  | [], _, _, _ => none
  | c :: rest, acc, prevCR, brackets =>
      if c = '>' ∧ 2 ≤ brackets then some (String.mk (acc.drop 2).reverse, rest)
      else if c = Char.ofNat 13 then scanCDATA rest (Char.ofNat 10 :: acc) true 0
      else if c = Char.ofNat 10 ∧ prevCR then scanCDATA rest acc false 0
      else if isInCharacterRange c.toNat then
        scanCDATA rest (c :: acc) false (if c = ']' then brackets + 1 else 0)
      else none

/-- The rest of a comment behind `<!--`: the first `--` must be followed by `>`.
`dashes` counts the `-` just before, up to two. -/
def scanComment : List Char → Nat → Option (List Char)
  | [], _ => none
  | c :: rest, dashes =>
      if 2 ≤ dashes then (if c = '>' then some rest else none)
      else scanComment rest (if c = '-' then dashes + 1 else 0)

/-- The content of a processing instruction behind its target, up to `?>`.
`acc` is the content so far, reversed; `prevQ` says that the last character
was `?`. -/
def scanProcInst : List Char → List Char → Bool → Option (List Char × List Char)
  | [], _, _ => none
  | c :: rest, acc, prevQ =>
      if prevQ ∧ c = '>' then some ((acc.drop 1).reverse, rest)
      else scanProcInst rest (c :: acc) (c == '?')

/-- The text behind the first occurrence of `pat`, as `strings.Index` finds it. -/
def afterFirst (pat : List Char) : List Char → Option (List Char)
  | [] => if pat.isEmpty then some [] else none
  | c :: cs =>
      match dropWord pat (c :: cs) with
      | some r => some r
      | none => afterFirst pat cs

/-- The text before the first `q`, `none` when `q` does not occur. -/
def upTo (q : Char) : List Char → Option (List Char)
  | [] => none
  | c :: cs => if c = q then some [] else (upTo q cs).map fun r => c :: r

/-- encoding/xml `procInst(param, s)`: the quoted value behind the first `param=`
that is followed by a quote, `""` when there is none. -/
def procInst : Nat → List Char → List Char → List Char
  | 0, _, _ => []
  | fuel + 1, param, s =>
      match afterFirst (param ++ ['=']) s with
      | none => []
      | some [] => []
      | some (q :: v) =>
          if q = Char.ofNat 39 ∨ q = Char.ofNat 34 then
            match upTo q v with
            | some r => r
            | none => []
          else procInst fuel param v

/-- ASCII lower case of a text. -/
def toLowerASCII (cs : List Char) : List Char :=
  cs.map fun c => if 65 ≤ c.toNat ∧ c.toNat ≤ 90 then Char.ofNat (c.toNat + 32) else c

/-- The check of an `<?xml ...?>` declaration: version `1.0` and encoding UTF-8
(the decoder of gin has no `CharsetReader`). -/
def xmlDeclOK (content : List Char) : Bool :=
  let ver := procInst (content.length + 1) "version".data content
  let enc := procInst (content.length + 1) "encoding".data content
  (ver.isEmpty || ver == "1.0".data) && (enc.isEmpty || toLowerASCII enc == "utf-8".data)

/-- Where the scan of a directive `<!...>` stands. -/
inductive DirMode where
  | plain
  /-- behind a `<` outside quotes, `k` characters of `!--` matched -/
  | lt (k : Nat)
  /-- inside a comment, `dashes` many `-` just before (up to two) -/
  | comment (dashes : Nat)
deriving DecidableEq, Repr

/-- The rest of a directive behind its first character, up to the `>` that ends
it: quotes hide `<` and `>`, `<`...`>` nest, comments are passed over. -/
def scanDirective : List Char → Option Char → Nat → DirMode → Option (List Char)
  | [], _, _, _ => none
  | c :: rest, inquote, depth, mode =>
      match mode with
      | DirMode.comment dashes =>
          if 2 ≤ dashes ∧ c = '>' then scanDirective rest inquote depth DirMode.plain
          else
            scanDirective rest inquote depth
              (DirMode.comment (if c = '-' then min 2 (dashes + 1) else 0))
      | DirMode.lt k =>
          if "!--".data.get? k = some c then
            (if k = 2 then scanDirective rest inquote depth (DirMode.comment 0)
             else scanDirective rest inquote depth (DirMode.lt (k + 1)))
          else if c = Char.ofNat 39 ∨ c = Char.ofNat 34 then
            scanDirective rest (some c) (depth + 1) DirMode.plain
          else if c = '>' then scanDirective rest none depth DirMode.plain
          else if c = '<' then scanDirective rest none (depth + 1) (DirMode.lt 0)
          else scanDirective rest none (depth + 1) DirMode.plain
      | DirMode.plain =>
          if inquote = none ∧ c = '>' ∧ depth = 0 then some rest
          else if inquote = some c then scanDirective rest none depth DirMode.plain
          else if inquote.isSome then scanDirective rest inquote depth DirMode.plain
          else if c = Char.ofNat 39 ∨ c = Char.ofNat 34 then
            scanDirective rest (some c) depth DirMode.plain
          else if c = '>' then scanDirective rest none (depth - 1) DirMode.plain
          else if c = '<' then scanDirective rest none depth (DirMode.lt 0)
          else scanDirective rest none depth DirMode.plain

/-- The attributes of a start tag behind its name, up to `>` or `/>`: every
attribute is `name = "value"` with quotes. Gives whether the tag closes itself
and the text behind it. -/
def scanAttrs : Nat → List Char → Option (Bool × List Char)
  | 0, _ => none
  | fuel + 1, cs =>
      match skipXMLSpace cs with
      | [] => none
      | c :: rest =>
          if c = '/' then
            match rest with
            | d :: rest1 => if d = '>' then some (true, rest1) else none
            | [] => none
          else if c = '>' then some (false, rest)
          else
            match scanName (c :: rest) with
            | none => none
            | some (raw, r1) =>
                if (localName raw).isNone then none
                else
                  match skipXMLSpace r1 with
                  | e :: r2 =>
                      if e = '=' then
                        match skipXMLSpace r2 with
                        | q :: r3 =>
                            if q = Char.ofNat 39 ∨ q = Char.ofNat 34 then
                              match scanText (some q) r3 [] false none 0 with
                              | some v => scanAttrs fuel v.2
                              | none => none
                            else none
                        | [] => none
                      else none
                  | [] => none

/-- encoding/xml `(*Decoder).rawToken`: the next token of a text that is not
empty, and the text behind it. -/
def nextToken (cs : List Char) : Option (XToken × List Char) :=
  match cs with
  | [] => none
  | c :: rest =>
      if c = '<' then
        match rest with
        | [] => none
        | d :: rest1 =>
            if d = '/' then
              match scanName rest1 with
              | none => none
              | some (raw, r) =>
                  if (localName raw).isNone then none
                  else
                    match skipXMLSpace r with
                    | e :: r1 => if e = '>' then some (XToken.stop (String.mk raw), r1) else none
                    | [] => none
            else if d = '?' then
              match scanName rest1 with
              | none => none
              | some (target, r) =>
                  match scanProcInst (skipXMLSpace r) [] false with
                  | none => none
                  | some (content, r1) =>
                      if target = "xml".data ∧ !xmlDeclOK content then none
                      else some (XToken.other, r1)
            else if d = '!' then
              match rest1 with
              | [] => none
              | b :: rest2 =>
                  if b = '-' then
                    match rest2 with
                    | b2 :: rest3 =>
                        if b2 = '-' then (scanComment rest3 0).map fun r => (XToken.other, r)
                        else none
                    | [] => none
                  else if b = '[' then
                    match dropWord "CDATA[".data rest2 with
                    | some r => (scanCDATA r [] false 0).map fun t => (XToken.text t.1, t.2)
                    | none => none
                  else (scanDirective rest2 none 0 DirMode.plain).map fun r => (XToken.other, r)
            else
              match scanName (d :: rest1) with
              | none => none
              | some (raw, r) =>
                  if (localName raw).isNone then none
                  else
                    (scanAttrs (r.length + 1) r).map fun a =>
                      (XToken.start (String.mk raw) a.1, a.2)
      else (scanText none (c :: rest) [] false none 0).map fun t => (XToken.text t.1, t.2)

/-- The local name of a raw name that `nextToken` let through. -/
def localOf (raw : String) : String :=
  (localName raw.data).getD raw

/-- Go `xml.NewDecoder(body).Decode` up to the end of the first element: `stack` holds
the raw names of the open elements, innermost first; `root` the name of the
first element; `done` the children of the root read so far, last first; `cur`
the child of the root that is open, with the character data directly inside it.
`none` is a syntax error, which includes an input that ends too early. -/
def decodeXMLLoop : Nat → List String → String → List (String × String) →
    (String × String) → List Char → Option XRoot
  | 0, _, _, _, _, _ => none
  | _ + 1, _, _, _, _, [] => none
  | fuel + 1, stack, root, done, cur, c :: cs =>
      match nextToken (c :: cs) with
      | none => none
      | some (tok, rest) =>
          match tok, stack with
          | XToken.start name sc, [] =>
              if sc then some { name := name, children := [] }
              else decodeXMLLoop fuel [name] name done cur rest
          | XToken.stop _, [] => none
          | _, [] => decodeXMLLoop fuel [] root done cur rest
          | XToken.start name sc, [r] =>
              if sc then decodeXMLLoop fuel [r] root ((localOf name, "") :: done) cur rest
              else decodeXMLLoop fuel [name, r] root done (localOf name, "") rest
          | XToken.start name sc, top :: below =>
              if sc then decodeXMLLoop fuel (top :: below) root done cur rest
              else decodeXMLLoop fuel (name :: top :: below) root done cur rest
          | XToken.stop name, [r] =>
              if name = r then some { name := root, children := done.reverse } else none
          | XToken.stop name, [top, r] =>
              if name = top then decodeXMLLoop fuel [r] root (cur :: done) cur rest else none
          | XToken.stop name, top :: below =>
              if name = top then decodeXMLLoop fuel below root done cur rest else none
          | XToken.text s, [top, r] =>
              decodeXMLLoop fuel [top, r] root done (cur.1, cur.2 ++ s) rest
          | _, stack1 => decodeXMLLoop fuel stack1 root done cur rest

/-- Go `xml.NewDecoder(body).Decode`: the first element of the text. -/
def decodeXMLRoot (body : String) : Option XRoot :=
  decodeXMLLoop (body.data.length + 1) [] "" [] ("", "") body.data

/-! ## encoding/json: writing the record -/

/-- Lower-case hexadecimal digit, `"0123456789abcdef"[n]`. -/
def lowerhex (n : Nat) : Char :=
  if n < 10 then Char.ofNat (48 + n) else Char.ofNat (87 + n)

/-- encoding/json `encodeState.string` with `escapeHTML` on one character: quote
and backslash get a backslash, line feed, carriage return and tab their letter,
the other control characters and `<`, `>`, `&` the form `\u00XX`, U+2028 and
U+2029 the form `\u202X`. -/
def jsonEscapeChar (c : Char) : List Char :=
  let n := c.toNat
  if n = 34 then [Char.ofNat 92, Char.ofNat 34]
  else if n = 92 then [Char.ofNat 92, Char.ofNat 92]
  else if n = 10 then [Char.ofNat 92, 'n']
  else if n = 13 then [Char.ofNat 92, 'r']
  else if n = 9 then [Char.ofNat 92, 't']
  else if n < 0x20 ∨ n = 60 ∨ n = 62 ∨ n = 38 then
    [Char.ofNat 92, 'u', '0', '0', lowerhex (n / 16), lowerhex (n % 16)]
  else if n = 0x2028 ∨ n = 0x2029 then
    [Char.ofNat 92, 'u', '2', '0', '2', lowerhex (n % 16)]
  else [c]

/-- The JSON string literal of a text. -/
def jsonQuote (s : String) : List Char :=
  Char.ofNat 34 :: (s.data.flatMap jsonEscapeChar ++ [Char.ofNat 34])

/-- Go `json.Marshal(pro)` for a `Product`: the fields in the order of the struct,
under the names of their `json` tags. -/
def jsonMarshal (pro : Product) : String :=
  String.mk ("\x7b\"name\":".data ++ jsonQuote pro.Name ++ ",\"number\":".data
    ++ (FormatInt pro.Number).data ++ "\x7d".data)

/-- gin `(*Context).JSON(code, obj)` for a `Product`: set the status, the content
type (unless one is set) and write the marshalled record. -/
def Context.JSON (c : Context) (code : Nat) (pro : Product) : Context :=
  let c1 := c.Status code
  let w1 : ResponseWriter :=
    match c1.writer.contentType with
    | some _ => c1.writer
    | none => { c1.writer with contentType := some "application/json; charset=utf-8" }
  { c1 with writer := w1.WriteString (jsonMarshal pro) }

/-! ## encoding/xml: writing the record -/

/-- encoding/xml `(*printer).EscapeString` on one character: quotes, `&`, `<`, `>`,
tab, line feed and carriage return are written as entities, a character
outside the range of XML as U+FFFD, any other character as it is. -/
def xmlEscapeChar (c : Char) : List Char :=
  let n := c.toNat
  if n = 34 then "&#34;".data
  else if n = 39 then "&#39;".data
  else if n = 38 then "&amp;".data
  else if n = 60 then "&lt;".data
  else if n = 62 then "&gt;".data
  else if n = 9 then "&#x9;".data
  else if n = 10 then "&#xA;".data
  else if n = 13 then "&#xD;".data
  else if !isInCharacterRange n then [runeError]
  else [c]

/-- Go `xml.Marshal(pro)` for a `Product`: an element named after the type, with one
child per field, named by its `xml` tag. -/
def xmlMarshal (pro : Product) : String :=
  String.mk ("<Product><name>".data ++ pro.Name.data.flatMap xmlEscapeChar
    ++ "</name><number>".data ++ (FormatInt pro.Number).data ++ "</number></Product>".data)

/-! ## gin binding: choosing the decoder, decoding, validating -/

/-- The bindings of gin `binding.Default`. -/
inductive Binding where
  | form
  | formMultipart
  | json
  | xml
  | protoBuf
  | msgPack
  | yaml
deriving DecidableEq, Repr

/-- Library behaviour the model leaves open: the parse of the parameters of a
media type, the parse of a multipart body, and the three bindings that are
neither form, JSON nor XML. Every statement below holds for any choice. -/
structure Unmodelled where
  /-- whether `mime.ParseMediaType` accepts what follows the first `;` -/
  mediaParams : String → Bool
  /-- the values `ParseMultipartForm` finds, from the `Content-Type` header and the body -/
  multipart : String → String → Except GoError Values
  /-- the outcome of `Bind` of the protobuf, msgpack and yaml bindings on a body -/
  bind : Binding → String → Except GoError Product

/-- gin `filterFlags`: the content type up to the first space or semicolon. -/
def filterFlags : List Char → List Char
  | [] => []
  | c :: cs => if c = ' ' ∨ c = ';' then [] else c :: filterFlags cs

/-- gin `(*Context).ContentType`. -/
def Context.ContentType (c : Context) : String :=
  String.mk (filterFlags c.request.contentType.data)

/-- gin `binding.Default(method, contentType)`. -/
def Binding.Default (method contentType : String) : Binding :=
  if method = "GET" then Binding.form
  else if contentType = "application/json" then Binding.json
  else if contentType = "application/xml" ∨ contentType = "text/xml" then Binding.xml
  else if contentType = "application/x-protobuf" then Binding.protoBuf
  else if contentType = "application/x-msgpack" ∨ contentType = "application/msgpack" then
    Binding.msgPack
  else if contentType = "application/x-yaml" then Binding.yaml
  else if contentType = "multipart/form-data" then Binding.formMultipart
  else Binding.form

/-- Go `unicode.IsSpace`. -/
def isUnicodeSpace (c : Char) : Bool :=
  let n := c.toNat
  (9 ≤ n && n ≤ 13) || n == 0x20 || n == 0x85 || n == 0xA0 || n == 0x1680
    || (0x2000 ≤ n && n ≤ 0x200A) || n == 0x2028 || n == 0x2029 || n == 0x202F
    || n == 0x205F || n == 0x3000

/-- Go `strings.TrimSpace`. -/
def trimSpace (cs : List Char) : List Char :=
  ((cs.dropWhile isUnicodeSpace).reverse.dropWhile isUnicodeSpace).reverse

/-- mime `isTokenChar`. -/
def isTokenChar (c : Char) : Bool :=
  0x20 < c.toNat && c.toNat < 0x7F && !("()<>@,;:/[]?=".data.contains c)
    && c != Char.ofNat 92 && c != Char.ofNat 34

/-- mime `checkMediaTypeDisposition`: `token` or `token/token`. -/
def checkMediaTypeDisposition (s : List Char) : Bool :=
  let typ := s.takeWhile isTokenChar
  let rest := s.dropWhile isTokenChar
  if typ.isEmpty then false
  else
    match rest with
    | [] => true
    | c :: sub => c == '/' && !sub.isEmpty && sub.all isTokenChar

/-- Go `mime.ParseMediaType(v)`, the media type only: the lower-cased text before the
first `;`, trimmed. -/
def parseMediaType (lib : Unmodelled) (v : String) : Except GoError String :=
  let base := (cut ';' v.data).1
  let mediatype := trimSpace (toLowerASCII base)
  if !checkMediaTypeDisposition mediatype then Except.error (GoError.decode "mime: no media type")
  else if v.data.contains ';' && !lib.mediaParams (String.mk (v.data.drop base.length)) then
    Except.error (GoError.decode "mime: invalid media parameter")
  else Except.ok (String.mk mediatype)

/-- net/http `maxFormSize`, 10 MB. -/
def maxFormSize : Nat := 10485760

/-- The update `dst[k] = append(dst[k], vs...)`. -/
def Values.extend : Values → String → List String → Values
  | [], key, vs => [(key, vs)]
  | kv :: rest, key, vs =>
      if kv.1 = key then (kv.1, kv.2 ++ vs) :: rest else kv :: Values.extend rest key vs

/-- net/http `copyValues(dst, src)`: the values of every key of `src` are put behind
those `dst` has for the key. -/
def copyValues (dst src : Values) : Values :=
  src.foldl (fun d kv => d.extend kv.1 kv.2) dst

/-- The media type net/http reads off the `Content-Type` header of a request, an
absent header counting as `application/octet-stream`. -/
def requestMediaType (lib : Unmodelled) (req : InboundRequest) : Except GoError String :=
  parseMediaType lib (if req.contentType = "" then "application/octet-stream" else req.contentType)

/-- net/http `parsePostForm` for a POST request: the values of the body. The body
is read only under the media type `application/x-www-form-urlencoded`, and not
beyond `maxFormSize`. -/
def parsePostForm (lib : Unmodelled) (req : InboundRequest) : Except GoError Values :=
  match requestMediaType lib req with
  | Except.error e => Except.error e
  | Except.ok mediatype =>
      if mediatype = "application/x-www-form-urlencoded" then
        if maxFormSize < (utf8Encode req.body.data).length then
          Except.error (GoError.decode "http: POST too large")
        else ParseQuery req.body
      else Except.ok []

/-- Go `(*http.Request).ParseForm` for a POST request: `req.Form` holds the values of
the body and, behind them, the values of the query of the URL; an error of
either parse is returned. -/
def ParseForm (lib : Unmodelled) (req : InboundRequest) : Except GoError Values :=
  match parsePostForm lib req with
  | Except.error e => Except.error e
  | Except.ok post =>
      match ParseQuery req.query with
      | Except.error e => Except.error e
      | Except.ok fromQuery => Except.ok (copyValues post fromQuery)

/-- Go `req.ParseForm()` followed by `req.ParseMultipartForm(defaultMemory)`, as the
form binding of gin calls them: the values of `req.Form`, which the binding
maps. Under the media type `multipart/form-data` the values of the multipart
body are put behind those of the query. -/
def requestForm (lib : Unmodelled) (req : InboundRequest) : Except GoError Values :=
  match ParseForm lib req with
  | Except.error e => Except.error e
  | Except.ok form =>
      match requestMediaType lib req with
      | Except.error e => Except.error e
      | Except.ok mediatype =>
          if mediatype = "multipart/form-data" then
            match lib.multipart req.contentType req.body with
            | Except.error e => Except.error e
            | Except.ok parts => Except.ok (copyValues form parts)
          else Except.ok form

/-- gin `setByForm` and `setWithProperType` for the field `Name string`
with tag `form:"name"`: absent key, field untouched; else the first value. -/
def setName (form : Values) (pro : Product) : Product :=
  match form.lookup "name" with
  | none => pro
  | some vs => { pro with Name := vs.headD "" }

/-- gin `setByForm` and `setIntField` for the field `Number int` with tag
`form:"number"`: absent key, field untouched; else the first value, `""` read as
`"0"`, through `strconv.ParseInt`. -/
def setNumber (form : Values) (pro : Product) : Except GoError Product :=
  match form.lookup "number" with
  | none => Except.ok pro
  | some vs =>
      let val := vs.headD ""
      match ParseInt (if val = "" then "0" else val) with
      | some n => Except.ok { pro with Number := n }
      | none => Except.error (GoError.decode "strconv.ParseInt: parsing failed")

/-- gin `mapForm(&pro, form)`. -/
def mapForm (form : Values) (pro : Product) : Except GoError Product :=
  setNumber form (setName form pro)

/-- Whether a JSON key names the given field: equal, or equal up to the case of
ASCII letters (the fields are `name` and `number`). -/
def keyMatches (key field : String) : Bool :=
  toLowerASCII key.data == field.data

/-- encoding/json storing a member value into `Name string`. -/
def storeName (v : JVal) (pro : Product) : Except GoError Product :=
  match v with
  | JVal.null => Except.ok pro
  | JVal.string s => Except.ok { pro with Name := s }
  | _ => Except.error (GoError.decode "json: cannot unmarshal into Go struct field Product.name")

/-- encoding/json storing a member value into `Number int`. -/
def storeNumber (v : JVal) (pro : Product) : Except GoError Product :=
  match v with
  | JVal.null => Except.ok pro
  | JVal.number lit =>
      match ParseInt lit with
      | some n => Except.ok { pro with Number := n }
      | none =>
          Except.error (GoError.decode "json: cannot unmarshal number into Go struct field Product.number")
  | _ => Except.error (GoError.decode "json: cannot unmarshal into Go struct field Product.number")

/-- encoding/json `(*decodeState).object` into a `Product`: the members in order,
a later one overwriting an earlier one, unknown keys passed over. Go keeps the
first type error and returns it at the end; the model returns it at once. -/
def unmarshalMembers : List (String × JVal) → Product → Except GoError Product
  | [], pro => Except.ok pro
  | (key, v) :: rest, pro =>
      if keyMatches key "name" then
        match storeName v pro with
        | Except.ok p1 => unmarshalMembers rest p1
        | Except.error e => Except.error e
      else if keyMatches key "number" then
        match storeNumber v pro with
        | Except.ok p1 => unmarshalMembers rest p1
        | Except.error e => Except.error e
      else unmarshalMembers rest pro

/-- Go `json.NewDecoder(body).Decode(&pro)`. -/
def decodeJSON (body : String) (pro : Product) : Except GoError Product :=
  match decodeJSONValue body with
  | none => Except.error (GoError.decode "json: syntax error")
  | some (JTop.object members) => unmarshalMembers members pro
  | some (JTop.other JVal.null) => Except.ok pro
  | some (JTop.other _) =>
      Except.error (GoError.decode "json: cannot unmarshal into Go value of type main.Product")

/-- encoding/xml `copyValue` into `Number int`: no character data gives 0, else
`strconv.ParseInt(strings.TrimSpace(data), 10, 64)`. -/
def copyNumber (data : String) (pro : Product) : Except GoError Product :=
  if data.data.isEmpty then Except.ok { pro with Number := 0 }
  else
    match ParseInt (String.mk (trimSpace data.data)) with
    | some n => Except.ok { pro with Number := n }
    | none => Except.error (GoError.decode "strconv.ParseInt: parsing failed")

/-- encoding/xml `unmarshal` of the children of the root into a `Product`: a child
is matched by its local name against the `xml` tags, other children are skipped. -/
def unmarshalChildren : List (String × String) → Product → Except GoError Product
  | [], pro => Except.ok pro
  | (name, data) :: rest, pro =>
      if name = "name" then unmarshalChildren rest { pro with Name := data }
      else if name = "number" then
        match copyNumber data pro with
        | Except.ok p1 => unmarshalChildren rest p1
        | Except.error e => Except.error e
      else unmarshalChildren rest pro

/-- Go `xml.NewDecoder(body).Decode(&pro)`. -/
def decodeXML (body : String) (pro : Product) : Except GoError Product :=
  match decodeXMLRoot body with
  | none => Except.error (GoError.decode "xml: syntax error")
  | some root => unmarshalChildren root.children pro

/-- gin `validate(obj)` for `Product`: the validator tag `required` on both fields
fails on the zero value of the field (`""`, `0`). -/
def validate (pro : Product) : Except GoError Product :=
  let failed := (if pro.Name = "" then ["Name"] else []) ++ (if pro.Number = 0 then ["Number"] else [])
  if failed.isEmpty then Except.ok pro else Except.error (GoError.validation failed)

/-- Decoding followed by validation. -/
def andValidate (r : Except GoError Product) : Except GoError Product :=
  match r with
  | Except.ok pro => validate pro
  | Except.error e => Except.error e

/-- gin `(*Context).ShouldBind(&pro)` with `var pro Product`:
`ShouldBindWith(&pro, binding.Default(c.Request.Method, c.ContentType()))`. -/
def Context.ShouldBind (lib : Unmodelled) (c : Context) : Except GoError Product :=
  match Binding.Default c.request.method c.ContentType with
  | Binding.json => andValidate (decodeJSON c.request.body Product.zero)
  | Binding.xml => andValidate (decodeXML c.request.body Product.zero)
  | Binding.form =>
      match requestForm lib c.request with
      | Except.error e => Except.error e
      | Except.ok form => andValidate (mapForm form Product.zero)
  | Binding.formMultipart =>
      match lib.multipart c.request.contentType c.request.body with
      | Except.error e => Except.error e
      | Except.ok parts =>
          match ParseForm lib c.request with
          | Except.error e => Except.error e
          | Except.ok _ => andValidate (mapForm parts Product.zero)
  | b => lib.bind b c.request.body

/-! ## server/main.go: the Product Service -/

/-- The handler of `POST /product` (main.go 19-26). -/
def productHandler (lib : Unmodelled) (ctx : Context) : Context :=
  match ctx.ShouldBind lib with
  | Except.error err => ctx.AbortWithError 400 err
  | Except.ok pro => ctx.JSON 200 pro

/-- The engine of `main` (main.go 16-28): one route, `POST /product`. A request to
another path or with another method does not reach the handler; gin answers it
itself, shown here as its 404. -/
def productEngine (lib : Unmodelled) (req : InboundRequest) : Context :=
  if req.method = "POST" ∧ req.path = "/product" then productHandler lib (Context.fresh req)
  else
    let c := Context.fresh req
    { c with writer := (c.writer.WriteHeader 404).WriteString "404 page not found" }

/-- A POST request to `/product` with the given content type and body, and no
query. -/
def postProduct (contentType body : String) : InboundRequest :=
  { method := "POST", path := "/product", query := "", contentType := contentType,
    header := [], body := body }

/-! ## The Gateway in front of the Product Service -/

/-- The path and query of a URL `http://host/path?query` when it names the given
host. -/
def pathAt (host : String) (url : String) : Option (List Char) :=
  match dropWord ("http://" ++ host).data url.data with
  | some [] => some ['/']
  | some (c :: rest) => if c = '/' then some (c :: rest) else none
  | none => none

/-- The inbound request the Product Service gets for an outbound request of the
Gateway addressed to `localhost:7586`. -/
def arrives (out : OutRequest) : Option InboundRequest :=
  (pathAt "localhost:7586" out.url).map fun target =>
    { method := out.method, path := String.mk (cut '?' target).1,
      query := String.mk (cut '?' target).2, contentType := out.contentType, header := [],
      body := out.body }

/-- A network on which the Product Service answers at `localhost:7586` and the
whole answer comes back: every request addressed there gets a response whose
body reads, without error, as the body the engine wrote. -/
def ServedByProductService (lib : Unmodelled) (net : Downstream) : Prop :=
  ∀ out req, arrives out = some req →
    ∃ resp, net out = Except.ok resp ∧ resp.statusCode = (productEngine lib req).writer.status
      ∧ (ReadAll resp.body).err = none
      ∧ (ReadAll resp.body).all = (productEngine lib req).writer.body

/-- The simplest such network: the body comes back in one `Read`; nothing
listens anywhere else. -/
def localNetwork (lib : Unmodelled) : Downstream := fun out =>
  match arrives out with
  | some req =>
      let w := (productEngine lib req).writer
      Except.ok { statusCode := w.status, body := [{ data := w.body, outcome := ReadEnd.more }] }
  | none => Except.error (GoError.transport "dial tcp: connection refused")

/-- A choice for the behaviour left open: parameters accepted, no multipart
values, the other bindings fail. -/
def Unmodelled.sample : Unmodelled :=
  { mediaParams := fun _ => true
    multipart := fun _ _ => Except.ok []
    bind := fun _ _ => Except.error (GoError.decode "binding outside the model") }

/-! ## Notions used to state the properties -/

/-- The outbound request written in the source of each handler: the arguments of
`http.Post`, `http.PostForm` and `http.NewRequest` with the header set. -/
def Endpoint.outbound : Endpoint → OutRequest
  | Endpoint.urlencoded =>
      { method := "POST", url := AddProductAPI,
        contentType := "application/x-www-form-urlencoded", body := "name=iPhoneX&number=100" }
  | Endpoint.postForm =>
      { method := "POST", url := AddProductAPI,
        contentType := "application/x-www-form-urlencoded",
        body := Values.Encode [("name", ["iMac"]), ("number", ["1000"])] }
  | Endpoint.json =>
      { method := "POST", url := AddProductAPI, contentType := "application/json",
        body := "\x7b\"name\": \"MacPro\", \"number\": 10000\x7d" }
  | Endpoint.xml =>
      { method := "POST", url := AddProductAPI, contentType := "application/xml",
        body := "<Product><name>MacAir</name><number>100000</number></Product>" }

/-- The data of the `Read` calls that `ioutil.ReadAll` makes on a body: the steps
up to and including the first one that does not return `nil`. -/
def consumed : BodyScript → List String
  | [] => []
  | step :: rest =>
      match step.outcome with
      | ReadEnd.more => step.data :: consumed rest
      | _ => [step.data]

/-- The URL-encoded form of a record: `url.Values.Encode` on the keys `name` and
`number`, the body `http.PostForm` sends for such values. -/
def formEncode (pro : Product) : String :=
  Values.Encode [("name", [pro.Name]), ("number", [FormatInt pro.Number])]

/-- The range of a 64-bit Go `int`. -/
def inIntRange (n : Int) : Prop :=
  -(2 ^ 63 : Int) ≤ n ∧ n < (2 ^ 63 : Int)

instance (n : Int) : Decidable (inIntRange n) :=
  inferInstanceAs (Decidable (-(2 ^ 63 : Int) ≤ n ∧ n < (2 ^ 63 : Int)))

/-- The names of the fields in the input gin binds for a request, under the form,
multipart form, JSON and XML bindings: the keys of `req.Form` (the values of the
body and of the query of the URL), the keys of the multipart form, the keys of
the JSON object (in lower case, as the decoder matches them without regard to
case), the local names of the children of the XML root. `none` when the input
does not decode or another binding is chosen. -/
def boundFields (lib : Unmodelled) (c : Context) : Option (List String) :=
  match Binding.Default c.request.method c.ContentType with
  | Binding.json =>
      match decodeJSONValue c.request.body with
      | some (JTop.object members) =>
          some (members.map fun m => String.mk (toLowerASCII m.1.data))
      | some (JTop.other _) => some []
      | none => none
  | Binding.xml => (decodeXMLRoot c.request.body).map fun r => r.children.map fun ch => ch.1
  | Binding.form =>
      match requestForm lib c.request with
      | Except.ok form => some (form.map fun kv => kv.1)
      | Except.error _ => none
  | Binding.formMultipart =>
      match lib.multipart c.request.contentType c.request.body with
      | Except.ok parts => some (parts.map fun kv => kv.1)
      | Except.error _ => none
  | _ => none

/-! # Properties -/

/-! ## The Gateway handlers, path by path -/

/-- Each handler gets as far as sending the request written in its source. -/
theorem newRequest_ok (e : Endpoint) :
    NewRequest "POST" AddProductAPI e.outbound.body
      = Except.ok { e.outbound with contentType := "" } := by
  cases e <;> decide

/-- The run of a handler whose request cannot be sent: the two handlers built on
`http.Post` and `http.PostForm` abort with 400 and the error of the client, the
two built on `client.Do` with 500 and a fixed message. -/
theorem handler_send_failed (e : Endpoint) (net : Downstream) (ctx : Context) (err : GoError)
    (h : net e.outbound = Except.error err) :
    e.handler net ctx =
      { ctx := match e with
          | Endpoint.urlencoded => ctx.AbortWithError 400 err
          | Endpoint.postForm => ctx.AbortWithError 400 err
          | Endpoint.json => ctx.AbortWithError 500 (GoError.errorsNew "request api has error")
          | Endpoint.xml => ctx.AbortWithError 500 (GoError.errorsNew "request api has error"),
        log := [Event.send e.outbound] } := by
  cases e
  · have hn := newRequest_ok Endpoint.urlencoded
    simp only [Endpoint.outbound] at hn h
    simp only [Endpoint.handler, AddProductForUrlencodedHandler, httpPost, hn, clientDo,
      OutRequest.setContentType, h, Endpoint.outbound]
  · have hn := newRequest_ok Endpoint.postForm
    simp only [Endpoint.outbound] at hn h
    simp only [Endpoint.handler, AddProductForPostFormHandler, httpPostForm, httpPost, hn,
      clientDo, OutRequest.setContentType, h, Endpoint.outbound]
  · have hn := newRequest_ok Endpoint.json
    simp only [Endpoint.outbound] at hn h
    simp only [Endpoint.handler, AddProductForJSONHandler, hn, clientDo,
      OutRequest.setContentType, h, Endpoint.outbound]
  · have hn := newRequest_ok Endpoint.xml
    simp only [Endpoint.outbound] at hn h
    simp only [Endpoint.handler, AddProductForXMLHandler, hn, clientDo,
      OutRequest.setContentType, h, Endpoint.outbound]

/-- The run of a handler whose request is answered: read the body, then either
abort with 500 or write what was read; the `Close` comes last. -/
theorem handler_answered (e : Endpoint) (net : Downstream) (ctx : Context) (resp : DownResponse)
    (h : net e.outbound = Except.ok resp) :
    e.handler net ctx =
      { ctx := match (ReadAll resp.body).err with
          | some _ => ctx.AbortWithError 500 (GoError.errorsNew "request api has error")
          | none => { ctx with writer := ctx.writer.WriteString (ReadAll resp.body).all },
        log := [Event.send e.outbound] ++ (ReadAll resp.body).reads
          ++ [Event.close (ReadAll resp.body).rest] } := by
  cases e
  · have hn := newRequest_ok Endpoint.urlencoded
    simp only [Endpoint.outbound] at hn h
    simp only [Endpoint.handler, AddProductForUrlencodedHandler, httpPost, hn, clientDo,
      OutRequest.setContentType, h, Endpoint.outbound]
    cases (ReadAll resp.body).err <;> rfl
  · have hn := newRequest_ok Endpoint.postForm
    simp only [Endpoint.outbound] at hn h
    simp only [Endpoint.handler, AddProductForPostFormHandler, httpPostForm, httpPost, hn,
      clientDo, OutRequest.setContentType, h, Endpoint.outbound]
    cases (ReadAll resp.body).err <;> rfl
  · have hn := newRequest_ok Endpoint.json
    simp only [Endpoint.outbound] at hn h
    simp only [Endpoint.handler, AddProductForJSONHandler, hn, clientDo,
      OutRequest.setContentType, h, Endpoint.outbound]
    cases (ReadAll resp.body).err <;> rfl
  · have hn := newRequest_ok Endpoint.xml
    simp only [Endpoint.outbound] at hn h
    simp only [Endpoint.handler, AddProductForXMLHandler, hn, clientDo,
      OutRequest.setContentType, h, Endpoint.outbound]
    cases (ReadAll resp.body).err <;> rfl

/-! ## `ioutil.ReadAll` -/

/-- The bytes `ReadAll` returns are the data of the `Read` calls it made, in order. -/
theorem readAllFrom_all (body : BodyScript) (acc : String) :
    (readAllFrom body acc).all = (consumed body).foldl (fun r s => r ++ s) acc := by
  induction body generalizing acc with
  | nil => rfl
  | cons step rest ih =>
      cases hs : step.outcome <;> simp [readAllFrom, consumed, hs, ih]

/-- The bytes `ReadAll` returns, from an empty buffer. -/
theorem ReadAll_all (body : BodyScript) :
    (ReadAll body).all = String.join (consumed body) := by
  simp [ReadAll, readAllFrom_all, String.join]

/-- Neither a send nor a close happens inside `ReadAll`. -/
theorem readAllFrom_quiet (body : BodyScript) (acc : String) :
    sends (readAllFrom body acc).reads = [] ∧ closeCount (readAllFrom body acc).reads = 0 := by
  induction body generalizing acc with
  | nil => exact ⟨rfl, rfl⟩
  | cons step rest ih =>
      cases hs : step.outcome <;> simp [readAllFrom, hs, sends, closeCount, ih]

/-- The requests sent in a log that ends with other events. -/
theorem sends_append (xs ys : List Event) : sends (xs ++ ys) = sends xs ++ sends ys := by
  induction xs with
  | nil => rfl
  | cons x xs ih => cases x <;> simp [sends, ih]

/-- The closes in a log put together from two. -/
theorem closeCount_append (xs ys : List Event) :
    closeCount (xs ++ ys) = closeCount xs + closeCount ys := by
  induction xs with
  | nil => simp [closeCount]
  | cons x xs ih =>
      cases x
      · simp [closeCount, ih]
      · simp [closeCount, ih]
      · simp [closeCount, ih]
        omega

/-- A `Close` right after `ReadAll` finds the body read to its end exactly when
`ReadAll` returned no error. -/
theorem closesAfterDrain_reads (body : BodyScript) (acc : String) (rest : BodyScript)
    (seen : Bool) :
    closesAfterDrain ((readAllFrom body acc).reads ++ [Event.close rest]) seen
      = (seen || (readAllFrom body acc).err.isNone) := by
  induction body generalizing acc seen with
  | nil => simp [readAllFrom, closesAfterDrain]
  | cons step tail ih =>
      have hm : (ReadEnd.more == ReadEnd.eof) = false := by decide
      cases hs : step.outcome <;> simp [readAllFrom, hs, closesAfterDrain, ih, hm]

/-- A fresh context after `AbortWithError`. -/
theorem fresh_abortWithError (req : InboundRequest) (code : Nat) (err : GoError)
    (hc : 0 < code) :
    (Context.fresh req).AbortWithError code err =
      { request := req,
        writer := { status := code, written := true, contentType := none, body := "" },
        errors := [err], aborted := true } := by
  by_cases h : code = 200
  · subst h
    rfl
  · have h2 : ¬ (200 = code) := fun h3 => h h3.symm
    simp [Context.AbortWithError, Context.AbortWithStatus, Context.Status, Context.Abort,
      Context.Error, Context.fresh, ResponseWriter.reset, ResponseWriter.WriteHeader,
      ResponseWriter.WriteHeaderNow, hc, h2]

/-- A fresh writer after `WriteString`. -/
theorem reset_writeString (s : String) :
    ResponseWriter.reset.WriteString s =
      { status := 200, written := true, contentType := none, body := s } := by
  simp [ResponseWriter.WriteString, ResponseWriter.WriteHeaderNow, ResponseWriter.reset]

/-! ## The Gateway: claims about the error paths -/

/-- C5, evaluated on the code: when the send fails with any error `err`, the
handlers built on `http.Post` and `http.PostForm` abort with 400 and record
`err`, but the JSON and XML handlers abort with 500 and record the fixed message
"request api has error" in place of `err`. No handler writes a body. -/
theorem send_failure_status_by_handler (req : InboundRequest) (err : GoError) :
    (AddProductForUrlencodedHandler (fun _ => Except.error err) (Context.fresh req)).ctx
        = { request := req,
            writer := { status := 400, written := true, contentType := none, body := "" },
            errors := [err], aborted := true }
    ∧ (AddProductForPostFormHandler (fun _ => Except.error err) (Context.fresh req)).ctx
        = { request := req,
            writer := { status := 400, written := true, contentType := none, body := "" },
            errors := [err], aborted := true }
    ∧ (AddProductForJSONHandler (fun _ => Except.error err) (Context.fresh req)).ctx
        = { request := req,
            writer := { status := 500, written := true, contentType := none, body := "" },
            errors := [GoError.errorsNew "request api has error"], aborted := true }
    ∧ (AddProductForXMLHandler (fun _ => Except.error err) (Context.fresh req)).ctx
        = { request := req,
            writer := { status := 500, written := true, contentType := none, body := "" },
            errors := [GoError.errorsNew "request api has error"], aborted := true } := by
  have h1 := handler_send_failed Endpoint.urlencoded (fun _ => Except.error err)
    (Context.fresh req) err rfl
  have h2 := handler_send_failed Endpoint.postForm (fun _ => Except.error err)
    (Context.fresh req) err rfl
  have h3 := handler_send_failed Endpoint.json (fun _ => Except.error err)
    (Context.fresh req) err rfl
  have h4 := handler_send_failed Endpoint.xml (fun _ => Except.error err)
    (Context.fresh req) err rfl
  simp only [Endpoint.handler] at h1 h2 h3 h4
  rw [h1, h2, h3, h4]
  simp [fresh_abortWithError req 400 _ (by decide), fresh_abortWithError req 500 _ (by decide)]

/-- C6: in each of the four handlers, when the request is answered but `ReadAll`
on the response body returns an error, the handler aborts with status 500,
records the error "request api has error" and writes none of the bytes read. -/
theorem read_failure_aborts_with_500 (e : Endpoint) (net : Downstream) (req : InboundRequest)
    (resp : DownResponse) (hsend : net e.outbound = Except.ok resp)
    (hread : (ReadAll resp.body).err ≠ none) :
    (e.handler net (Context.fresh req)).ctx
      = { request := req,
          writer := { status := 500, written := true, contentType := none, body := "" },
          errors := [GoError.errorsNew "request api has error"], aborted := true } := by
  rw [handler_answered e net _ resp hsend]
  cases hr : (ReadAll resp.body).err with
  | none => exact absurd hr hread
  | some x => simp only [fresh_abortWithError req 500 _ (by decide)]

/-- C6 at a body whose second `Read` fails after two bytes were delivered. -/
theorem read_failure_aborts_with_500_witness :
    (Endpoint.json.handler
        (fun _ => Except.ok ⟨200, [⟨"ab", ReadEnd.more⟩, ⟨"", ReadEnd.fail "unexpected EOF"⟩]⟩)
        (Context.fresh (postProduct "" ""))).ctx
      = { request := postProduct "" "",
          writer := { status := 500, written := true, contentType := none, body := "" },
          errors := [GoError.errorsNew "request api has error"], aborted := true } :=
  read_failure_aborts_with_500 Endpoint.json _ (postProduct "" "")
    ⟨200, [⟨"ab", ReadEnd.more⟩, ⟨"", ReadEnd.fail "unexpected EOF"⟩]⟩
    rfl (by decide)

/-! ## The Gateway: the request sent -/

/-- C7, refuted as stated: the body the JSON handler sends is not the text
`\x7b"name":"MacPro","number":10000\x7d` of the interface table; the literal in the
source has a space after each colon and after the comma. -/
theorem json_body_differs_from_table :
    sends (AddProductForJSONHandler (localNetwork Unmodelled.sample)
        (Context.fresh (postProduct "" ""))).log
      ≠ [{ method := "POST", url := "http://localhost:7586/product",
           contentType := "application/json",
           body := "\x7b\"name\":\"MacPro\",\"number\":10000\x7d" }] := by
  decide

/-- C7, amended: whatever the network does and whatever the inbound request is,
each handler hands exactly one request to the HTTP client, a POST to
`http://localhost:7586/product`, with the content type and body of its source;
the JSON body is `\x7b"name": "MacPro", "number": 10000\x7d`, spaces included. -/
theorem one_outbound_request (net : Downstream) (req : InboundRequest) :
    sends (AddProductForUrlencodedHandler net (Context.fresh req)).log
        = [{ method := "POST", url := "http://localhost:7586/product",
             contentType := "application/x-www-form-urlencoded",
             body := "name=iPhoneX&number=100" }]
    ∧ sends (AddProductForPostFormHandler net (Context.fresh req)).log
        = [{ method := "POST", url := "http://localhost:7586/product",
             contentType := "application/x-www-form-urlencoded",
             body := "name=iMac&number=1000" }]
    ∧ sends (AddProductForJSONHandler net (Context.fresh req)).log
        = [{ method := "POST", url := "http://localhost:7586/product",
             contentType := "application/json",
             body := "\x7b\"name\": \"MacPro\", \"number\": 10000\x7d" }]
    ∧ sends (AddProductForXMLHandler net (Context.fresh req)).log
        = [{ method := "POST", url := "http://localhost:7586/product",
             contentType := "application/xml",
             body := "<Product><name>MacAir</name><number>100000</number></Product>" }] := by
  have key : ∀ e : Endpoint, sends (e.handler net (Context.fresh req)).log = [e.outbound] := by
    intro e
    cases hn : net e.outbound with
    | error err => rw [handler_send_failed e net _ err hn]; rfl
    | ok resp =>
        rw [handler_answered e net _ resp hn]
        simp only [sends_append, ReadAll, (readAllFrom_quiet resp.body "").1]
        rfl
  have hform : Values.Encode [("name", ["iMac"]), ("number", ["1000"])]
      = "name=iMac&number=1000" := by decide
  refine ⟨key Endpoint.urlencoded, ?_, key Endpoint.json, key Endpoint.xml⟩
  have h2 := key Endpoint.postForm
  simp only [Endpoint.outbound, hform] at h2
  exact h2

/-! ## The Gateway: what the response depends on -/

/-- C8: the response of a Gateway endpoint does not depend on the inbound request.
For two calls of the same endpoint with any two inbound requests, on networks
that answer every request alike, the writers (status, header, body), the
recorded errors, the abort flag and the outside effects are equal; a handler
takes no state but its context and leaves none behind. -/
theorem response_independent_of_inbound (e : Endpoint) (net1 net2 : Downstream)
    (req1 req2 : InboundRequest) (hnet : ∀ out, net1 out = net2 out) :
    (e.handler net1 (Context.fresh req1)).ctx.writer
        = (e.handler net2 (Context.fresh req2)).ctx.writer
    ∧ (e.handler net1 (Context.fresh req1)).ctx.errors
        = (e.handler net2 (Context.fresh req2)).ctx.errors
    ∧ (e.handler net1 (Context.fresh req1)).ctx.aborted
        = (e.handler net2 (Context.fresh req2)).ctx.aborted
    ∧ (e.handler net1 (Context.fresh req1)).log = (e.handler net2 (Context.fresh req2)).log := by
  have hfun : net1 = net2 := funext hnet
  subst hfun
  cases hn : net1 e.outbound with
  | error err =>
      rw [handler_send_failed e net1 _ err hn, handler_send_failed e net1 _ err hn]
      cases e <;>
        simp [fresh_abortWithError _ 400 _ (by decide), fresh_abortWithError _ 500 _ (by decide)]
  | ok resp =>
      rw [handler_answered e net1 _ resp hn, handler_answered e net1 _ resp hn]
      cases (ReadAll resp.body).err with
      | none => exact ⟨rfl, rfl, rfl, rfl⟩
      | some x => simp [fresh_abortWithError _ 500 _ (by decide)]

/-- C8 at the JSON endpoint in front of the Product Service, for an empty inbound
request and one with a body and headers. -/
theorem response_independent_of_inbound_witness :
    (Endpoint.json.handler (localNetwork Unmodelled.sample)
        (Context.fresh (postProduct "" ""))).ctx.writer
      = (Endpoint.json.handler (localNetwork Unmodelled.sample)
        (Context.fresh
          ⟨"POST", "/add-product-for-json", "trace=1", "text/plain", [("X-Trace", "1")], "anything"⟩)).ctx.writer :=
  (response_independent_of_inbound Endpoint.json (localNetwork Unmodelled.sample)
    (localNetwork Unmodelled.sample) (postProduct "" "")
    ⟨"POST", "/add-product-for-json", "trace=1", "text/plain", [("X-Trace", "1")], "anything"⟩
    (fun _ => rfl)).1

/-- C9: in each of the four handlers, when the request is answered with any status
code and `ReadAll` on the body returns no error, the handler writes exactly the
bytes read from the downstream body, in order, with status 200, records no
error and does not abort. -/
theorem relays_body_with_status_200 (e : Endpoint) (net : Downstream) (req : InboundRequest)
    (resp : DownResponse) (hsend : net e.outbound = Except.ok resp)
    (hread : (ReadAll resp.body).err = none) :
    (e.handler net (Context.fresh req)).ctx
      = { request := req,
          writer := { status := 200, written := true, contentType := none,
                      body := String.join (consumed resp.body) },
          errors := [], aborted := false } := by
  rw [handler_answered e net _ resp hsend, hread]
  simp only [Context.fresh, reset_writeString, ReadAll_all]

/-- C9 at a downstream answer with status 400 whose body comes in two reads. -/
theorem relays_body_with_status_200_witness :
    (Endpoint.xml.handler
        (fun _ => Except.ok ⟨400, [⟨"bad ", ReadEnd.more⟩, ⟨"request", ReadEnd.eof⟩]⟩)
        (Context.fresh (postProduct "" ""))).ctx
      = { request := postProduct "" "",
          writer := { status := 200, written := true, contentType := none,
                      body := String.join (consumed [⟨"bad ", ReadEnd.more⟩, ⟨"request", ReadEnd.eof⟩]) },
          errors := [], aborted := false } :=
  relays_body_with_status_200 Endpoint.xml _ (postProduct "" "")
    ⟨400, [⟨"bad ", ReadEnd.more⟩, ⟨"request", ReadEnd.eof⟩]⟩
    rfl (by decide)

/-! ## The Gateway: closing the response body -/

/-- C10, refuted as stated: when `ReadAll` fails on the first `Read` and the body
still holds the bytes `cd`, the handler closes the body once with those bytes
unread; the close does not come after a `Read` that reached the end. -/
theorem close_without_drain_on_failed_read :
    (AddProductForUrlencodedHandler
        (fun _ => Except.ok ⟨200, [⟨"ab", ReadEnd.fail "connection reset"⟩, ⟨"cd", ReadEnd.eof⟩]⟩)
        (Context.fresh (postProduct "" ""))).log
      = [Event.send Endpoint.urlencoded.outbound,
         Event.read ⟨"ab", ReadEnd.fail "connection reset"⟩,
         Event.close [⟨"cd", ReadEnd.eof⟩]]
    ∧ closesAfterDrain (AddProductForUrlencodedHandler
        (fun _ => Except.ok ⟨200, [⟨"ab", ReadEnd.fail "connection reset"⟩, ⟨"cd", ReadEnd.eof⟩]⟩)
        (Context.fresh (postProduct "" ""))).log false = false := by
  decide

/-- C10, amended: in each of the four handlers, when the request is answered the
response body is closed exactly once, as the last outside effect, after
`ReadAll` has returned; at that point the body has been read to its end exactly
when `ReadAll` returned no error. When the send fails nothing is closed. -/
theorem body_closed_once_after_read (e : Endpoint) (net : Downstream) (req : InboundRequest) :
    (∀ resp, net e.outbound = Except.ok resp →
      closeCount (e.handler net (Context.fresh req)).log = 1
      ∧ (e.handler net (Context.fresh req)).log
          = [Event.send e.outbound] ++ (ReadAll resp.body).reads
            ++ [Event.close (ReadAll resp.body).rest]
      ∧ closesAfterDrain (e.handler net (Context.fresh req)).log false
          = (ReadAll resp.body).err.isNone)
    ∧ (∀ err, net e.outbound = Except.error err →
      closeCount (e.handler net (Context.fresh req)).log = 0) := by
  constructor
  · intro resp hn
    rw [handler_answered e net _ resp hn]
    refine ⟨?_, rfl, ?_⟩
    · simp [closeCount_append, closeCount, ReadAll, (readAllFrom_quiet resp.body "").2]
    · have h := closesAfterDrain_reads resp.body "" (ReadAll resp.body).rest false
      simp only [Bool.false_or] at h
      simpa [closesAfterDrain, ReadAll] using h
  · intro err hn
    rw [handler_send_failed e net _ err hn]
    rfl

/-- C10, amended, at a body read to its end and at a send that fails. -/
theorem body_closed_once_after_read_witness :
    (closeCount (Endpoint.postForm.handler
        (fun _ => Except.ok ⟨200, [⟨"ok", ReadEnd.eof⟩]⟩)
        (Context.fresh (postProduct "" ""))).log = 1
      ∧ closesAfterDrain (Endpoint.postForm.handler
        (fun _ => Except.ok ⟨200, [⟨"ok", ReadEnd.eof⟩]⟩)
        (Context.fresh (postProduct "" ""))).log false = true)
    ∧ closeCount (Endpoint.postForm.handler
        (fun _ => Except.error (GoError.transport "connection refused"))
        (Context.fresh (postProduct "" ""))).log = 0 :=
  ⟨⟨((body_closed_once_after_read Endpoint.postForm
        (fun _ => Except.ok ⟨200, [⟨"ok", ReadEnd.eof⟩]⟩)
        (postProduct "" "")).1 _ rfl).1,
    ((body_closed_once_after_read Endpoint.postForm
        (fun _ => Except.ok ⟨200, [⟨"ok", ReadEnd.eof⟩]⟩)
        (postProduct "" "")).1 _ rfl).2.2⟩,
   (body_closed_once_after_read Endpoint.postForm
        (fun _ => Except.error (GoError.transport "connection refused"))
        (postProduct "" "")).2 _ rfl⟩

/-! ## strconv: writing and reading back an integer -/

/-- The digit character of `d` reads as `d`. -/
theorem digitValue_digit (d : Nat) (hd : d < 10) : digitValue (Char.ofNat (48 + d)) = some d := by
  interval_cases d <;> rfl

/-- A digit character is no white space, no `+` and no `-`. -/
theorem digit_plain (d : Nat) (hd : d < 10) :
    isUnicodeSpace (Char.ofNat (48 + d)) = false ∧ Char.ofNat (48 + d) ≠ '+'
      ∧ Char.ofNat (48 + d) ≠ '-' := by
  interval_cases d <;> decide

/-- Reading the digits written for `n` continues with the value `n`. -/
theorem parseDigits_formatDigits (fuel n : Nat) (acc : List Char) (h : n < fuel) :
    parseDigits (formatDigits fuel n acc) 0 = parseDigits acc n := by
  induction fuel generalizing n acc with
  | zero => omega
  | succ fuel ih =>
      unfold formatDigits
      by_cases h10 : n < 10
      · simp only [h10, if_true, parseDigits, digitValue_digit n h10]
        simp
      · simp only [h10, if_false]
        rw [ih (n / 10) _ (by omega)]
        simp only [parseDigits, digitValue_digit (n % 10) (by omega)]
        congr 1
        omega

/-- The digits written for `n` start with a digit. -/
theorem formatDigits_head (fuel n : Nat) (acc : List Char) (h : n < fuel) :
    ∃ d t, d < 10 ∧ formatDigits fuel n acc = Char.ofNat (48 + d) :: t := by
  induction fuel generalizing n acc with
  | zero => omega
  | succ fuel ih =>
      unfold formatDigits
      by_cases h10 : n < 10
      · exact ⟨n, acc, h10, by simp [h10]⟩
      · simp only [h10, if_false]
        exact ih (n / 10) _ (by omega)

/-- The digits written for `n` hold no white space, if the text behind them holds none. -/
theorem formatDigits_no_space (fuel n : Nat) (acc : List Char)
    (hacc : ∀ c ∈ acc, isUnicodeSpace c = false) :
    ∀ c ∈ formatDigits fuel n acc, isUnicodeSpace c = false := by
  induction fuel generalizing n acc with
  | zero => simpa [formatDigits] using hacc
  | succ fuel ih =>
      unfold formatDigits
      by_cases h10 : n < 10
      · simp only [h10, if_true]
        intro c hc
        rcases List.mem_cons.mp hc with h | h
        · rw [h]; exact (digit_plain n h10).1
        · exact hacc c h
      · simp only [h10, if_false]
        apply ih
        intro c hc
        rcases List.mem_cons.mp hc with h | h
        · rw [h]; exact (digit_plain (n % 10) (by omega)).1
        · exact hacc c h

/-- A text without white space is left as it is by `strings.TrimSpace`. -/
theorem trimSpace_of_no_space (cs : List Char) (h : ∀ c ∈ cs, isUnicodeSpace c = false) :
    trimSpace cs = cs := by
  have drop : ∀ xs : List Char, (∀ c ∈ xs, isUnicodeSpace c = false) →
      xs.dropWhile isUnicodeSpace = xs := by
    intro xs hx
    cases xs with
    | nil => rfl
    | cons x t => simp [List.dropWhile, hx x (List.mem_cons_self x t)]
  unfold trimSpace
  rw [drop cs h, drop cs.reverse (fun c hc => h c (List.mem_reverse.mp hc)), List.reverse_reverse]

/-- The text `FormatInt` writes is not empty and holds no white space. -/
theorem formatInt_plain (i : Int) :
    (FormatInt i).data ≠ [] ∧ trimSpace (FormatInt i).data = (FormatInt i).data := by
  have hd : ∀ c ∈ formatDigits (i.natAbs + 1) i.natAbs [], isUnicodeSpace c = false :=
    formatDigits_no_space _ _ [] (fun c hc => absurd hc (List.not_mem_nil c))
  obtain ⟨d, t, _, ht⟩ := formatDigits_head (i.natAbs + 1) i.natAbs [] (by omega)
  unfold FormatInt
  by_cases hneg : i < 0
  · simp only [hneg, if_true]
    refine ⟨by simp, trimSpace_of_no_space _ ?_⟩
    intro c hc
    rcases List.mem_cons.mp hc with h | h
    · rw [h]; decide
    · exact hd c h
  · simp only [hneg, if_false]
    refine ⟨by simp [ht], trimSpace_of_no_space _ hd⟩

/-- Reading back: `ParseInt` returns the number `FormatInt` wrote, when it is in the range
of `int`. -/
theorem parseInt_formatInt (i : Int) (h : inIntRange i) : ParseInt (FormatInt i) = some i := by
  have hp := parseDigits_formatDigits (i.natAbs + 1) i.natAbs [] (by omega)
  obtain ⟨d, t, hd, ht⟩ := formatDigits_head (i.natAbs + 1) i.natAbs [] (by omega)
  have h63 : (2 : Nat) ^ 63 = 9223372036854775808 := by norm_num
  have h63i : (2 : Int) ^ 63 = 9223372036854775808 := by norm_num
  obtain ⟨hlo, hhi⟩ := h
  rw [h63i] at hlo hhi
  unfold ParseInt FormatInt
  generalize formatDigits (i.natAbs + 1) i.natAbs [] = ds at hp ht ⊢
  have hne : ds.isEmpty = false := by rw [ht]; rfl
  have hp2 : parseDigits ds 0 = some i.natAbs := by rw [hp]; rfl
  by_cases hneg : i < 0
  · have hs : splitSign ('-' :: ds) = (true, ds) := by simp [splitSign]
    have hle : ¬ (9223372036854775808 < i.natAbs) := by omega
    simp only [hneg, if_true, hs, hne, hp2, h63, hle, if_false, Bool.false_eq_true]
    congr 1
    omega
  · have hs : splitSign ds = (false, ds) := by
      rw [ht]
      simp [splitSign, (digit_plain d hd).2.1, (digit_plain d hd).2.2]
    have hle : ¬ (9223372036854775808 ≤ i.natAbs) := by omega
    simp only [hneg, if_false, hs, hne, hp2, h63, hle, Bool.false_eq_true]
    congr 1
    omega

/-- Out of range: `ParseInt` rejects what `FormatInt` wrote for a number outside the range of `int`. -/
theorem parseInt_formatInt_none (i : Int) (h : ¬ inIntRange i) : ParseInt (FormatInt i) = none := by
  have hp := parseDigits_formatDigits (i.natAbs + 1) i.natAbs [] (by omega)
  obtain ⟨d, t, hd, ht⟩ := formatDigits_head (i.natAbs + 1) i.natAbs [] (by omega)
  have h63 : (2 : Nat) ^ 63 = 9223372036854775808 := by norm_num
  have h63i : (2 : Int) ^ 63 = 9223372036854775808 := by norm_num
  unfold inIntRange at h
  rw [h63i] at h
  unfold ParseInt FormatInt
  generalize formatDigits (i.natAbs + 1) i.natAbs [] = ds at hp ht ⊢
  have hne : ds.isEmpty = false := by rw [ht]; rfl
  have hp2 : parseDigits ds 0 = some i.natAbs := by rw [hp]; rfl
  by_cases hneg : i < 0
  · have hs : splitSign ('-' :: ds) = (true, ds) := by simp [splitSign]
    have hle : 9223372036854775808 < i.natAbs := by omega
    simp only [hneg, if_true, hs, hne, hp2, h63, hle, if_false, Bool.false_eq_true]
  · have hs : splitSign ds = (false, ds) := by
      rw [ht]
      simp [splitSign, (digit_plain d hd).2.1, (digit_plain d hd).2.2]
    have hle : 9223372036854775808 ≤ i.natAbs := by omega
    simp only [hneg, if_false, hs, hne, hp2, h63, hle, if_true, Bool.false_eq_true]

/-! ## The Product Service: from the decoded record to the response -/

/-- A fresh context after `JSON(200, pro)`. -/
theorem fresh_JSON (req : InboundRequest) (pro : Product) :
    (Context.fresh req).JSON 200 pro =
      { request := req,
        writer := { status := 200, written := true,
                    contentType := some "application/json; charset=utf-8",
                    body := jsonMarshal pro },
        errors := [], aborted := false } := by
  simp [Context.JSON, Context.Status, Context.fresh, ResponseWriter.reset,
    ResponseWriter.WriteHeader, ResponseWriter.WriteString, ResponseWriter.WriteHeaderNow]

/-- A POST to `/product` reaches the handler. -/
theorem engine_post (lib : Unmodelled) (ct body : String) :
    productEngine lib (postProduct ct body)
      = productHandler lib (Context.fresh (postProduct ct body)) := by
  simp [productEngine, postProduct]

/-- The response to a request that binds. -/
theorem engine_of_bound (lib : Unmodelled) (ct body : String) (pro : Product)
    (h : (Context.fresh (postProduct ct body)).ShouldBind lib = Except.ok pro) :
    productEngine lib (postProduct ct body) =
      { request := postProduct ct body,
        writer := { status := 200, written := true,
                    contentType := some "application/json; charset=utf-8",
                    body := jsonMarshal pro },
        errors := [], aborted := false } := by
  rw [engine_post]
  unfold productHandler
  rw [h]
  exact fresh_JSON _ _

/-- The response to a request that does not bind. -/
theorem engine_of_unbound (lib : Unmodelled) (ct body : String) (err : GoError)
    (h : (Context.fresh (postProduct ct body)).ShouldBind lib = Except.error err) :
    productEngine lib (postProduct ct body) =
      { request := postProduct ct body,
        writer := { status := 400, written := true, contentType := none, body := "" },
        errors := [err], aborted := true } := by
  rw [engine_post]
  unfold productHandler
  rw [h]
  exact fresh_abortWithError _ 400 err (by decide)

/-- The tag `required` passes on a record with both fields set. -/
theorem validate_ok (pro : Product) (hn : pro.Name ≠ "") (hz : pro.Number ≠ 0) :
    validate pro = Except.ok pro := by
  simp [validate, hn, hz]

/-- The tag `required` fails on a record with a field at its zero value. -/
theorem validate_fails (pro : Product) (h : pro.Name = "" ∨ pro.Number = 0) :
    ∃ fields, validate pro = Except.error (GoError.validation fields) := by
  unfold validate
  by_cases hn : pro.Name = "" <;> by_cases hz : pro.Number = 0
  · exact ⟨["Name", "Number"], by simp [hn, hz]⟩
  · exact ⟨["Name"], by simp [hn, hz]⟩
  · exact ⟨["Number"], by simp [hn, hz]⟩
  · rcases h with h | h
    · exact absurd h hn
    · exact absurd h hz

/-- Decoding and validation fail when every record the decoder can give has a
field at its zero value. -/
theorem andValidate_fails (r : Except GoError Product)
    (h : ∀ p, r = Except.ok p → p.Name = "" ∨ p.Number = 0) :
    ∃ err, andValidate r = Except.error err := by
  cases r with
  | error e => exact ⟨e, rfl⟩
  | ok p =>
      obtain ⟨fields, hf⟩ := validate_fails p (h p rfl)
      exact ⟨_, hf⟩

/-- The binding of a JSON body. -/
theorem shouldBind_json (lib : Unmodelled) (body : String) :
    (Context.fresh (postProduct "application/json" body)).ShouldBind lib
      = andValidate (decodeJSON body Product.zero) := by
  rfl

/-- The binding of an XML body. -/
theorem shouldBind_xml (lib : Unmodelled) (body : String) :
    (Context.fresh (postProduct "application/xml" body)).ShouldBind lib
      = andValidate (decodeXML body Product.zero) := by
  rfl

/-- The form of a URL-encoded body: the size check of net/http, then `url.ParseQuery`. -/
theorem requestForm_urlencoded (lib : Unmodelled) (body : String) :
    requestForm lib (postProduct "application/x-www-form-urlencoded" body)
      = if maxFormSize < (utf8Encode body.data).length then
          Except.error (GoError.decode "http: POST too large")
        else ParseQuery body := by
  have hm : requestMediaType lib (postProduct "application/x-www-form-urlencoded" body)
      = Except.ok "application/x-www-form-urlencoded" := rfl
  have hq : ParseQuery (postProduct "application/x-www-form-urlencoded" body).query
      = Except.ok [] := rfl
  have hb : (postProduct "application/x-www-form-urlencoded" body).body = body := rfl
  have hne : ¬ ("application/x-www-form-urlencoded" = "multipart/form-data") := by decide
  unfold requestForm ParseForm parsePostForm
  simp only [hm, hq, hb, if_true, hne, if_false]
  by_cases hs : maxFormSize < (utf8Encode body.data).length
  · simp only [hs, if_true]
  · simp only [hs, if_false]
    cases ParseQuery body <;> rfl

/-- The binding of a URL-encoded body. -/
theorem shouldBind_form (lib : Unmodelled) (body : String) (form : Values)
    (h : requestForm lib (postProduct "application/x-www-form-urlencoded" body)
      = Except.ok form) :
    (Context.fresh (postProduct "application/x-www-form-urlencoded" body)).ShouldBind lib
      = andValidate (mapForm form Product.zero) := by
  have hb : Binding.Default
      (Context.fresh (postProduct "application/x-www-form-urlencoded" body)).request.method
      (Context.fresh (postProduct "application/x-www-form-urlencoded" body)).ContentType
      = Binding.form := by rfl
  unfold Context.ShouldBind
  rw [hb]
  simp only [Context.fresh, h]

/-! ## encoding/json: reading back what `json.Marshal` wrote -/

/-- One step of `unquote` on a character that stands for itself. -/
theorem scanString_plain (c : Char) (rest acc : List Char) (hq : c ≠ Char.ofNat 34)
    (hb : c ≠ Char.ofNat 92) (hc : ¬ c.toNat < 0x20) :
    scanString (c :: rest) acc none = scanString rest (c :: acc) none := by
  rw [scanString.eq_def]
  simp only [hq, hb, hc, if_false, flushPending, List.nil_append]

/-- One step of `unquote` on a one-letter escape. -/
theorem scanString_simple (e ch : Char) (rest acc : List Char) (he : e ≠ 'u')
    (hs : simpleEscape e = some ch) :
    scanString (Char.ofNat 92 :: e :: rest) acc none = scanString rest (ch :: acc) none := by
  rw [scanString.eq_def]
  have h1 : Char.ofNat 92 ≠ Char.ofNat 34 := by decide
  simp only [h1, he, hs, if_false, if_true, flushPending, List.nil_append]

/-- One step of `unquote` on an escape with four hex digits that is no surrogate. -/
theorem scanString_u (h1 h2 h3 h4 : Char) (rest acc : List Char) (n : Nat)
    (hh : (ishex h1 && ishex h2 && ishex h3 && ishex h4) = true)
    (hn : unhex h1 * 4096 + unhex h2 * 256 + unhex h3 * 16 + unhex h4 = n)
    (hlt : n < 0xD800) :
    scanString (Char.ofNat 92 :: 'u' :: h1 :: h2 :: h3 :: h4 :: rest) acc none
      = scanString rest (Char.ofNat n :: acc) none := by
  rw [scanString.eq_def]
  have hq : Char.ofNat 92 ≠ Char.ofNat 34 := by decide
  simp only [hq, if_false, if_true, hh, hn]
  rw [if_neg (by omega), if_neg (by omega)]

/-- A hex digit written by `lowerhex` reads back. -/
theorem lowerhex_reads (a : Nat) (ha : a < 16) :
    ishex (lowerhex a) = true ∧ unhex (lowerhex a) = a := by
  interval_cases a <;> decide

/-- Reading what `encodeState.string` wrote for one character gives the character. -/
theorem scanString_step (c : Char) (tl acc : List Char) :
    scanString (jsonEscapeChar c ++ tl) acc none = scanString tl (c :: acc) none := by
  have hc : Char.ofNat c.toNat = c := Char.ofNat_toNat c
  unfold jsonEscapeChar
  simp only
  by_cases c34 : c.toNat = 34
  · rw [if_pos c34, ← hc, c34]
    exact scanString_simple _ _ tl acc (by decide) (by decide)
  rw [if_neg c34]
  by_cases c92 : c.toNat = 92
  · rw [if_pos c92, ← hc, c92]
    exact scanString_simple _ _ tl acc (by decide) (by decide)
  rw [if_neg c92]
  by_cases c10 : c.toNat = 10
  · rw [if_pos c10, ← hc, c10]
    exact scanString_simple _ _ tl acc (by decide) (by decide)
  rw [if_neg c10]
  by_cases c13 : c.toNat = 13
  · rw [if_pos c13, ← hc, c13]
    exact scanString_simple _ _ tl acc (by decide) (by decide)
  rw [if_neg c13]
  by_cases c9 : c.toNat = 9
  · rw [if_pos c9, ← hc, c9]
    exact scanString_simple _ _ tl acc (by decide) (by decide)
  rw [if_neg c9]
  by_cases cu : c.toNat < 0x20 ∨ c.toNat = 60 ∨ c.toNat = 62 ∨ c.toNat = 38
  · rw [if_pos cu]
    have hlt : c.toNat < 256 := by omega
    obtain ⟨x1, x2⟩ := lowerhex_reads (c.toNat / 16) (by omega)
    obtain ⟨y1, y2⟩ := lowerhex_reads (c.toNat % 16) (by omega)
    have h0 : ishex '0' = true := by decide
    have u0 : unhex '0' = 0 := by decide
    have := scanString_u '0' '0' (lowerhex (c.toNat / 16)) (lowerhex (c.toNat % 16)) tl acc
      c.toNat (by simp [h0, x1, y1]) (by rw [u0, x2, y2]; omega) (by omega)
    rw [hc] at this
    exact this
  rw [if_neg cu]
  by_cases cl : c.toNat = 0x2028 ∨ c.toNat = 0x2029
  · rw [if_pos cl]
    rcases cl with h | h
    · rw [← hc, h]
      exact scanString_u '2' '0' '2' _ tl acc 0x2028 (by decide) (by decide) (by decide)
    · rw [← hc, h]
      exact scanString_u '2' '0' '2' _ tl acc 0x2029 (by decide) (by decide) (by decide)
  rw [if_neg cl]
  refine scanString_plain c tl acc ?_ ?_ (by omega)
  · intro h; rw [h] at c34; exact c34 (by decide)
  · intro h; rw [h] at c92; exact c92 (by decide)

/-- Reading what `encodeState.string` wrote for a text gives the text. -/
theorem scanString_quoted (X : List Char) (rest acc : List Char) :
    scanString (X.flatMap jsonEscapeChar ++ Char.ofNat 34 :: rest) acc none
      = some (String.mk (acc.reverse ++ X), rest) := by
  induction X generalizing acc with
  | nil =>
      rw [scanString.eq_def]
      simp [flushPending]
  | cons c t ih =>
      rw [List.flatMap_cons, List.append_assoc, scanString_step, ih]
      simp
/-- The digits written for `n` are the single digit 0 or start with a digit from 1 to 9. -/
theorem formatDigits_leading (fuel n : Nat) (acc : List Char) (h : n < fuel) :
    (n = 0 ∧ formatDigits fuel n acc = '0' :: acc)
    ∨ (∃ d t, 1 ≤ d ∧ d < 10 ∧ formatDigits fuel n acc = Char.ofNat (48 + d) :: t) := by
  induction fuel generalizing n acc with
  | zero => omega
  | succ fuel ih =>
      unfold formatDigits
      by_cases h10 : n < 10
      · simp only [h10, if_true]
        by_cases h0 : n = 0
        · subst h0
          exact Or.inl ⟨rfl, rfl⟩
        · exact Or.inr ⟨n, acc, by omega, h10, rfl⟩
      · simp only [h10, if_false]
        rcases ih (n / 10) (Char.ofNat (48 + n % 10) :: acc) (by omega) with h0 | h1
        · omega
        · exact Or.inr h1

/-- The digits written for `n` are decimal digits, if the text behind them is. -/
theorem formatDigits_digits (fuel n : Nat) (acc : List Char)
    (hacc : ∀ c ∈ acc, (digitValue c).isSome = true) :
    ∀ c ∈ formatDigits fuel n acc, (digitValue c).isSome = true := by
  induction fuel generalizing n acc with
  | zero => simpa [formatDigits] using hacc
  | succ fuel ih =>
      unfold formatDigits
      by_cases h10 : n < 10
      · simp only [h10, if_true]
        intro c hc
        rcases List.mem_cons.mp hc with h | h
        · rw [h, digitValue_digit n h10]; rfl
        · exact hacc c h
      · simp only [h10, if_false]
        apply ih
        intro c hc
        rcases List.mem_cons.mp hc with h | h
        · rw [h, digitValue_digit (n % 10) (by omega)]; rfl
        · exact hacc c h

/-- Digits in front of a closing brace are split off whole. -/
theorem spanDigits_before_brace (ds rest : List Char)
    (h : ∀ c ∈ ds, (digitValue c).isSome = true) :
    spanDigits (ds ++ Char.ofNat 125 :: rest) = (ds, Char.ofNat 125 :: rest) := by
  induction ds with
  | nil =>
      have hb : (digitValue (Char.ofNat 125)).isSome = false := by decide
      simp [spanDigits, hb]
  | cons d t ih =>
      have hd := h d (List.mem_cons_self d t)
      have ht := ih (fun c hc => h c (List.mem_cons_of_mem d hc))
      simp [spanDigits, hd, ht]

/-- The number literal in front of a closing brace that `FormatInt` wrote is read whole. -/
theorem scanNumber_formatInt (i : Int) (rest : List Char) :
    scanNumber ((FormatInt i).data ++ Char.ofNat 125 :: rest)
      = some (FormatInt i, Char.ofNat 125 :: rest) := by
  have hdig : ∀ c ∈ formatDigits (i.natAbs + 1) i.natAbs [], (digitValue c).isSome = true :=
    formatDigits_digits _ _ [] (fun c hc => absurd hc (List.not_mem_nil c))
  have hlead := formatDigits_leading (i.natAbs + 1) i.natAbs [] (by omega)
  have hint : scanIntPart (formatDigits (i.natAbs + 1) i.natAbs [] ++ Char.ofNat 125 :: rest)
      = some (formatDigits (i.natAbs + 1) i.natAbs [], Char.ofNat 125 :: rest) := by
    rcases hlead with ⟨_, h0⟩ | ⟨d, t, hd1, hd10, ht⟩
    · rw [h0]
      simp [scanIntPart]
    · rw [ht] at hdig ⊢
      have hnz : Char.ofNat (48 + d) ≠ '0' := by
        interval_cases d <;> decide
      have hsome := hdig _ (List.mem_cons_self _ t)
      have hsp := spanDigits_before_brace t rest
        (fun c hc => hdig c (List.mem_cons_of_mem _ hc))
      simp [scanIntPart, hnz, hsome, hsp]
  have hfrac : scanFraction (Char.ofNat 125 :: rest) = some ([], Char.ofNat 125 :: rest) := by
    have : Char.ofNat 125 ≠ '.' := by decide
    simp [scanFraction, this]
  have hexp : scanExponent (Char.ofNat 125 :: rest) = some ([], Char.ofNat 125 :: rest) := by
    have h1 : Char.ofNat 125 ≠ 'e' := by decide
    have h2 : Char.ofNat 125 ≠ 'E' := by decide
    simp [scanExponent, h1, h2]
  obtain ⟨d, t, hd, ht⟩ := formatDigits_head (i.natAbs + 1) i.natAbs [] (by omega)
  unfold scanNumber FormatInt
  by_cases hneg : i < 0
  · simp only [hneg, if_true, List.cons_append, hint, hfrac, hexp, List.append_nil,
      List.nil_append]
  · simp only [hneg, if_false]
    generalize formatDigits (i.natAbs + 1) i.natAbs [] = ds at ht hint ⊢
    rw [ht] at hint ⊢
    have hm : Char.ofNat (48 + d) ≠ '-' := (digit_plain d hd).2.2
    simp only [List.cons_append, hm, if_false] at hint ⊢
    simp only [hint, hfrac, hexp, List.append_nil, List.nil_append]
/-- White space is skipped only where there is some. -/
theorem skipSpace_cons (c : Char) (s : List Char) (h : isJSONSpace c = false) :
    skipSpace (c :: s) = c :: s := by
  simp [skipSpace, h]

/-- The scanner on a value that starts with a quote: a string. -/
theorem scanJSON_string (f : Nat) (s : List Char) :
    scanJSON (f + 1) ScanMode.value (Char.ofNat 34 :: s)
      = (scanString s [] none).map fun r => (JVal.string r.1, r.2) := by
  rw [scanJSON.eq_def]
  have hs : isJSONSpace (Char.ofNat 34) = false := by decide
  have h1 : Char.ofNat 34 ≠ Char.ofNat 123 := by decide
  have h2 : Char.ofNat 34 ≠ '[' := by decide
  simp only [skipSpace_cons _ _ hs, h1, h2, if_false, if_true]

/-- The scanner on a value that starts like a number. -/
theorem scanJSON_number (f : Nat) (c : Char) (s : List Char) (hs : isJSONSpace c = false)
    (h1 : c ≠ Char.ofNat 123) (h2 : c ≠ '[') (h3 : c ≠ Char.ofNat 34) (h4 : c ≠ 't')
    (h5 : c ≠ 'f') (h6 : c ≠ 'n') :
    scanJSON (f + 1) ScanMode.value (c :: s)
      = (scanNumber (c :: s)).map fun r => (JVal.number r.1, r.2) := by
  rw [scanJSON.eq_def]
  simp only [skipSpace_cons _ _ hs, h1, h2, h3, h4, h5, h6, if_false]

/-- The member scan on a key, its colon and its value; `s` is the text behind
the opening quote of the key. -/
theorem scanMembers_member (f : Nat) (first : Bool) (s : List Char) :
    scanMembers (f + 1) first
        (if first then Char.ofNat 34 :: s else ',' :: Char.ofNat 34 :: s)
      = match scanString s [] none with
        | none => none
        | some k =>
            match skipSpace k.2 with
            | [] => none
            | d :: rest1 =>
                if d = ':' then
                  match scanJSON (f + 1) ScanMode.value rest1 with
                  | none => none
                  | some r => (scanMembers f false r.2).map fun ms => (k.1, r.1) :: ms
                else none := by
  have hs : isJSONSpace (Char.ofNat 34) = false := by decide
  have hc : isJSONSpace ',' = false := by decide
  have h1 : Char.ofNat 34 ≠ Char.ofNat 125 := by decide
  have h2 : ',' ≠ Char.ofNat 125 := by decide
  rw [scanMembers.eq_def]
  cases first
  · simp only [Bool.false_eq_true, if_false, skipSpace_cons _ _ hc, skipSpace_cons _ _ hs, h2,
      if_true]
  · simp only [if_true, skipSpace_cons _ _ hs, h1, if_false]

/-- The member scan on the closing brace. -/
theorem scanMembers_close (f : Nat) (first : Bool) (s : List Char) :
    scanMembers (f + 1) first (Char.ofNat 125 :: s) = some [] := by
  have hs : isJSONSpace (Char.ofNat 125) = false := by decide
  rw [scanMembers.eq_def]
  simp only [skipSpace_cons _ _ hs, if_true]

/-- A character `FormatInt` can start with starts a JSON number and nothing else. -/
theorem number_start (c : Char) (h : c = '-' ∨ ∃ d, d < 10 ∧ c = Char.ofNat (48 + d)) :
    isJSONSpace c = false ∧ c ≠ Char.ofNat 123 ∧ c ≠ '[' ∧ c ≠ Char.ofNat 34 ∧ c ≠ 't'
      ∧ c ≠ 'f' ∧ c ≠ 'n' := by
  rcases h with h | ⟨d, hd, h⟩
  · subst h; decide
  · subst h
    interval_cases d <;> decide

/-- The text `FormatInt` writes starts with `-` or a digit. -/
theorem formatInt_start (i : Int) :
    ∃ c t, (FormatInt i).data = c :: t ∧ (c = '-' ∨ ∃ d, d < 10 ∧ c = Char.ofNat (48 + d)) := by
  obtain ⟨d, t, hd, ht⟩ := formatDigits_head (i.natAbs + 1) i.natAbs [] (by omega)
  unfold FormatInt
  by_cases hneg : i < 0
  · simp only [hneg, if_true]
    exact ⟨'-', _, rfl, Or.inl rfl⟩
  · simp only [hneg, if_false, ht]
    exact ⟨_, t, rfl, Or.inr ⟨d, hd, rfl⟩⟩

/-- The text `json.Marshal` writes for a record decodes to the object with the
members `name` and `number` of that record. -/
theorem decode_marshal (X : String) (N : Int) :
    decodeJSONValue (jsonMarshal { Name := X, Number := N })
      = some (JTop.object [("name", JVal.string X), ("number", JVal.number (FormatInt N))]) := by
  obtain ⟨c, t, hct, hc⟩ := formatInt_start N
  obtain ⟨n1, n2, n3, n4, n5, n6, n7⟩ := number_start c hc
  have hnum := scanNumber_formatInt N []
  rw [hct] at hnum
  have hshape : (jsonMarshal { Name := X, Number := N }).data
      = Char.ofNat 123 :: Char.ofNat 34 :: ("name".data.flatMap jsonEscapeChar
          ++ Char.ofNat 34 :: ':' :: Char.ofNat 34 :: (X.data.flatMap jsonEscapeChar
          ++ Char.ofNat 34 :: ',' :: Char.ofNat 34 :: ("number".data.flatMap jsonEscapeChar
          ++ Char.ofNat 34 :: ':' :: (c :: t ++ [Char.ofNat 125])))) := by
    simp only [jsonMarshal, jsonQuote, hct]
    simp
    rfl
  have hlen : ∃ k, 2 * (jsonMarshal { Name := X, Number := N }).data.length + 2 = k + 3 := by
    have two : ∀ (a b : Char) (l : List Char), ∃ k, 2 * (a :: b :: l).length + 2 = k + 3 :=
      fun a b l => ⟨2 * l.length + 3, by simp only [List.length_cons]; omega⟩
    rw [hshape]
    exact two _ _ _
  obtain ⟨k, hk⟩ := hlen
  have hb : isJSONSpace (Char.ofNat 123) = false := by decide
  have hcolon : isJSONSpace ':' = false := by decide
  unfold decodeJSONValue
  simp only [hk]
  rw [hshape]
  simp only [skipSpace_cons _ _ hb, if_true]
  have m1 := scanMembers_member (k + 2) true
    ("name".data.flatMap jsonEscapeChar
          ++ Char.ofNat 34 :: ':' :: Char.ofNat 34 :: (X.data.flatMap jsonEscapeChar
          ++ Char.ofNat 34 :: ',' :: Char.ofNat 34 :: ("number".data.flatMap jsonEscapeChar
          ++ Char.ofNat 34 :: ':' :: (c :: t ++ [Char.ofNat 125]))))
  simp only [if_true] at m1
  rw [m1, scanString_quoted]
  simp only [skipSpace_cons _ _ hcolon, if_true, scanJSON_string, scanString_quoted,
    Option.map_some']
  have m2 := scanMembers_member (k + 1) false
    ("number".data.flatMap jsonEscapeChar ++ Char.ofNat 34 :: ':' :: (c :: t ++ [Char.ofNat 125]))
  simp only [Bool.false_eq_true, if_false] at m2
  rw [m2, scanString_quoted]
  simp only [skipSpace_cons _ _ hcolon, if_true, List.cons_append,
    scanJSON_number _ c _ n1 n2 n3 n4 n5 n6 n7]
  rw [← List.cons_append, hnum]
  simp only [Option.map_some', scanMembers_close]
  rfl

/-! ## net/url: reading back what `QueryEscape` wrote -/

/-- The code point of an ASCII character made from its number. -/
theorem toNat_ofNat_ascii (b : Nat) (h : b < 128) : (Char.ofNat b).toNat = b := by
  interval_cases b <;> rfl

/-- A hex digit written by `upperhex` reads back. -/
theorem upperhex_reads (a : Nat) (ha : a < 16) :
    ishex (upperhex a) = true ∧ unhex (upperhex a) = a := by
  interval_cases a <;> decide

/-- One step of `unescape` on a `+`. -/
theorem unescapeBytes_plus (tl : List Char) :
    unescapeBytes ('+' :: tl) = (unescapeBytes tl).map fun bs => 32 :: bs := by
  rw [unescapeBytes.eq_def]
  have h : '+' ≠ '%' := by decide
  simp only [h, if_false, if_true]

/-- One step of `unescape` on `%XX`. -/
theorem unescapeBytes_percent (a b : Char) (tl : List Char) (ha : ishex a = true)
    (hb : ishex b = true) :
    unescapeBytes ('%' :: a :: b :: tl)
      = (unescapeBytes tl).map fun bs => (unhex a * 16 + unhex b) :: bs := by
  rw [unescapeBytes.eq_def]
  simp only [if_true, ha, hb, Bool.and_self]

/-- One step of `unescape` on a character that stands for itself. -/
theorem unescapeBytes_plain (c : Char) (tl : List Char) (h1 : c ≠ '%') (h2 : c ≠ '+') :
    unescapeBytes (c :: tl) = (unescapeBytes tl).map fun bs => utf8EncodeChar c ++ bs := by
  rw [unescapeBytes.eq_def]
  simp only [h1, h2, if_false]

/-- Reading what `escape` wrote for one byte gives the byte. -/
theorem unescapeBytes_step (b : Nat) (hb : b < 256) (tl : List Char) :
    unescapeBytes (escapeByte b ++ tl) = (unescapeBytes tl).map fun bs => b :: bs := by
  unfold escapeByte
  by_cases h32 : b = 32
  · rw [if_pos h32, h32]
    exact unescapeBytes_plus tl
  rw [if_neg h32]
  by_cases hs : shouldEscape b = true
  · rw [if_pos hs]
    obtain ⟨x1, x2⟩ := upperhex_reads (b / 16) (by omega)
    obtain ⟨y1, y2⟩ := upperhex_reads (b % 16) (by omega)
    have := unescapeBytes_percent (upperhex (b / 16)) (upperhex (b % 16)) tl x1 y1
    rw [x2, y2] at this
    have e : b / 16 * 16 + b % 16 = b := by omega
    rw [e] at this
    exact this
  rw [if_neg hs]
  have hlt : b < 128 := by
    by_contra hge
    apply hs
    unfold shouldEscape
    have : ¬ b ≤ 122 := by omega
    have h2 : ¬ b ≤ 90 := by omega
    have h3 : ¬ b ≤ 57 := by omega
    have h4 : b ≠ 45 := by omega
    have h5 : b ≠ 95 := by omega
    have h6 : b ≠ 46 := by omega
    have h7 : b ≠ 126 := by omega
    simp [this, h2, h3, h4, h5, h6, h7]
  have hn := toNat_ofNat_ascii b hlt
  have hp : Char.ofNat b ≠ '%' := by
    intro h
    rw [h] at hn
    have : b = 37 := by rw [← hn]; rfl
    subst this
    exact hs (by decide)
  have hq : Char.ofNat b ≠ '+' := by
    intro h
    rw [h] at hn
    have : b = 43 := by rw [← hn]; rfl
    subst this
    exact hs (by decide)
  have he : utf8EncodeChar (Char.ofNat b) = [b] := by
    unfold utf8EncodeChar
    simp only [hn, hlt, if_true]
  have := unescapeBytes_plain (Char.ofNat b) tl hp hq
  rw [he] at this
  exact this

/-- Reading what `escape` wrote for a byte string gives the byte string. -/
theorem unescapeBytes_escaped (bs : List Nat) (hbs : ∀ b ∈ bs, b < 256) :
    unescapeBytes (bs.flatMap escapeByte) = some bs := by
  induction bs with
  | nil => rfl
  | cons b t ih =>
      have h := unescapeBytes_step b (hbs b (List.mem_cons_self b t)) (t.flatMap escapeByte)
      rw [List.flatMap_cons, h, ih (fun x hx => hbs x (List.mem_cons_of_mem b hx))]
      rfl

/-! ## unicode/utf8: decoding what was encoded -/

/-- The code point of a character made from a number that is one. -/
theorem ofNat_eq_of_toNat (c : Char) (n : Nat) (h : n = c.toNat) : Char.ofNat n = c := by
  rw [h, Char.ofNat_toNat]

/-- A character has a code point below the surrogates or above them. -/
theorem char_range (c : Char) :
    c.toNat < 0xD800 ∨ (0xDFFF < c.toNat ∧ c.toNat < 0x110000) := by
  have h := c.valid
  unfold UInt32.isValidChar Nat.isValidChar at h
  exact h

/-- Decoding a byte below 0x80. -/
theorem decodeRune_one (b0 : Nat) (rest : List Nat) (h0 : b0 < 0x80) :
    DecodeRune (b0 :: rest) = (Char.ofNat b0, 1) := by
  rw [DecodeRune.eq_def]
  simp only [h0, if_true]

/-- Decoding a sequence of two bytes. -/
theorem decodeRune_two (b0 b1 : Nat) (rest : List Nat) (h0 : 0xC2 ≤ b0) (h0' : b0 ≤ 0xDF)
    (h1 : 0x80 ≤ b1) (h1' : b1 ≤ 0xBF) :
    DecodeRune (b0 :: b1 :: rest) = (Char.ofNat ((b0 - 0xC0) * 64 + (b1 - 0x80)), 2) := by
  rw [DecodeRune.eq_def]
  have a1 : ¬ (b0 < 0x80) := by omega
  have a2 : (decide (0xC2 ≤ b0) && decide (b0 ≤ 0xDF)) = true := by
    simp only [Bool.and_eq_true, decide_eq_true_eq]; omega
  have a3 : isCont b1 = true := by
    unfold isCont
    simp only [Bool.and_eq_true, decide_eq_true_eq]; omega
  simp only [a1, a2, a3, if_true, if_false]

/-- Decoding a sequence of three bytes. -/
theorem decodeRune_three (b0 b1 b2 : Nat) (rest : List Nat) (h0 : 0xE0 ≤ b0) (h0' : b0 ≤ 0xEF)
    (h1 : (if b0 = 0xE0 then 0xA0 else 0x80) ≤ b1)
    (h1' : b1 ≤ (if b0 = 0xED then 0x9F else 0xBF))
    (h2 : 0x80 ≤ b2) (h2' : b2 ≤ 0xBF) :
    DecodeRune (b0 :: b1 :: b2 :: rest)
      = (Char.ofNat ((b0 - 0xE0) * 4096 + (b1 - 0x80) * 64 + (b2 - 0x80)), 3) := by
  rw [DecodeRune.eq_def]
  have a1 : ¬ (b0 < 0x80) := by omega
  have a2 : (decide (0xC2 ≤ b0) && decide (b0 ≤ 0xDF)) = false := by
    simp only [Bool.and_eq_false_iff, decide_eq_false_iff_not]; omega
  have a3 : (decide (0xE0 ≤ b0) && decide (b0 ≤ 0xEF)) = true := by
    simp only [Bool.and_eq_true, decide_eq_true_eq]; omega
  have a4 : isCont b2 = true := by
    unfold isCont
    simp only [Bool.and_eq_true, decide_eq_true_eq]; omega
  simp only [a1, a2, a3, a4, h1, h1', if_true, if_false, Bool.false_eq_true, decide_True,
    Bool.and_self]

/-- Decoding a sequence of four bytes. -/
theorem decodeRune_four (b0 b1 b2 b3 : Nat) (rest : List Nat) (h0 : 0xF0 ≤ b0) (h0' : b0 ≤ 0xF4)
    (h1 : (if b0 = 0xF0 then 0x90 else 0x80) ≤ b1)
    (h1' : b1 ≤ (if b0 = 0xF4 then 0x8F else 0xBF))
    (h2 : 0x80 ≤ b2) (h2' : b2 ≤ 0xBF) (h3 : 0x80 ≤ b3) (h3' : b3 ≤ 0xBF) :
    DecodeRune (b0 :: b1 :: b2 :: b3 :: rest)
      = (Char.ofNat ((b0 - 0xF0) * 262144 + (b1 - 0x80) * 4096 + (b2 - 0x80) * 64
          + (b3 - 0x80)), 4) := by
  rw [DecodeRune.eq_def]
  have a1 : ¬ (b0 < 0x80) := by omega
  have a2 : (decide (0xC2 ≤ b0) && decide (b0 ≤ 0xDF)) = false := by
    simp only [Bool.and_eq_false_iff, decide_eq_false_iff_not]; omega
  have a3 : (decide (0xE0 ≤ b0) && decide (b0 ≤ 0xEF)) = false := by
    simp only [Bool.and_eq_false_iff, decide_eq_false_iff_not]; omega
  have a4 : (decide (0xF0 ≤ b0) && decide (b0 ≤ 0xF4)) = true := by
    simp only [Bool.and_eq_true, decide_eq_true_eq]; omega
  have a5 : isCont b2 = true := by
    unfold isCont
    simp only [Bool.and_eq_true, decide_eq_true_eq]; omega
  have a6 : isCont b3 = true := by
    unfold isCont
    simp only [Bool.and_eq_true, decide_eq_true_eq]; omega
  simp only [a1, a2, a3, a4, a5, a6, h1, h1', if_true, if_false, Bool.false_eq_true,
    decide_True, Bool.and_self]

/-- Decoding the bytes of a character gives the character and the number of its bytes. -/
theorem decodeRune_encode (c : Char) (rest : List Nat) :
    DecodeRune (utf8EncodeChar c ++ rest) = (c, (utf8EncodeChar c).length) := by
  have hr := char_range c
  unfold utf8EncodeChar
  simp only
  by_cases h1 : c.toNat < 0x80
  · rw [if_pos h1]
    rw [List.singleton_append, decodeRune_one _ _ h1, Char.ofNat_toNat]
    rfl
  rw [if_neg h1]
  by_cases h2 : c.toNat < 0x800
  · rw [if_pos h2]
    have := decodeRune_two (0xC0 + c.toNat / 64) (0x80 + c.toNat % 64) rest
      (by omega) (by omega) (by omega) (by omega)
    rw [ofNat_eq_of_toNat c _ (by omega)] at this
    exact this
  rw [if_neg h2]
  by_cases h3 : c.toNat < 0x10000
  · rw [if_pos h3]
    have := decodeRune_three (0xE0 + c.toNat / 4096) (0x80 + c.toNat / 64 % 64)
      (0x80 + c.toNat % 64) rest (by omega) (by omega) (by split <;> omega)
      (by split <;> omega) (by omega) (by omega)
    rw [ofNat_eq_of_toNat c _ (by omega)] at this
    exact this
  rw [if_neg h3]
  have := decodeRune_four (0xF0 + c.toNat / 262144) (0x80 + c.toNat / 4096 % 64)
    (0x80 + c.toNat / 64 % 64) (0x80 + c.toNat % 64) rest (by omega) (by omega)
    (by split <;> omega) (by split <;> omega) (by omega) (by omega) (by omega) (by omega)
  rw [ofNat_eq_of_toNat c _ (by omega)] at this
  exact this

/-- The UTF-8 bytes of a character are bytes, and there is at least one. -/
theorem utf8EncodeChar_bytes (c : Char) :
    (∀ b ∈ utf8EncodeChar c, b < 256) ∧ 1 ≤ (utf8EncodeChar c).length := by
  have hr := char_range c
  unfold utf8EncodeChar
  simp only
  by_cases h1 : c.toNat < 0x80
  · rw [if_pos h1]
    refine ⟨?_, by simp⟩
    intro b hb
    simp only [List.mem_singleton] at hb
    omega
  rw [if_neg h1]
  by_cases h2 : c.toNat < 0x800
  · rw [if_pos h2]
    refine ⟨?_, by simp⟩
    intro b hb
    simp only [List.mem_cons, List.mem_singleton, List.not_mem_nil, or_false] at hb
    omega
  rw [if_neg h2]
  by_cases h3 : c.toNat < 0x10000
  · rw [if_pos h3]
    refine ⟨?_, by simp⟩
    intro b hb
    simp only [List.mem_cons, List.mem_singleton, List.not_mem_nil, or_false] at hb
    omega
  rw [if_neg h3]
  refine ⟨?_, by simp⟩
  intro b hb
  simp only [List.mem_cons, List.mem_singleton, List.not_mem_nil, or_false] at hb
  omega

/-- The bytes of a text are bytes. -/
theorem utf8Encode_bytes (cs : List Char) : ∀ b ∈ utf8Encode cs, b < 256 := by
  intro b hb
  unfold utf8Encode at hb
  obtain ⟨c, _, hc⟩ := List.mem_flatMap.mp hb
  exact (utf8EncodeChar_bytes c).1 b hc

/-- A text has at most as many characters as bytes. -/
theorem length_le_utf8Encode (cs : List Char) : cs.length ≤ (utf8Encode cs).length := by
  induction cs with
  | nil => simp [utf8Encode]
  | cons c t ih =>
      have h := (utf8EncodeChar_bytes c).2
      unfold utf8Encode at ih ⊢
      rw [List.flatMap_cons, List.length_append, List.length_cons]
      omega

/-- Decoding the bytes of a text gives the text, with fuel for every byte. -/
theorem utf8DecodeAux_encode (cs : List Char) (fuel : Nat)
    (h : (utf8Encode cs).length ≤ fuel) : utf8DecodeAux fuel (utf8Encode cs) = cs := by
  induction cs generalizing fuel with
  | nil =>
      cases fuel <;> rfl
  | cons c t ih =>
      have hb := (utf8EncodeChar_bytes c).2
      have he : utf8Encode (c :: t) = utf8EncodeChar c ++ utf8Encode t := by
        unfold utf8Encode
        rw [List.flatMap_cons]
      rw [he] at h ⊢
      rw [List.length_append] at h
      obtain ⟨f, hf⟩ : ∃ f, fuel = f + 1 := ⟨fuel - 1, by omega⟩
      subst hf
      obtain ⟨b, bs, hbs⟩ : ∃ b bs, utf8EncodeChar c ++ utf8Encode t = b :: bs := by
        cases hx : utf8EncodeChar c with
        | nil => rw [hx] at hb; simp at hb
        | cons b bs => exact ⟨b, bs ++ utf8Encode t, rfl⟩
      have hd := decodeRune_encode c (utf8Encode t)
      rw [hbs] at hd
      conv_lhs => rw [hbs]
      unfold utf8DecodeAux
      simp only [hd]
      rw [← hbs, List.drop_left]
      rw [ih f (by omega)]

/-- Decoding the bytes of a text gives the text. -/
theorem utf8Decode_encode (cs : List Char) : utf8Decode (utf8Encode cs) = cs :=
  utf8DecodeAux_encode cs _ (le_refl _)

/-- Unescaping what `QueryEscape` wrote gives the text. -/
theorem queryUnescape_escape (s : String) : QueryUnescape (QueryEscape s).data = some s := by
  unfold QueryUnescape QueryEscape
  simp only [unescapeBytes_escaped _ (utf8Encode_bytes s.data), Option.map_some',
    utf8Decode_encode]

/-! ## net/url: parsing what `Values.Encode` wrote -/

/-- What `escape` writes for a byte holds none of the separators of a query. -/
theorem escapeByte_no_separator (b : Nat) (hb : b < 256) :
    ∀ c ∈ escapeByte b, c ≠ '&' ∧ c ≠ ';' ∧ c ≠ '=' := by
  have hex : ∀ a, a < 16 → upperhex a ≠ '&' ∧ upperhex a ≠ ';' ∧ upperhex a ≠ '=' := by
    intro a ha
    interval_cases a <;> decide
  unfold escapeByte
  by_cases h32 : b = 32
  · rw [if_pos h32]
    intro c hc
    simp only [List.mem_singleton] at hc
    subst hc
    decide
  rw [if_neg h32]
  by_cases hs : shouldEscape b = true
  · rw [if_pos hs]
    intro c hc
    simp only [List.mem_cons, List.mem_singleton, List.not_mem_nil, or_false] at hc
    rcases hc with h | h | h
    · subst h; decide
    · subst h; exact hex _ (by omega)
    · subst h; exact hex _ (by omega)
  rw [if_neg hs]
  intro c hc
  simp only [List.mem_singleton] at hc
  subst hc
  have key : ∀ k, Char.ofNat b = Char.ofNat k → k < 128 → shouldEscape k = true → False := by
    intro k hk hk128 hsk
    have hlt : b < 128 := by
      by_contra hge
      apply hs
      unfold shouldEscape
      have h1 : ¬ b ≤ 122 := by omega
      have h2 : ¬ b ≤ 90 := by omega
      have h3 : ¬ b ≤ 57 := by omega
      have h4 : b ≠ 45 := by omega
      have h5 : b ≠ 95 := by omega
      have h6 : b ≠ 46 := by omega
      have h7 : b ≠ 126 := by omega
      simp [h1, h2, h3, h4, h5, h6, h7]
    have e1 := toNat_ofNat_ascii b hlt
    have e2 := toNat_ofNat_ascii k hk128
    rw [hk, e2] at e1
    subst e1
    exact hs hsk
  refine ⟨fun h => key 38 h (by decide) (by decide), fun h => key 59 h (by decide) (by decide),
    fun h => key 61 h (by decide) (by decide)⟩

/-- What `QueryEscape` writes holds none of the separators of a query. -/
theorem queryEscape_no_separator (s : String) :
    ∀ c ∈ (QueryEscape s).data, c ≠ '&' ∧ c ≠ ';' ∧ c ≠ '=' := by
  intro c hc
  unfold QueryEscape at hc
  obtain ⟨b, hb, hcb⟩ := List.mem_flatMap.mp hc
  exact escapeByte_no_separator b (utf8Encode_bytes s.data b hb) c hcb

/-- Splitting a text without the separator gives the text. -/
theorem splitOn_none (sep : Char) (a cur : List Char) (h : ∀ c ∈ a, c ≠ sep) :
    splitOn sep a cur = [cur.reverse ++ a] := by
  induction a generalizing cur with
  | nil => simp [splitOn]
  | cons x t ih =>
      have hx := h x (List.mem_cons_self x t)
      simp only [splitOn, hx, if_false]
      rw [ih _ (fun c hc => h c (List.mem_cons_of_mem x hc))]
      simp

/-- Splitting at the first separator. -/
theorem splitOn_first (sep : Char) (a b cur : List Char) (h : ∀ c ∈ a, c ≠ sep) :
    splitOn sep (a ++ sep :: b) cur = (cur.reverse ++ a) :: splitOn sep b [] := by
  induction a generalizing cur with
  | nil => simp [splitOn]
  | cons x t ih =>
      have hx := h x (List.mem_cons_self x t)
      have e : (x :: t) ++ sep :: b = x :: (t ++ sep :: b) := rfl
      rw [e, splitOn, if_neg hx, ih _ (fun c hc => h c (List.mem_cons_of_mem x hc))]
      simp

/-- Cutting at the first separator. -/
theorem cut_first (sep : Char) (a b : List Char) (h : ∀ c ∈ a, c ≠ sep) :
    cut sep (a ++ sep :: b) = (a, b) := by
  induction a with
  | nil => simp [cut]
  | cons x t ih =>
      have hx := h x (List.mem_cons_self x t)
      have e : (x :: t) ++ sep :: b = x :: (t ++ sep :: b) := rfl
      rw [e, cut, if_neg hx, ih (fun c hc => h c (List.mem_cons_of_mem x hc))]

/-- One piece `key=value` as `Values.Encode` writes it is read back as the key
and the value. -/
theorem parseQueryPiece_encoded (m : Values) (key value : String) :
    parseQueryPiece m ((QueryEscape key).data ++ '=' :: (QueryEscape value).data)
      = Except.ok (m.add key value) := by
  have hk := queryEscape_no_separator key
  have hv := queryEscape_no_separator value
  have hsemi : ((QueryEscape key).data ++ '=' :: (QueryEscape value).data).contains ';'
      = false := by
    rw [Bool.eq_false_iff]
    intro hc
    rw [List.contains_iff_exists_mem_beq] at hc
    obtain ⟨c, hmem, hbeq⟩ := hc
    have hceq : c = ';' := by
      have := beq_iff_eq.mp hbeq
      exact this.symm
    subst hceq
    rcases List.mem_append.mp hmem with h | h
    · exact (hk _ h).2.1 rfl
    · rcases List.mem_cons.mp h with h | h
      · exact absurd h (by decide)
      · exact (hv _ h).2.1 rfl
  have hne : ((QueryEscape key).data ++ '=' :: (QueryEscape value).data).isEmpty = false := by
    cases (QueryEscape key).data <;> rfl
  unfold parseQueryPiece
  simp only [hsemi, hne, Bool.false_eq_true, if_false,
    cut_first '=' _ _ (fun c hc => (hk c hc).2.2), queryUnescape_escape]

/-- The text `Values.Encode` writes for the keys `name` and `number`: the two
pieces `key=value`, escaped, with `&` between them. -/
theorem encode_data (x y : String) :
    (Values.Encode [("name", [x]), ("number", [y])]).data
      = ((QueryEscape "name").data ++ '=' :: (QueryEscape x).data)
        ++ '&' :: ((QueryEscape "number").data ++ '=' :: (QueryEscape y).data) := by
  have hs : sortByKey [("name", [x]), ("number", [y])] = [("name", [x]), ("number", [y])] := by
    have hl : stringLess "number".data "name".data = false := by decide
    simp [sortByKey, insertByKey, hl]
  unfold Values.Encode encodePieces
  rw [hs]
  simp [String.intercalate, String.intercalate.go, String.data_append]

/-- The query `Values.Encode` writes for the keys `name` and `number` parses to
the same values. -/
theorem parseQuery_encode (x y : String) :
    ParseQuery (Values.Encode [("name", [x]), ("number", [y])])
      = Except.ok [("name", [x]), ("number", [y])] := by
  have hshape := encode_data x y
  have hamp : ∀ c ∈ (QueryEscape "name").data ++ '=' :: (QueryEscape x).data, c ≠ '&' := by
    intro c hc
    rcases List.mem_append.mp hc with h | h
    · exact (queryEscape_no_separator _ c h).1
    · rcases List.mem_cons.mp h with h | h
      · rw [h]; decide
      · exact (queryEscape_no_separator _ c h).1
  have hamp2 : ∀ c ∈ (QueryEscape "number").data ++ '=' :: (QueryEscape y).data, c ≠ '&' := by
    intro c hc
    rcases List.mem_append.mp hc with h | h
    · exact (queryEscape_no_separator _ c h).1
    · rcases List.mem_cons.mp h with h | h
      · rw [h]; decide
      · exact (queryEscape_no_separator _ c h).1
  unfold ParseQuery
  rw [hshape, splitOn_first '&' _ _ [] hamp, splitOn_none '&' _ [] hamp2]
  simp only [List.reverse_nil, List.nil_append, parseQueryPieces, parseQueryPiece_encoded]
  rfl

/-! ## encoding/xml: reading back what `xml.Marshal` wrote -/

/-- A character is not the ASCII character of another code point. -/
theorem ne_ofNat_of_toNat (c : Char) (k : Nat) (hk : k < 128) (h : c.toNat ≠ k) :
    c ≠ Char.ofNat k := by
  intro e
  apply h
  rw [e, toNat_ofNat_ascii k hk]

/-- Reading one character of text as `EscapeString` wrote it, for a character XML
can carry: the character is put on the text read so far. -/
theorem scanText_step (c : Char) (hc : isInCharacterRange c.toNat = true)
    (tl acc : List Char) (b : Nat) :
    ∃ b', scanText none (xmlEscapeChar c ++ tl) acc false none b
      = scanText none tl (c :: acc) false none b' := by
  have hof : Char.ofNat c.toNat = c := Char.ofNat_toNat c
  unfold xmlEscapeChar
  simp only
  by_cases c34 : c.toNat = 34
  · rw [if_pos c34, ← hof, c34]
    exact ⟨0, rfl⟩
  rw [if_neg c34]
  by_cases c39 : c.toNat = 39
  · rw [if_pos c39, ← hof, c39]
    exact ⟨0, rfl⟩
  rw [if_neg c39]
  by_cases c38 : c.toNat = 38
  · rw [if_pos c38, ← hof, c38]
    exact ⟨0, rfl⟩
  rw [if_neg c38]
  by_cases c60 : c.toNat = 60
  · rw [if_pos c60, ← hof, c60]
    exact ⟨0, rfl⟩
  rw [if_neg c60]
  by_cases c62 : c.toNat = 62
  · rw [if_pos c62, ← hof, c62]
    exact ⟨0, rfl⟩
  rw [if_neg c62]
  by_cases c9 : c.toNat = 9
  · rw [if_pos c9, ← hof, c9]
    exact ⟨0, rfl⟩
  rw [if_neg c9]
  by_cases c10 : c.toNat = 10
  · rw [if_pos c10, ← hof, c10]
    exact ⟨0, rfl⟩
  rw [if_neg c10]
  by_cases c13 : c.toNat = 13
  · rw [if_pos c13, ← hof, c13]
    exact ⟨0, rfl⟩
  rw [if_neg c13]
  rw [hc]
  simp only [Bool.not_true, Bool.false_eq_true, if_false, List.singleton_append]
  have n62 : c ≠ '>' := ne_ofNat_of_toNat c 62 (by decide) c62
  have n60 : c ≠ '<' := ne_ofNat_of_toNat c 60 (by decide) c60
  have n38 : c ≠ '&' := ne_ofNat_of_toNat c 38 (by decide) c38
  have n13 : c ≠ Char.ofNat 13 := ne_ofNat_of_toNat c 13 (by decide) c13
  have n10 : c ≠ Char.ofNat 10 := ne_ofNat_of_toNat c 10 (by decide) c10
  refine ⟨if c = ']' then b + 1 else 0, ?_⟩
  rw [scanText]
  simp only [n62, n60, n38, n13, n10, false_and, if_false, hc, if_true, reduceCtorEq]

/-- Reading a text as `EscapeString` wrote it, up to the `<` behind it. -/
theorem scanText_escaped (X : List Char) (hX : ∀ c ∈ X, isInCharacterRange c.toNat = true)
    (rest acc : List Char) (b : Nat) :
    scanText none (X.flatMap xmlEscapeChar ++ '<' :: rest) acc false none b
      = some (String.mk (acc.reverse ++ X), '<' :: rest) := by
  induction X generalizing acc b with
  | nil =>
      have h : ¬ ('<' = '>' ∧ 2 ≤ b) := fun h => absurd h.1 (by decide)
      simp only [List.flatMap_nil, List.nil_append, scanText, h, if_false, if_true,
        Option.isSome_none, Bool.false_eq_true, List.append_nil]
  | cons c t ih =>
      obtain ⟨b', hb'⟩ := scanText_step c (hX c (List.mem_cons_self c t))
        (t.flatMap xmlEscapeChar ++ '<' :: rest) acc b
      rw [List.flatMap_cons, List.append_assoc, hb',
        ih (fun x hx => hX x (List.mem_cons_of_mem c hx))]
      simp

/-- The first character `EscapeString` writes for a text is not `<`. -/
theorem escaped_head (c : Char) (t rest : List Char) :
    ∃ d l, (c :: t).flatMap xmlEscapeChar ++ rest = d :: l ∧ d ≠ '<' := by
  rw [List.flatMap_cons]
  unfold xmlEscapeChar
  simp only
  by_cases c34 : c.toNat = 34
  · rw [if_pos c34]; exact ⟨_, _, rfl, by decide⟩
  rw [if_neg c34]
  by_cases c39 : c.toNat = 39
  · rw [if_pos c39]; exact ⟨_, _, rfl, by decide⟩
  rw [if_neg c39]
  by_cases c38 : c.toNat = 38
  · rw [if_pos c38]; exact ⟨_, _, rfl, by decide⟩
  rw [if_neg c38]
  by_cases c60 : c.toNat = 60
  · rw [if_pos c60]; exact ⟨_, _, rfl, by decide⟩
  rw [if_neg c60]
  by_cases c62 : c.toNat = 62
  · rw [if_pos c62]; exact ⟨_, _, rfl, by decide⟩
  rw [if_neg c62]
  by_cases c9 : c.toNat = 9
  · rw [if_pos c9]; exact ⟨_, _, rfl, by decide⟩
  rw [if_neg c9]
  by_cases c10 : c.toNat = 10
  · rw [if_pos c10]; exact ⟨_, _, rfl, by decide⟩
  rw [if_neg c10]
  by_cases c13 : c.toNat = 13
  · rw [if_pos c13]; exact ⟨_, _, rfl, by decide⟩
  rw [if_neg c13]
  by_cases hr : (!isInCharacterRange c.toNat) = true
  · rw [if_pos hr]; exact ⟨_, _, rfl, by decide⟩
  rw [if_neg hr]
  exact ⟨c, _, rfl, ne_ofNat_of_toNat c 60 (by decide) c60⟩

/-- The tokens of the tags `xml.Marshal` writes for a `Product`. -/
theorem nextToken_tags (tl : List Char) :
    nextToken ("<Product>".data ++ tl) = some (XToken.start "Product" false, tl)
    ∧ nextToken ("<name>".data ++ tl) = some (XToken.start "name" false, tl)
    ∧ nextToken ("</name>".data ++ tl) = some (XToken.stop "name", tl)
    ∧ nextToken ("<number>".data ++ tl) = some (XToken.start "number" false, tl)
    ∧ nextToken ("</number>".data ++ tl) = some (XToken.stop "number", tl)
    ∧ nextToken ("</Product>".data ++ tl) = some (XToken.stop "Product", tl) :=
  ⟨rfl, rfl, rfl, rfl, rfl, rfl⟩

/-- The token of character data: the text up to the next `<`. -/
theorem nextToken_text (d : Char) (l : List Char) (hd : d ≠ '<') :
    nextToken (d :: l)
      = (scanText none (d :: l) [] false none 0).map fun t => (XToken.text t.1, t.2) := by
  unfold nextToken
  simp only [hd, if_false]

/-- One round of the decoding loop: the start tag of the root. -/
theorem loop_start_root (f : Nat) (root name : String) (done : List (String × String))
    (cur : String × String) (c : Char) (cs rest : List Char)
    (h : nextToken (c :: cs) = some (XToken.start name false, rest)) :
    decodeXMLLoop (f + 1) [] root done cur (c :: cs) = decodeXMLLoop f [name] name done cur rest := by
  rw [decodeXMLLoop, h]
  simp

/-- One round of the decoding loop: the start tag of a child of the root. -/
theorem loop_start_child (f : Nat) (r root name : String) (done : List (String × String))
    (cur : String × String) (c : Char) (cs rest : List Char)
    (h : nextToken (c :: cs) = some (XToken.start name false, rest)) :
    decodeXMLLoop (f + 1) [r] root done cur (c :: cs)
      = decodeXMLLoop f [name, r] root done (localOf name, "") rest := by
  rw [decodeXMLLoop, h]
  simp

/-- One round of the decoding loop: character data inside a child of the root. -/
theorem loop_text (f : Nat) (top r root s : String) (done : List (String × String))
    (cur : String × String) (c : Char) (cs rest : List Char)
    (h : nextToken (c :: cs) = some (XToken.text s, rest)) :
    decodeXMLLoop (f + 1) [top, r] root done cur (c :: cs)
      = decodeXMLLoop f [top, r] root done (cur.1, cur.2 ++ s) rest := by
  rw [decodeXMLLoop, h]

/-- One round of the decoding loop: the end tag of a child of the root. -/
theorem loop_stop_child (f : Nat) (top r root : String) (done : List (String × String))
    (cur : String × String) (c : Char) (cs rest : List Char)
    (h : nextToken (c :: cs) = some (XToken.stop top, rest)) :
    decodeXMLLoop (f + 1) [top, r] root done cur (c :: cs)
      = decodeXMLLoop f [r] root (cur :: done) cur rest := by
  rw [decodeXMLLoop, h]
  simp

/-- One round of the decoding loop: the end tag of the root. -/
theorem loop_stop_root (f : Nat) (r root : String) (done : List (String × String))
    (cur : String × String) (c : Char) (cs rest : List Char)
    (h : nextToken (c :: cs) = some (XToken.stop r, rest)) :
    decodeXMLLoop (f + 1) [r] root done cur (c :: cs)
      = some { name := root, children := done.reverse } := by
  rw [decodeXMLLoop, h]
  simp

/-- The loop over one child element as `xml.Marshal` writes it, from the start
tag to the end tag: the child is put on the list with the text between them. -/
theorem decodeXMLLoop_child (f : Nat) (tag : String) (o cl : List Char)
    (ho : ∀ tl, nextToken ('<' :: (o ++ tl)) = some (XToken.start tag false, tl))
    (hc : ∀ tl, nextToken ('<' :: (cl ++ tl)) = some (XToken.stop tag, tl))
    (hl : localOf tag = tag) (X : List Char)
    (hX : ∀ c ∈ X, isInCharacterRange c.toNat = true)
    (done : List (String × String)) (cur : String × String) (tl : List Char) :
    ∃ f' cur', f ≤ f' ∧
      decodeXMLLoop (f + 3) ["Product"] "Product" done cur
          ('<' :: (o ++ (X.flatMap xmlEscapeChar ++ '<' :: (cl ++ tl))))
        = decodeXMLLoop f' ["Product"] "Product" ((tag, String.mk X) :: done) cur' tl := by
  rw [loop_start_child (f + 2) _ _ _ _ _ _ _ _ (ho _), hl]
  cases X with
  | nil =>
      refine ⟨f + 1, (tag, ""), by omega, ?_⟩
      rw [List.flatMap_nil, List.nil_append, loop_stop_child (f + 1) _ _ _ _ _ _ _ _ (hc _)]
  | cons c t =>
      obtain ⟨d, l, hdl, hd⟩ := escaped_head c t ('<' :: (cl ++ tl))
      have htok : nextToken (d :: l)
          = some (XToken.text (String.mk (c :: t)), '<' :: (cl ++ tl)) := by
        rw [nextToken_text d l hd, ← hdl, scanText_escaped (c :: t) hX]
        rfl
      refine ⟨f, (tag, "" ++ String.mk (c :: t)), le_refl f, ?_⟩
      rw [hdl, loop_text (f + 1) _ _ _ _ _ _ _ _ _ htok,
        loop_stop_child f _ _ _ _ _ _ _ _ (hc _)]
      rfl
/-- The characters `FormatInt` writes are `-` and the digits. -/
theorem formatInt_chars (i : Int) :
    ∀ c ∈ (FormatInt i).data, 45 ≤ c.toNat ∧ c.toNat ≤ 57 := by
  have hdig : ∀ c ∈ formatDigits (i.natAbs + 1) i.natAbs [], 45 ≤ c.toNat ∧ c.toNat ≤ 57 := by
    intro c hc
    have h := formatDigits_digits _ _ [] (fun c hc => absurd hc (List.not_mem_nil c)) c hc
    unfold digitValue at h
    by_cases hr : 48 ≤ c.toNat ∧ c.toNat ≤ 57
    · omega
    · rw [if_neg hr] at h
      cases h
  unfold FormatInt
  by_cases hneg : i < 0
  · simp only [hneg, if_true]
    intro c hc
    rcases List.mem_cons.mp hc with h | h
    · rw [h]; decide
    · exact hdig c h
  · simp only [hneg, if_false]
    exact hdig

/-- The text `FormatInt` writes is written by `EscapeString` as it is, and XML can
carry it. -/
theorem formatInt_xml (i : Int) :
    (FormatInt i).data.flatMap xmlEscapeChar = (FormatInt i).data
    ∧ ∀ c ∈ (FormatInt i).data, isInCharacterRange c.toNat = true := by
  have hplain : ∀ c : Char, 45 ≤ c.toNat ∧ c.toNat ≤ 57 →
      xmlEscapeChar c = [c] ∧ isInCharacterRange c.toNat = true := by
    intro c hc
    have hr : isInCharacterRange c.toNat = true := by
      unfold isInCharacterRange
      have h1 : (decide (0x20 ≤ c.toNat) && decide (c.toNat ≤ 0xD7FF)) = true := by
        simp only [Bool.and_eq_true, decide_eq_true_eq]; omega
      simp only [h1, Bool.or_true, Bool.true_or]
    refine ⟨?_, hr⟩
    unfold xmlEscapeChar
    simp only
    rw [if_neg (by omega), if_neg (by omega), if_neg (by omega), if_neg (by omega),
      if_neg (by omega), if_neg (by omega), if_neg (by omega), if_neg (by omega), hr]
    rfl
  have hall := formatInt_chars i
  constructor
  · generalize (FormatInt i).data = l at hall
    induction l with
    | nil => rfl
    | cons c t ih =>
        rw [List.flatMap_cons, (hplain c (hall c (List.mem_cons_self c t))).1,
          ih (fun x hx => hall x (List.mem_cons_of_mem c hx))]
        rfl
  · intro c hc
    exact (hplain c (hall c hc)).2

/-- The text `xml.Marshal` writes for a record whose name XML can carry decodes to
a root `Product` with the children `name` and `number` of that record. -/
theorem decode_xmlMarshal (X : String) (N : Int)
    (hX : ∀ c ∈ X.data, isInCharacterRange c.toNat = true) :
    decodeXMLRoot (xmlMarshal { Name := X, Number := N })
      = some { name := "Product", children := [("name", X), ("number", FormatInt N)] } := by
  obtain ⟨t1, t2, t3, t4, t5, t6⟩ : (∀ tl, nextToken ("<Product>".data ++ tl)
        = some (XToken.start "Product" false, tl))
      ∧ (∀ tl, nextToken ("<name>".data ++ tl) = some (XToken.start "name" false, tl))
      ∧ (∀ tl, nextToken ("</name>".data ++ tl) = some (XToken.stop "name", tl))
      ∧ (∀ tl, nextToken ("<number>".data ++ tl) = some (XToken.start "number" false, tl))
      ∧ (∀ tl, nextToken ("</number>".data ++ tl) = some (XToken.stop "number", tl))
      ∧ (∀ tl, nextToken ("</Product>".data ++ tl) = some (XToken.stop "Product", tl)) :=
    ⟨fun tl => (nextToken_tags tl).1, fun tl => (nextToken_tags tl).2.1,
     fun tl => (nextToken_tags tl).2.2.1, fun tl => (nextToken_tags tl).2.2.2.1,
     fun tl => (nextToken_tags tl).2.2.2.2.1, fun tl => (nextToken_tags tl).2.2.2.2.2⟩
  obtain ⟨hesc, hrange⟩ := formatInt_xml N
  have hshape : (xmlMarshal { Name := X, Number := N }).data
      = "<Product>".data ++ ('<' :: ("name>".data ++ (X.data.flatMap xmlEscapeChar
          ++ '<' :: ("/name>".data ++ ('<' :: ("number>".data
          ++ ((FormatInt N).data.flatMap xmlEscapeChar
          ++ '<' :: ("/number>".data ++ "</Product>".data)))))))) := by
    rw [hesc]
    simp only [xmlMarshal]
    simp
  have hlen : ∃ k, (xmlMarshal { Name := X, Number := N }).data.length + 1 = k + 8 := by
    have h9 : "<Product>".data.length = 9 := by decide
    have gen : ∀ n : Nat, ∃ k, 9 + n + 1 = k + 8 := fun n => ⟨n + 2, by omega⟩
    rw [hshape, List.length_append, h9]
    exact gen _
  obtain ⟨k, hk⟩ := hlen
  unfold decodeXMLRoot
  rw [hk, hshape]
  have hroot := loop_start_root (k + 7) "" "Product" [] ("", "") '<'
    ("Product>".data ++ ('<' :: ("name>".data ++ (X.data.flatMap xmlEscapeChar
          ++ '<' :: ("/name>".data ++ ('<' :: ("number>".data
          ++ ((FormatInt N).data.flatMap xmlEscapeChar
          ++ '<' :: ("/number>".data ++ "</Product>".data)))))))))
    _ (t1 _)
  have e1 : "<Product>".data ++ ('<' :: ("name>".data ++ (X.data.flatMap xmlEscapeChar
          ++ '<' :: ("/name>".data ++ ('<' :: ("number>".data
          ++ ((FormatInt N).data.flatMap xmlEscapeChar
          ++ '<' :: ("/number>".data ++ "</Product>".data))))))))
      = '<' :: ("Product>".data ++ ('<' :: ("name>".data ++ (X.data.flatMap xmlEscapeChar
          ++ '<' :: ("/name>".data ++ ('<' :: ("number>".data
          ++ ((FormatInt N).data.flatMap xmlEscapeChar
          ++ '<' :: ("/number>".data ++ "</Product>".data))))))))) := rfl
  rw [e1, hroot]
  obtain ⟨f1, cur1, hf1, h1⟩ := decodeXMLLoop_child (k + 4) "name" "name>".data "/name>".data
    t2 t3 (by decide) X.data hX [] ("", "")
    ('<' :: ("number>".data ++ ((FormatInt N).data.flatMap xmlEscapeChar
          ++ '<' :: ("/number>".data ++ "</Product>".data))))
  rw [h1]
  obtain ⟨g, hg⟩ : ∃ g, f1 = g + 3 := ⟨f1 - 3, by omega⟩
  subst hg
  obtain ⟨f2, cur2, hf2, h2⟩ := decodeXMLLoop_child g "number" "number>".data "/number>".data
    t4 t5 (by decide) (FormatInt N).data hrange [("name", String.mk X.data)] cur1
    "</Product>".data
  rw [h2]
  obtain ⟨g2, hg2⟩ : ∃ g2, f2 = g2 + 1 := ⟨f2 - 1, by omega⟩
  subst hg2
  have hstop := loop_stop_root g2 "Product" "Product"
    [("number", String.mk (FormatInt N).data), ("name", String.mk X.data)] cur2 '<'
    "/Product>".data [] (t6 [])
  have e2 : "</Product>".data = '<' :: "/Product>".data := rfl
  rw [e2, hstop]
  rfl

/-! ## The Product Service: a record in its three encodings -/

/-- The record a JSON object with the members `name` and `number` decodes to. -/
theorem unmarshal_record (X : String) (N : Int) :
    unmarshalMembers [("name", JVal.string X), ("number", JVal.number (FormatInt N))]
        Product.zero
      = match ParseInt (FormatInt N) with
        | some n => Except.ok { Name := X, Number := n }
        | none =>
            Except.error
              (GoError.decode "json: cannot unmarshal number into Go struct field Product.number") := by
  have h1 : keyMatches "name" "name" = true := by decide
  have h2 : keyMatches "number" "name" = false := by decide
  have h3 : keyMatches "number" "number" = true := by decide
  simp only [unmarshalMembers, h1, h2, h3, if_true, storeName, storeNumber, Product.zero]
  cases ParseInt (FormatInt N) <;> simp [unmarshalMembers]

/-- The record a form with the keys `name` and `number` maps to. -/
theorem mapForm_record (X : String) (N : Int) :
    mapForm [("name", [X]), ("number", [FormatInt N])] Product.zero
      = match ParseInt (FormatInt N) with
        | some n => Except.ok { Name := X, Number := n }
        | none => Except.error (GoError.decode "strconv.ParseInt: parsing failed") := by
  have hne : FormatInt N ≠ "" := by
    intro h
    exact (formatInt_plain N).1 (by rw [h])
  have hk : ("name" == "number") = false := by decide
  simp only [mapForm, setName, setNumber, Values.lookup, List.find?, beq_self_eq_true, hk,
    List.headD, Product.zero, hne, if_false]

/-- The record an XML root with the children `name` and `number` decodes to. -/
theorem unmarshalChildren_record (X : String) (N : Int) :
    unmarshalChildren [("name", X), ("number", FormatInt N)] Product.zero
      = match ParseInt (FormatInt N) with
        | some n => Except.ok { Name := X, Number := n }
        | none => Except.error (GoError.decode "strconv.ParseInt: parsing failed") := by
  have hk : ¬ ("number" = "name") := by decide
  have hempty : (FormatInt N).data.isEmpty = false := by
    cases hd : (FormatInt N).data with
    | nil => exact absurd hd (formatInt_plain N).1
    | cons c t => rfl
  simp only [unmarshalChildren, if_true, hk, if_false, copyNumber, hempty, Product.zero,
    (formatInt_plain N).2, Bool.false_eq_true]
  cases ParseInt (FormatInt N) <;> rfl

/-- C2, refuted as stated: posting the JSON object with name `X` and number 0 is
answered with status 400, an empty body and the validation error of the field
`Number`; zero is the value on which the `required` tag fails. -/
theorem json_post_with_zero_is_rejected :
    productEngine Unmodelled.sample
        (postProduct "application/json" "\x7b\"name\":\"X\",\"number\":0\x7d")
      = { request := postProduct "application/json" "\x7b\"name\":\"X\",\"number\":0\x7d",
          writer := { status := 400, written := true, contentType := none, body := "" },
          errors := [GoError.validation ["Number"]], aborted := true } := by
  decide

/-- The response to a JSON body that is the object of an accepted record. -/
theorem engine_accepts_json (lib : Unmodelled) (body X : String) (N : Int)
    (hX : X ≠ "") (hN : N ≠ 0) (hrange : inIntRange N)
    (hbody : decodeJSONValue body
      = some (JTop.object [("name", JVal.string X), ("number", JVal.number (FormatInt N))])) :
    productEngine lib (postProduct "application/json" body) =
      { request := postProduct "application/json" body,
        writer := { status := 200, written := true,
                    contentType := some "application/json; charset=utf-8",
                    body := jsonMarshal { Name := X, Number := N } },
        errors := [], aborted := false } := by
  apply engine_of_bound
  rw [shouldBind_json]
  unfold decodeJSON
  rw [hbody]
  simp only [unmarshal_record, parseInt_formatInt N hrange, andValidate]
  exact validate_ok _ hX hN

/-- C2, amended: for every non-empty name `X` and every integer `N` other than
zero in the range of a Go `int`, posting with content type `application/json` a
body that is the JSON object with the members `name`: `X` and `number`: `N` is
answered with status 200 and the JSON serialization of the record `(X, N)`; the
serialization itself is such a body, so posting it returns it. -/
theorem json_post_is_echoed (lib : Unmodelled) (X : String) (N : Int)
    (hX : X ≠ "") (hN : N ≠ 0) (hrange : inIntRange N) :
    (∀ body : String,
      decodeJSONValue body
          = some (JTop.object [("name", JVal.string X), ("number", JVal.number (FormatInt N))]) →
        productEngine lib (postProduct "application/json" body) =
          { request := postProduct "application/json" body,
            writer := { status := 200, written := true,
                        contentType := some "application/json; charset=utf-8",
                        body := jsonMarshal { Name := X, Number := N } },
            errors := [], aborted := false })
    ∧ (productEngine lib
          (postProduct "application/json" (jsonMarshal { Name := X, Number := N }))).writer
        = { status := 200, written := true,
            contentType := some "application/json; charset=utf-8",
            body := jsonMarshal { Name := X, Number := N } } := by
  refine ⟨fun body hbody => engine_accepts_json lib body X N hX hN hrange hbody, ?_⟩
  rw [engine_accepts_json lib _ X N hX hN hrange (decode_marshal X N)]

/-- C2, amended, at the name `X` and the number 5 of the specification. -/
theorem json_post_is_echoed_witness :
    productEngine Unmodelled.sample
        (postProduct "application/json" "\x7b\"name\":\"X\",\"number\":5\x7d")
      = { request := postProduct "application/json" "\x7b\"name\":\"X\",\"number\":5\x7d",
          writer := { status := 200, written := true,
                      contentType := some "application/json; charset=utf-8",
                      body := jsonMarshal { Name := "X", Number := 5 } },
          errors := [], aborted := false }
    ∧ jsonMarshal { Name := "X", Number := 5 } = "\x7b\"name\":\"X\",\"number\":5\x7d" :=
  ⟨(json_post_is_echoed Unmodelled.sample "X" 5 (by decide) (by decide)
      (by unfold inIntRange; norm_num)).1 "\x7b\"name\":\"X\",\"number\":5\x7d" (by decide),
   by decide⟩

/-- The answer to three bodies that decode to the same name and number, one in
each encoding: the same response, 200 with the JSON serialization of the record
when it is accepted, 400 with an empty body otherwise. -/
theorem same_response_of_decoded (lib : Unmodelled) (X : String) (N : Int)
    (bf bj bx : String)
    (hsize : (utf8Encode bf.data).length ≤ maxFormSize)
    (hf : ParseQuery bf = Except.ok [("name", [X]), ("number", [FormatInt N])])
    (hj : decodeJSONValue bj
      = some (JTop.object [("name", JVal.string X), ("number", JVal.number (FormatInt N))]))
    (hx : decodeXMLRoot bx
      = some { name := "Product", children := [("name", X), ("number", FormatInt N)] }) :
    (productEngine lib (postProduct "application/x-www-form-urlencoded" bf)).writer
        = (productEngine lib (postProduct "application/json" bj)).writer
    ∧ (productEngine lib (postProduct "application/xml" bx)).writer
        = (productEngine lib (postProduct "application/json" bj)).writer
    ∧ (productEngine lib (postProduct "application/json" bj)).writer
        = if X ≠ "" ∧ N ≠ 0 ∧ inIntRange N then
            ResponseWriter.mk 200 true (some "application/json; charset=utf-8")
              (jsonMarshal { Name := X, Number := N })
          else ResponseWriter.mk 400 true none "" := by
  have hform : requestForm lib (postProduct "application/x-www-form-urlencoded" bf)
      = Except.ok [("name", [X]), ("number", [FormatInt N])] := by
    rw [requestForm_urlencoded, if_neg (by omega), hf]
  have sf := shouldBind_form lib bf _ hform
  have sj := shouldBind_json lib bj
  have sx := shouldBind_xml lib bx
  rw [mapForm_record] at sf
  unfold decodeJSON at sj
  rw [hj] at sj
  simp only [unmarshal_record] at sj
  unfold decodeXML at sx
  rw [hx] at sx
  simp only [unmarshalChildren_record] at sx
  by_cases hr : inIntRange N
  · rw [parseInt_formatInt N hr] at sf sj sx
    simp only [andValidate] at sf sj sx
    by_cases hok : X ≠ "" ∧ N ≠ 0
    · have hv := validate_ok { Name := X, Number := N } hok.1 hok.2
      rw [hv] at sf sj sx
      rw [engine_of_bound lib _ _ _ sf, engine_of_bound lib _ _ _ sj,
        engine_of_bound lib _ _ _ sx]
      simp [hok.1, hok.2, hr]
    · have hz : X = "" ∨ N = 0 := by
        by_cases h1 : X = ""
        · exact Or.inl h1
        · by_cases h2 : N = 0
          · exact Or.inr h2
          · exact absurd ⟨h1, h2⟩ hok
      obtain ⟨fields, hv⟩ := validate_fails { Name := X, Number := N } hz
      rw [hv] at sf sj sx
      rw [engine_of_unbound lib _ _ _ sf, engine_of_unbound lib _ _ _ sj,
        engine_of_unbound lib _ _ _ sx]
      have hno : ¬ (X ≠ "" ∧ N ≠ 0 ∧ inIntRange N) := fun h => hok ⟨h.1, h.2.1⟩
      simp [hno]
  · rw [parseInt_formatInt_none N hr] at sf sj sx
    simp only [andValidate] at sf sj sx
    rw [engine_of_unbound lib _ _ _ sf, engine_of_unbound lib _ _ _ sj,
      engine_of_unbound lib _ _ _ sx]
    have hno : ¬ (X ≠ "" ∧ N ≠ 0 ∧ inIntRange N) := fun h => hr h.2.2
    simp [hno]

/-- The binding of a URL-encoded body that net/http does not parse. -/
theorem shouldBind_form_error (lib : Unmodelled) (body : String) (e : GoError)
    (h : requestForm lib (postProduct "application/x-www-form-urlencoded" body)
      = Except.error e) :
    (Context.fresh (postProduct "application/x-www-form-urlencoded" body)).ShouldBind lib
      = Except.error e := by
  have hb : Binding.Default
      (Context.fresh (postProduct "application/x-www-form-urlencoded" body)).request.method
      (Context.fresh (postProduct "application/x-www-form-urlencoded" body)).ContentType
      = Binding.form := by rfl
  unfold Context.ShouldBind
  rw [hb]
  simp only [Context.fresh, h]

/-- What `escape` writes for a byte string is at least as long as the byte string. -/
theorem length_le_escaped (bs : List Nat) : bs.length ≤ (bs.flatMap escapeByte).length := by
  induction bs with
  | nil => simp
  | cons b t ih =>
      have h1 : 1 ≤ (escapeByte b).length := by
        unfold escapeByte
        split
        · simp
        · split <;> simp
      rw [List.flatMap_cons, List.length_append, List.length_cons]
      omega

/-- The URL-encoded form of a record whose name alone fills the 10 MB that
net/http reads of a form body is answered with status 400. -/
theorem large_form_rejected (lib : Unmodelled) (pro : Product)
    (h : maxFormSize ≤ pro.Name.data.length) :
    (productEngine lib
      (postProduct "application/x-www-form-urlencoded" (formEncode pro))).writer.status = 400 := by
  have hlen : maxFormSize < (utf8Encode (formEncode pro).data).length := by
    have h1 := length_le_utf8Encode (formEncode pro).data
    have h2 : pro.Name.data.length + 1 ≤ (formEncode pro).data.length := by
      unfold formEncode
      rw [encode_data]
      have h3 := length_le_escaped (utf8Encode pro.Name.data)
      have h4 := length_le_utf8Encode pro.Name.data
      have h5 : (QueryEscape pro.Name).data = (utf8Encode pro.Name.data).flatMap escapeByte := rfl
      simp only [List.length_append, List.length_cons, h5]
      omega
    omega
  have hr : requestForm lib (postProduct "application/x-www-form-urlencoded" (formEncode pro))
      = Except.error (GoError.decode "http: POST too large") := by
    rw [requestForm_urlencoded, if_pos hlen]
  rw [engine_of_unbound lib _ _ _ (shouldBind_form_error lib _ _ hr)]

/-- C4, refuted as stated, at two records. The record whose name is 10 MB of the
letter `a`, with number 1: its URL-encoded form is answered with status 400
(net/http reads no more than 10 MB of a form body), its JSON object with status
200. The record whose name is the character U+0001, with number 1: its
URL-encoded form is answered with that name in the body, its XML element with
the name U+FFFD, which is what `xml.Marshal` writes for a character XML cannot
carry. -/
theorem encodings_answered_differently :
    ((productEngine Unmodelled.sample
        (postProduct "application/x-www-form-urlencoded"
          (formEncode { Name := String.mk (List.replicate 10485760 'a'), Number := 1 }))
        ).writer.status = 400
      ∧ (productEngine Unmodelled.sample
        (postProduct "application/json"
          (jsonMarshal { Name := String.mk (List.replicate 10485760 'a'), Number := 1 }))
        ).writer.status = 200)
    ∧ ((productEngine Unmodelled.sample
        (postProduct "application/x-www-form-urlencoded"
          (formEncode { Name := "\x01", Number := 1 }))).writer.body
        = "\x7b\"name\":\"\\u0001\",\"number\":1\x7d"
      ∧ (productEngine Unmodelled.sample
        (postProduct "application/xml"
          (xmlMarshal { Name := "\x01", Number := 1 }))).writer.body
        = "\x7b\"name\":\"\uFFFD\",\"number\":1\x7d") := by
  have hlarge : maxFormSize ≤ (String.mk (List.replicate 10485760 'a')).data.length := by
    show maxFormSize ≤ (List.replicate 10485760 'a').length
    rw [List.length_replicate]
    exact Nat.le_refl _
  have hne : String.mk (List.replicate 10485760 'a') ≠ "" := by
    intro h0
    rw [h0] at hlarge
    exact absurd hlarge (by decide)
  refine ⟨⟨large_form_rejected Unmodelled.sample _ hlarge, ?_⟩, by decide, by decide⟩
  rw [engine_accepts_json Unmodelled.sample _ _ 1 hne (by decide)
    (by unfold inIntRange; norm_num) (decode_marshal _ 1)]

/-- C4, amended: for every record `(X, N)` whose name consists of characters XML
can carry and whose URL-encoded form is within the 10 MB that net/http reads of
a form body, posting its URL-encoded form (`url.Values.Encode`), its JSON object
(`json.Marshal`) and its XML `Product` element (`xml.Marshal`), each with the
matching content type, gets the same response (status, content type and body);
it is status 200 with the JSON serialization of the record when the record is
accepted (`X` not empty, `N` not zero and in the range of `int`), and status 400
with an empty body otherwise. -/
theorem response_same_in_every_encoding (lib : Unmodelled) (X : String) (N : Int)
    (hsize : (utf8Encode (formEncode { Name := X, Number := N }).data).length ≤ maxFormSize)
    (hxml : ∀ c ∈ X.data, isInCharacterRange c.toNat = true) :
    (productEngine lib (postProduct "application/x-www-form-urlencoded"
        (formEncode { Name := X, Number := N }))).writer
        = (productEngine lib (postProduct "application/json"
            (jsonMarshal { Name := X, Number := N }))).writer
    ∧ (productEngine lib (postProduct "application/xml"
        (xmlMarshal { Name := X, Number := N }))).writer
        = (productEngine lib (postProduct "application/json"
            (jsonMarshal { Name := X, Number := N }))).writer
    ∧ (productEngine lib (postProduct "application/json"
        (jsonMarshal { Name := X, Number := N }))).writer
        = if X ≠ "" ∧ N ≠ 0 ∧ inIntRange N then
            ResponseWriter.mk 200 true (some "application/json; charset=utf-8")
              (jsonMarshal { Name := X, Number := N })
          else ResponseWriter.mk 400 true none "" :=
  same_response_of_decoded lib X N _ _ _ hsize (parseQuery_encode X (FormatInt N))
    (decode_marshal X N) (decode_xmlMarshal X N hxml)

/-- C4, amended, at a record whose name needs escaping in each of the encodings. -/
theorem response_same_in_every_encoding_witness :
    (productEngine Unmodelled.sample (postProduct "application/x-www-form-urlencoded"
        (formEncode { Name := "A&B <\"é\">", Number := -7 }))).writer
        = (productEngine Unmodelled.sample (postProduct "application/json"
            (jsonMarshal { Name := "A&B <\"é\">", Number := -7 }))).writer
    ∧ (productEngine Unmodelled.sample (postProduct "application/xml"
        (xmlMarshal { Name := "A&B <\"é\">", Number := -7 }))).writer
        = (productEngine Unmodelled.sample (postProduct "application/json"
            (jsonMarshal { Name := "A&B <\"é\">", Number := -7 }))).writer :=
  ⟨(response_same_in_every_encoding Unmodelled.sample "A&B <\"é\">" (-7)
      (by decide) (by decide)).1,
   (response_same_in_every_encoding Unmodelled.sample "A&B <\"é\">" (-7)
      (by decide) (by decide)).2.1⟩

/-! ## The Product Service: a body without one of the fields -/

/-- A key matches a field when it is the field in lower case. -/
theorem keyMatches_iff (key field : String) :
    keyMatches key field = true ↔ String.mk (toLowerASCII key.data) = field := by
  unfold keyMatches
  rw [beq_iff_eq]
  constructor
  · intro h
    rw [h]
  · intro h
    rw [← h]

/-- The JSON decoder leaves alone a field no key of the object matches. -/
theorem unmarshalMembers_keeps (members : List (String × JVal)) (pro p : Product)
    (h : unmarshalMembers members pro = Except.ok p) :
    ("name" ∉ members.map (fun m => String.mk (toLowerASCII m.1.data)) → p.Name = pro.Name)
    ∧ ("number" ∉ members.map (fun m => String.mk (toLowerASCII m.1.data))
        → p.Number = pro.Number) := by
  induction members generalizing pro with
  | nil =>
      simp only [unmarshalMembers, Except.ok.injEq] at h
      subst h
      exact ⟨fun _ => rfl, fun _ => rfl⟩
  | cons m rest ih =>
      obtain ⟨key, v⟩ := m
      have hdiff : ("name" : String) ≠ "number" := by decide
      unfold unmarshalMembers at h
      by_cases hk1 : keyMatches key "name" = true
      · have e1 := (keyMatches_iff key "name").mp hk1
        simp only [hk1, if_true] at h
        cases hs : storeName v pro with
        | error e => rw [hs] at h; cases h
        | ok p1 =>
            rw [hs] at h
            have hnum : p1.Number = pro.Number := by
              cases v <;> simp [storeName] at hs <;> (subst hs; rfl)
            obtain ⟨_, i2⟩ := ih p1 h
            refine ⟨fun hno => absurd (by simp [e1]) hno, fun hno => ?_⟩
            rw [i2 (fun hin => hno (List.mem_cons_of_mem _ hin)), hnum]
      · simp only [hk1, Bool.false_eq_true, if_false] at h
        by_cases hk2 : keyMatches key "number" = true
        · have e2 := (keyMatches_iff key "number").mp hk2
          simp only [hk2, if_true] at h
          cases hs : storeNumber v pro with
          | error e => rw [hs] at h; cases h
          | ok p1 =>
              rw [hs] at h
              have hname : p1.Name = pro.Name := by
                cases v with
                | number lit =>
                    simp only [storeNumber] at hs
                    cases hp : ParseInt lit with
                    | none => rw [hp] at hs; cases hs
                    | some n =>
                        rw [hp] at hs
                        simp only [Except.ok.injEq] at hs
                        subst hs
                        rfl
                | null =>
                    simp only [storeNumber, Except.ok.injEq] at hs
                    subst hs
                    rfl
                | bool b => simp [storeNumber] at hs
                | string s => simp [storeNumber] at hs
                | array => simp [storeNumber] at hs
                | object => simp [storeNumber] at hs
              obtain ⟨i1, _⟩ := ih p1 h
              refine ⟨fun hno => ?_, fun hno => absurd (by simp [e2]) hno⟩
              rw [i1 (fun hin => hno (List.mem_cons_of_mem _ hin)), hname]
        · simp only [hk2, Bool.false_eq_true, if_false] at h
          obtain ⟨i1, i2⟩ := ih pro h
          exact ⟨fun hno => i1 (fun hin => hno (List.mem_cons_of_mem _ hin)),
            fun hno => i2 (fun hin => hno (List.mem_cons_of_mem _ hin))⟩

/-- The XML decoder leaves alone a field no child of the root is named after. -/
theorem unmarshalChildren_keeps (children : List (String × String)) (pro p : Product)
    (h : unmarshalChildren children pro = Except.ok p) :
    ("name" ∉ children.map (fun ch => ch.1) → p.Name = pro.Name)
    ∧ ("number" ∉ children.map (fun ch => ch.1) → p.Number = pro.Number) := by
  induction children generalizing pro with
  | nil =>
      simp only [unmarshalChildren, Except.ok.injEq] at h
      subst h
      exact ⟨fun _ => rfl, fun _ => rfl⟩
  | cons ch rest ih =>
      obtain ⟨name, data⟩ := ch
      unfold unmarshalChildren at h
      by_cases hk1 : name = "name"
      · simp only [hk1, if_true] at h
        obtain ⟨_, i2⟩ := ih _ h
        refine ⟨fun hno => absurd (by simp [hk1]) hno, fun hno => ?_⟩
        rw [i2 (fun hin => hno (List.mem_cons_of_mem _ hin))]
      · simp only [hk1, if_false] at h
        by_cases hk2 : name = "number"
        · simp only [hk2, if_true] at h
          cases hs : copyNumber data pro with
          | error e => rw [hs] at h; cases h
          | ok p1 =>
              rw [hs] at h
              have hname : p1.Name = pro.Name := by
                unfold copyNumber at hs
                by_cases he : data.data.isEmpty = true
                · simp only [he, if_true, Except.ok.injEq] at hs
                  subst hs
                  rfl
                · simp only [he, Bool.false_eq_true, if_false] at hs
                  cases hp : ParseInt (String.mk (trimSpace data.data)) with
                  | none => rw [hp] at hs; cases hs
                  | some n =>
                      rw [hp] at hs
                      simp only [Except.ok.injEq] at hs
                      subst hs
                      rfl
              obtain ⟨i1, _⟩ := ih p1 h
              refine ⟨fun hno => ?_, fun hno => absurd (by simp [hk2]) hno⟩
              rw [i1 (fun hin => hno (List.mem_cons_of_mem _ hin)), hname]
        · simp only [hk2, if_false] at h
          obtain ⟨i1, i2⟩ := ih pro h
          exact ⟨fun hno => i1 (fun hin => hno (List.mem_cons_of_mem _ hin)),
            fun hno => i2 (fun hin => hno (List.mem_cons_of_mem _ hin))⟩

/-- A key that is not among the keys of a form has no values. -/
theorem lookup_absent (form : Values) (key : String)
    (h : key ∉ form.map (fun kv => kv.1)) : Values.lookup form key = none := by
  unfold Values.lookup
  have hf : form.find? (fun kv => kv.1 == key) = none := by
    rw [List.find?_eq_none]
    intro kv hkv hbeq
    apply h
    rw [beq_iff_eq] at hbeq
    exact List.mem_map.mpr ⟨kv, hkv, hbeq⟩
  rw [hf]

/-- The form mapping leaves alone a field whose key the form does not have. -/
theorem mapForm_keeps (form : Values) (pro p : Product) (h : mapForm form pro = Except.ok p) :
    ("name" ∉ form.map (fun kv => kv.1) → p.Name = pro.Name)
    ∧ ("number" ∉ form.map (fun kv => kv.1) → p.Number = pro.Number) := by
  unfold mapForm at h
  have hname : ∀ q, setNumber form (setName form pro) = Except.ok q →
      q.Name = (setName form pro).Name := by
    intro q hq
    unfold setNumber at hq
    cases hl : form.lookup "number" with
    | none =>
        rw [hl] at hq
        simp only [Except.ok.injEq] at hq
        subst hq
        rfl
    | some vs =>
        rw [hl] at hq
        simp only at hq
        cases hp : ParseInt (if vs.headD "" = "" then "0" else vs.headD "") with
        | none => rw [hp] at hq; cases hq
        | some n =>
            rw [hp] at hq
            simp only [Except.ok.injEq] at hq
            subst hq
            rfl
  constructor
  · intro hno
    rw [hname p h]
    unfold setName
    rw [lookup_absent form "name" hno]
  · intro hno
    unfold setNumber at h
    rw [lookup_absent form "number" hno] at h
    simp only [Except.ok.injEq] at h
    subst h
    unfold setName
    cases form.lookup "name" <;> rfl

/-- A request whose body lacks one of the two fields does not bind. -/
theorem shouldBind_fails_without_field (lib : Unmodelled) (c : Context) (fs : List String)
    (hfs : boundFields lib c = some fs) (hmiss : "name" ∉ fs ∨ "number" ∉ fs) :
    ∃ err, c.ShouldBind lib = Except.error err := by
  have zero_or : ∀ p : Product, (("name" ∉ fs → p.Name = Product.zero.Name)
      ∧ ("number" ∉ fs → p.Number = Product.zero.Number)) → p.Name = "" ∨ p.Number = 0 := by
    intro p hp
    rcases hmiss with h | h
    · exact Or.inl (hp.1 h)
    · exact Or.inr (hp.2 h)
  unfold boundFields at hfs
  unfold Context.ShouldBind
  cases hb : Binding.Default c.request.method c.ContentType with
  | json =>
      rw [hb] at hfs
      simp only at hfs ⊢
      apply andValidate_fails
      intro p hp
      unfold decodeJSON at hp
      cases hd : decodeJSONValue c.request.body with
      | none => rw [hd] at hfs; cases hfs
      | some top =>
          rw [hd] at hfs hp
          cases top with
          | object members =>
              simp only [Option.some.injEq] at hfs
              subst hfs
              exact zero_or p (unmarshalMembers_keeps members Product.zero p hp)
          | other v =>
              cases v with
              | null =>
                  simp only [Except.ok.injEq] at hp
                  subst hp
                  exact Or.inl rfl
              | bool b => cases hp
              | number lit => cases hp
              | string s => cases hp
              | array => cases hp
              | object => cases hp
  | xml =>
      rw [hb] at hfs
      simp only at hfs ⊢
      apply andValidate_fails
      intro p hp
      unfold decodeXML at hp
      cases hd : decodeXMLRoot c.request.body with
      | none => rw [hd] at hfs; cases hfs
      | some root =>
          rw [hd] at hfs hp
          simp only [Option.map_some', Option.some.injEq] at hfs
          subst hfs
          exact zero_or p (unmarshalChildren_keeps root.children Product.zero p hp)
  | form =>
      rw [hb] at hfs
      simp only at hfs ⊢
      cases hr : requestForm lib c.request with
      | error e => rw [hr] at hfs; cases hfs
      | ok form =>
          rw [hr] at hfs
          simp only [Option.some.injEq] at hfs
          subst hfs
          simp only
          apply andValidate_fails
          intro p hp
          exact zero_or p (mapForm_keeps form Product.zero p hp)
  | formMultipart =>
      rw [hb] at hfs
      simp only at hfs ⊢
      cases hr : lib.multipart c.request.contentType c.request.body with
      | error e => exact ⟨e, rfl⟩
      | ok parts =>
          rw [hr] at hfs
          simp only [Option.some.injEq] at hfs
          subst hfs
          simp only
          cases ParseForm lib c.request with
          | error e => exact ⟨e, rfl⟩
          | ok form =>
              simp only
              apply andValidate_fails
              intro p hp
              exact zero_or p (mapForm_keeps parts Product.zero p hp)
  | protoBuf => rw [hb] at hfs; cases hfs
  | msgPack => rw [hb] at hfs; cases hfs
  | yaml => rw [hb] at hfs; cases hfs

/-- The response to a request to `POST /product` that does not bind. -/
theorem engine_rejects (lib : Unmodelled) (req : InboundRequest) (hm : req.method = "POST")
    (hp : req.path = "/product") (err : GoError)
    (h : (Context.fresh req).ShouldBind lib = Except.error err) :
    productEngine lib req =
      { request := req,
        writer := { status := 400, written := true, contentType := none, body := "" },
        errors := [err], aborted := true } := by
  unfold productEngine productHandler
  rw [if_pos ⟨hm, hp⟩, h]
  exact fresh_abortWithError _ 400 err (by decide)

/-- C3, refuted as stated: a POST to `/product?number=9` with the URL-encoded body
`name=A` has a body without the `number` field, and is answered with status 200
and the record `(A, 9)`: the form binding maps `req.Form`, into which
`ParseForm` puts the values of the query of the URL behind those of the body. -/
theorem query_supplies_field_missing_in_body :
    ParseQuery "name=A" = Except.ok [("name", ["A"])]
    ∧ productEngine Unmodelled.sample
        ⟨"POST", "/product", "number=9", "application/x-www-form-urlencoded", [], "name=A"⟩
      = { request :=
            ⟨"POST", "/product", "number=9", "application/x-www-form-urlencoded", [], "name=A"⟩,
          writer := { status := 200, written := true,
                      contentType := some "application/json; charset=utf-8",
                      body := "\x7b\"name\":\"A\",\"number\":9\x7d" },
          errors := [], aborted := false } := by
  decide

/-- C3, amended: for every request to `POST /product` that gin binds as form,
multipart form, JSON or XML and whose bound input decodes and carries no `name`
field or no `number` field (for the form binding the input is the body together
with the query of the URL; for the others it is the body), `ShouldBind` returns
an error, and the handler answers with status 400, records that error, aborts,
and writes no body and no content type (`ctx.JSON` is not reached). -/
theorem missing_field_is_rejected (lib : Unmodelled) (req : InboundRequest)
    (hm : req.method = "POST") (hp : req.path = "/product") (fs : List String)
    (hfs : boundFields lib (Context.fresh req) = some fs)
    (hmiss : "name" ∉ fs ∨ "number" ∉ fs) :
    ∃ err, (Context.fresh req).ShouldBind lib = Except.error err
      ∧ productEngine lib req =
          { request := req,
            writer := { status := 400, written := true, contentType := none, body := "" },
            errors := [err], aborted := true } := by
  obtain ⟨err, herr⟩ := shouldBind_fails_without_field lib _ fs hfs hmiss
  exact ⟨err, herr, engine_rejects lib req hm hp err herr⟩

/-- C3, amended, at the JSON body of the specification with the name left out, sent
with a query that names the field: the JSON binding does not look at the query. -/
theorem missing_field_is_rejected_witness :
    ∃ err, (Context.fresh
        ⟨"POST", "/product", "name=A", "application/json", [], "\x7b\"number\":5\x7d"⟩).ShouldBind
        Unmodelled.sample = Except.error err
      ∧ productEngine Unmodelled.sample
          ⟨"POST", "/product", "name=A", "application/json", [], "\x7b\"number\":5\x7d"⟩ =
          { request :=
              ⟨"POST", "/product", "name=A", "application/json", [], "\x7b\"number\":5\x7d"⟩,
            writer := { status := 400, written := true, contentType := none, body := "" },
            errors := [err], aborted := true } :=
  missing_field_is_rejected Unmodelled.sample
    ⟨"POST", "/product", "name=A", "application/json", [], "\x7b\"number\":5\x7d"⟩
    rfl rfl ["number"] (by decide) (by decide)

/-! ## The Gateway in front of the Product Service -/

/-- What the Product Service answers to the request of each Gateway handler:
status 200 and the JSON serialization of the record in the payload. -/
theorem engine_on_gateway_payloads (lib : Unmodelled) :
    (productEngine lib (postProduct "application/x-www-form-urlencoded"
        "name=iPhoneX&number=100")).writer
      = ResponseWriter.mk 200 true (some "application/json; charset=utf-8")
          "\x7b\"name\":\"iPhoneX\",\"number\":100\x7d"
    ∧ (productEngine lib (postProduct "application/x-www-form-urlencoded"
        "name=iMac&number=1000")).writer
      = ResponseWriter.mk 200 true (some "application/json; charset=utf-8")
          "\x7b\"name\":\"iMac\",\"number\":1000\x7d"
    ∧ (productEngine lib (postProduct "application/json"
        "\x7b\"name\": \"MacPro\", \"number\": 10000\x7d")).writer
      = ResponseWriter.mk 200 true (some "application/json; charset=utf-8")
          "\x7b\"name\":\"MacPro\",\"number\":10000\x7d"
    ∧ (productEngine lib (postProduct "application/xml"
        "<Product><name>MacAir</name><number>100000</number></Product>")).writer
      = ResponseWriter.mk 200 true (some "application/json; charset=utf-8")
          "\x7b\"name\":\"MacAir\",\"number\":100000\x7d" :=
  ⟨rfl, rfl, rfl, rfl⟩

/-- The inbound request the Product Service gets from each Gateway handler. -/
theorem arrives_outbound (e : Endpoint) :
    arrives e.outbound = some (postProduct e.outbound.contentType e.outbound.body) := by
  cases e <;> decide

/-- The network `localNetwork` is one on which the Product Service answers. -/
theorem localNetwork_serves (lib : Unmodelled) : ServedByProductService lib (localNetwork lib) := by
  intro out req h
  refine ⟨⟨(productEngine lib req).writer.status,
    [⟨(productEngine lib req).writer.body, ReadEnd.more⟩]⟩, ?_, rfl, rfl, ?_⟩
  · simp only [localNetwork, h]
  · simp [ReadAll, readAllFrom]

/-- C1: on a network on which the Product Service answers at `localhost:7586` and
its answer is read without error, each of the four Gateway handlers responds
with status 200 and a body equal to the JSON serialization of the record of its
literal payload. -/
theorem gateway_round_trip (lib : Unmodelled) (net : Downstream) (req : InboundRequest)
    (hnet : ServedByProductService lib net) :
    (AddProductForUrlencodedHandler net (Context.fresh req)).ctx.writer
        = ResponseWriter.mk 200 true none "\x7b\"name\":\"iPhoneX\",\"number\":100\x7d"
    ∧ (AddProductForPostFormHandler net (Context.fresh req)).ctx.writer
        = ResponseWriter.mk 200 true none "\x7b\"name\":\"iMac\",\"number\":1000\x7d"
    ∧ (AddProductForJSONHandler net (Context.fresh req)).ctx.writer
        = ResponseWriter.mk 200 true none "\x7b\"name\":\"MacPro\",\"number\":10000\x7d"
    ∧ (AddProductForXMLHandler net (Context.fresh req)).ctx.writer
        = ResponseWriter.mk 200 true none "\x7b\"name\":\"MacAir\",\"number\":100000\x7d" := by
  have key : ∀ e : Endpoint, (e.handler net (Context.fresh req)).ctx.writer
      = ResponseWriter.mk 200 true none
          (productEngine lib (postProduct e.outbound.contentType e.outbound.body)).writer.body := by
    intro e
    obtain ⟨resp, hsend, _, hread, hall⟩ := hnet e.outbound _ (arrives_outbound e)
    rw [handler_answered e net _ resp hsend, hread]
    simp only [Context.fresh, reset_writeString, hall]
  obtain ⟨e1, e2, e3, e4⟩ := engine_on_gateway_payloads lib
  have hform : Values.Encode [("name", ["iMac"]), ("number", ["1000"])]
      = "name=iMac&number=1000" := by decide
  have k1 := key Endpoint.urlencoded
  have k2 := key Endpoint.postForm
  have k3 := key Endpoint.json
  have k4 := key Endpoint.xml
  simp only [Endpoint.outbound, Endpoint.handler, hform, e1, e2, e3, e4] at k1 k2 k3 k4
  exact ⟨k1, k2, k3, k4⟩

/-- C1 on the network where the answer of the Product Service comes back in one read. -/
theorem gateway_round_trip_witness :
    (AddProductForUrlencodedHandler (localNetwork Unmodelled.sample)
        (Context.fresh (postProduct "" ""))).ctx.writer
        = ResponseWriter.mk 200 true none "\x7b\"name\":\"iPhoneX\",\"number\":100\x7d"
    ∧ (AddProductForPostFormHandler (localNetwork Unmodelled.sample)
        (Context.fresh (postProduct "" ""))).ctx.writer
        = ResponseWriter.mk 200 true none "\x7b\"name\":\"iMac\",\"number\":1000\x7d"
    ∧ (AddProductForJSONHandler (localNetwork Unmodelled.sample)
        (Context.fresh (postProduct "" ""))).ctx.writer
        = ResponseWriter.mk 200 true none "\x7b\"name\":\"MacPro\",\"number\":10000\x7d"
    ∧ (AddProductForXMLHandler (localNetwork Unmodelled.sample)
        (Context.fresh (postProduct "" ""))).ctx.writer
        = ResponseWriter.mk 200 true none "\x7b\"name\":\"MacAir\",\"number\":100000\x7d" :=
  gateway_round_trip Unmodelled.sample (localNetwork Unmodelled.sample) (postProduct "" "")
    (localNetwork_serves Unmodelled.sample)

end SendPostRequest
